import Mathlib

/-!
# Zoti dataflow node runtime: configuration protocol, event reactor, atom table, stream queue

A shallow embedding of four pieces of C code of the repository,

* `src/example/target/c_lib/dfl_cfg.c` (the bootstrap configuration protocol),
* `src/example/prod-cons/target/c_lib/dfl_evt.c` (the event reactor),
* template `CFG_atom.C` of `src/example/templatelib/Generic/dfl.c` with
  `DFL_atom_is_valid` of `src/example/prod-cons/target/c_lib/DFL_core.h` (the atom handler), and
* `src/zoti-yaml/example/app/kernels/StreamQ.h` (the block queue of a stream),

followed by theorems about them.

Conventions of the embedding.

* A C string is a `List Char`: the characters before the terminating NUL.  Reading at the
  end of the list reads the NUL.  A `char *` that may be `NULL` is an `Option CStr`.
* Machine integers are `Int`/`Nat`; where the C arithmetic can leave the range of its
  type the wrap is written out (`wrap64`, `to_int32`).
* Calls through function pointers are recorded in a call trace, and the callee is a
  parameter of the embedding.
* What the operating system answers (`socket`, `accept`, `ppoll`, `clock_gettime`) is an
  input of the embedding.
* `Run α` is the result of running a piece of code: it finished with a value, it ran into
  undefined behaviour (null dereference, access past a table), or the step budget given to
  an unbounded loop was used up.
-/

namespace Zoti

/-- Result of running a piece of C code. -/
inductive Run (α : Type) where
  /-- the code ran to its end and produced `a` -/
  | ok (a : α)
  /-- the code ran into undefined behaviour (null dereference, access past a table,
  call through a null function pointer) -/
  | crash
  /-- the step budget given to an unbounded loop was used up -/
  | nofuel
  deriving DecidableEq, Repr

/-- C string: the characters before the terminating NUL. -/
abbrev CStr := List Char

/-! ## `dfl_cfg.c`: the configuration protocol -/

/-- Conversion of a `long` to `int32_t` (two's complement wrap, as gcc and clang do). -/
def to_int32 (x : Int) : Int := (x + 2 ^ 31) % 2 ^ 32 - 2 ^ 31

/-- Constant `LONG_MAX` of an LP64 target. -/
def LONG_MAX : Int := 2 ^ 63 - 1

/-- Constant `LONG_MIN` of an LP64 target. -/
def LONG_MIN : Int := -(2 ^ 63)

/-- Function `isspace` of the C locale. -/
def isspace (c : Char) : Bool :=
  c = ' ' || c = '\t' || c = '\n' || c = '\x0b' || c = '\x0c' || c = '\r'

/-- Value of a character as a digit of `strtol` (letters stand for 10..35). -/
def digit_val (c : Char) : Option Nat :=
  if '0' ≤ c ∧ c ≤ '9' then some (c.toNat - 48)
  else if 'a' ≤ c ∧ c ≤ 'z' then some (c.toNat - 97 + 10)
  else if 'A' ≤ c ∧ c ≤ 'Z' then some (c.toNat - 65 + 10)
  else none

/-- The digit loop of `strtol`: consumes the digits valid in `base`, returns the
accumulated magnitude, the number of digits consumed and the unread rest. -/
def strtol_digits (base : Nat) : CStr → Nat → Nat → Nat × Nat × CStr
  | [], acc, n => (acc, n, [])
  | c :: cs, acc, n =>
    match digit_val c with
    | some d => if d < base then strtol_digits base cs (acc * base + d) (n + 1)
                else (acc, n, c :: cs)
    | none => (acc, n, c :: cs)

/-- Whether the string starts with a hexadecimal prefix `0x`/`0X` followed by a
hexadecimal digit. -/
def has_hex_lead : CStr → Bool
  | '0' :: x :: d :: _ =>
    (x = 'x' || x = 'X') &&
      (match digit_val d with
       | some v => decide (v < 16)
       | none => false)
  | _ => false

/-- The C library's `strtol(nptr, &endptr, 0)` on an LP64 target: skips white space, reads
an optional sign, picks the base from the lead (`0x` hexadecimal, `0` octal, otherwise
decimal), reads the digits and clamps to the range of `long`.  Returns the value and the
string at `endptr`; when no digit is read the value is 0 and `endptr` is `nptr`. -/
def strtol (nptr : CStr) : Int × CStr :=
  let s := nptr.dropWhile isspace
  let (neg, s1) :=
    match s with
    | '-' :: t => (true, t)
    | '+' :: t => (false, t)
    | _ => (false, s)
  let (base, s2) :=
    if has_hex_lead s1 then (16, s1.drop 2)
    else match s1 with
      | '0' :: _ => (8, s1)
      | _ => (10, s1)
  let (mag, n, rest) := strtol_digits base s2 0 0
  if n = 0 then (0, nptr)
  else
    let v : Int := if neg then -(mag : Int) else (mag : Int)
    (if v > LONG_MAX then LONG_MAX else if v < LONG_MIN then LONG_MIN else v, rest)

/-- A call made through one of the four handler pointers of `dfl_cfg.c`. -/
inductive CfgCall where
  /-- Call `in_port_handler(name, ip_port)` -/
  | in_port (name : CStr) (ip_port : Int)
  /-- Call `out_port_handler(name, host, ip_port)` -/
  | out_port (name : CStr) (host : CStr) (ip_port : Int)
  /-- Call `atom_handler(cnt, name, id_nr)`; `name = none` is the null pointer of the final
  call -/
  | atom (cnt : Nat) (name : Option CStr) (id_nr : Int)
  deriving DecidableEq, Repr

/-- The four static handler pointers of `dfl_cfg.c` (`none` is the null pointer).  A
handler is a function of its arguments and of the state `σ` of the code behind it; it
returns its `int` result and the new state. -/
structure Handlers (σ : Type) where
  in_port_handler : Option (CStr → Int → σ → Int × σ)
  out_port_handler : Option (CStr → CStr → Int → σ → Int × σ)
  timer_handler : Option (CStr → Nat → σ → Int × σ)
  atom_handler : Option (Nat → Option CStr → Int → σ → Int × σ)

/-- Function `dfl_cfg_set_handlers`: replaces the four handler pointers and returns 0. -/
def dfl_cfg_set_handlers {σ : Type} (_old : Handlers σ)
    (in_port_hdlr : Option (CStr → Int → σ → Int × σ))
    (out_port_hdlr : Option (CStr → CStr → Int → σ → Int × σ))
    (timer_hdlr : Option (CStr → Nat → σ → Int × σ))
    (atom_hdlr : Option (Nat → Option CStr → Int → σ → Int × σ)) : Int × Handlers σ :=
  (0, ⟨in_port_hdlr, out_port_hdlr, timer_hdlr, atom_hdlr⟩)

/-- What the record functions carry along: the caller's `parse_point` (`none` is `NULL`),
the state of the code behind the handlers and the handler calls made so far. -/
structure Cfg (σ : Type) where
  parse_point : Option CStr
  hstate : σ
  calls : List CfgCall

/-- The copy loop of `parse_next_element`: with `room` places left in `elem_buf`, copies
characters of the line up to a comma, a newline or the NUL; returns the characters copied
and the line from `line[line_idx]` on. -/
def parse_copy : Nat → CStr → CStr × CStr
  | 0, rest => ([], rest)
  | _ + 1, [] => ([], [])
  | room + 1, c :: cs =>
    if c = ',' ∨ c = '\n' ∨ c = '\x00' then ([], c :: cs)
    else
      let r := parse_copy room cs
      (c :: r.1, r.2)

/-- Function `parse_next_element(parse_point, elem_buf, buf_size)`: returns the status, the new
`*parse_point` and the contents of `elem_buf`.  A null `*parse_point` is dereferenced:
undefined behaviour. -/
def parse_next_element (parse_point : Option CStr) (buf_size : Int) :
    Run (Int × Option CStr × CStr) :=
  match parse_point with
  | none => .crash
  | some line =>
    let max_size : Int := if buf_size - 1 > 0 then buf_size - 1 else 0
    let r := parse_copy max_size.toNat line
    let elem_buf := r.1
    let end_char : Char := r.2.headD '\x00'
    if end_char = ',' then .ok (1, some r.2.tail, elem_buf)
    else if end_char = '\n' then .ok (0, some r.2.tail, elem_buf)
    else if end_char = '\x00' then .ok (0, none, elem_buf)
    else .ok (-91, some line, elem_buf)

/-- Function `process_in_port(parse_point)`: the returned status and what it leaves behind. -/
def process_in_port {σ : Type} (h : Handlers σ) (c : Cfg σ) : Run (Int × Cfg σ) :=
  match h.in_port_handler with
  | none => .ok (0, c)
  | some handler =>
    match parse_next_element c.parse_point 100 with
    | .crash => .crash
    | .nofuel => .nofuel
    | .ok (parse_res, pp1, name) =>
      if parse_res < 0 ∨ name = [] then .ok (parse_res, { c with parse_point := pp1 })
      else
        match parse_next_element pp1 100 with
        | .crash => .crash
        | .nofuel => .nofuel
        | .ok (parse_res, pp2, _host) =>
          if parse_res < 0 then .ok (parse_res, { c with parse_point := pp2 })
          else
            match parse_next_element pp2 20 with
            | .crash => .crash
            | .nofuel => .nofuel
            | .ok (parse_res, pp3, nr_buf) =>
              if parse_res < 0 ∨ nr_buf = [] then
                .ok (parse_res, { c with parse_point := pp3 })
              else
                let r := strtol nr_buf
                let ip_port := to_int32 r.1
                if nr_buf = [] ∨ r.2 ≠ [] then .ok (-41, { c with parse_point := pp3 })
                else
                  let hr := handler name ip_port c.hstate
                  let c1 : Cfg σ :=
                    { parse_point := pp3, hstate := hr.2,
                      calls := c.calls ++ [.in_port name ip_port] }
                  if hr.1 < 0 then .ok (-42, c1) else .ok (0, c1)

/-- Function `process_out_port(parse_point)`: the returned status and what it leaves behind. -/
def process_out_port {σ : Type} (h : Handlers σ) (c : Cfg σ) : Run (Int × Cfg σ) :=
  match h.out_port_handler with
  | none => .ok (0, c)
  | some handler =>
    match parse_next_element c.parse_point 100 with
    | .crash => .crash
    | .nofuel => .nofuel
    | .ok (parse_res, pp1, name) =>
      if parse_res < 0 ∨ name = [] then .ok (parse_res, { c with parse_point := pp1 })
      else
        match parse_next_element pp1 100 with
        | .crash => .crash
        | .nofuel => .nofuel
        | .ok (parse_res, pp2, host0) =>
          if parse_res < 0 then .ok (parse_res, { c with parse_point := pp2 })
          else
            let host : CStr := if host0 = [] then "localhost".toList else host0
            match parse_next_element pp2 20 with
            | .crash => .crash
            | .nofuel => .nofuel
            | .ok (parse_res, pp3, nr_buf) =>
              if parse_res < 0 ∨ nr_buf = [] then
                .ok (parse_res, { c with parse_point := pp3 })
              else
                let r := strtol nr_buf
                let ip_port := to_int32 r.1
                if nr_buf = [] ∨ r.2 ≠ [] then .ok (-51, { c with parse_point := pp3 })
                else
                  let hr := handler name host ip_port c.hstate
                  let c1 : Cfg σ :=
                    { parse_point := pp3, hstate := hr.2,
                      calls := c.calls ++ [.out_port name host ip_port] }
                  if hr.1 < 0 then .ok (-52, c1) else .ok (0, c1)

/-- Function `process_timer(parse_point)`: not yet implemented in the source, returns 0. -/
def process_timer {σ : Type} (_h : Handlers σ) (c : Cfg σ) : Run (Int × Cfg σ) :=
  .ok (0, c)

/-- One entry of the local table `atoms` of `process_atoms`. -/
structure atom_entry_t where
  name : CStr
  id_nr : Int
  deriving DecidableEq, Repr

/-- Size of the local table `atoms` of `process_atoms`. -/
def MAX_ATOMS : Nat := 100

/-- The parsing loop of `process_atoms`, `while (parse_res > 0 && atoms_len < MAX_ATOMS)`,
with `room = MAX_ATOMS - atoms_len`.  The result is `Sum.inl status` when the loop body
returns from the function, and `Sum.inr (parse_res, atoms)` when the loop ends; next to it
the new `*parse_point`. -/
def process_atoms_loop : Nat → Int → Option CStr → List atom_entry_t →
    Run (Sum Int (Int × List atom_entry_t) × Option CStr)
  | 0, parse_res, pp, atoms => .ok (.inr (parse_res, atoms), pp)
  | room + 1, parse_res, pp, atoms =>
    if parse_res > 0 then
      match parse_next_element pp 100 with
      | .crash => .crash
      | .nofuel => .nofuel
      | .ok (r1, pp1, name) =>
        if r1 < 0 ∨ name = [] then .ok (.inl r1, pp1)
        else
          match parse_next_element pp1 20 with
          | .crash => .crash
          | .nofuel => .nofuel
          | .ok (r2, pp2, nr_buf) =>
            if r2 < 0 ∨ nr_buf = [] then .ok (.inl r2, pp2)
            else
              let r := strtol nr_buf
              let id_nr := to_int32 r.1
              if nr_buf = [] ∨ r.2 ≠ [] then .ok (.inl (-71), pp2)
              else if id_nr < 0 then .ok (.inl (-72), pp2)
              else process_atoms_loop room r2 pp2 (atoms ++ [⟨name, id_nr⟩])
    else .ok (.inr (parse_res, atoms), pp)

/-- The loop of `process_atoms` that hands the collected atoms to the handler: stops at
the first negative result.  Returns whether a call was rejected, the state and the calls. -/
def atoms_call_loop {σ : Type} (handler : Nat → Option CStr → Int → σ → Int × σ)
    (atoms_len : Nat) : List atom_entry_t → σ → List CfgCall → Bool × σ × List CfgCall
  | [], s, calls => (false, s, calls)
  | a :: as, s, calls =>
    let hr := handler atoms_len (some a.name) a.id_nr s
    let calls1 := calls ++ [.atom atoms_len (some a.name) a.id_nr]
    if hr.1 < 0 then (true, hr.2, calls1)
    else atoms_call_loop handler atoms_len as hr.2 calls1

/-- Function `process_atoms(parse_point)`: the returned status and what it leaves behind. -/
def process_atoms {σ : Type} (h : Handlers σ) (c : Cfg σ) : Run (Int × Cfg σ) :=
  match h.atom_handler with
  | none => .ok (0, c)
  | some handler =>
    let parse_res0 : Int := if c.parse_point = none then 0 else 1
    match process_atoms_loop MAX_ATOMS parse_res0 c.parse_point [] with
    | .crash => .crash
    | .nofuel => .nofuel
    | .ok (.inl status, pp) => .ok (status, { c with parse_point := pp })
    | .ok (.inr (parse_res, atoms), pp) =>
      if parse_res > 0 ∧ atoms.length ≥ MAX_ATOMS then
        .ok (-73, { c with parse_point := pp })
      else
        let r := atoms_call_loop handler atoms.length atoms c.hstate c.calls
        if r.1 then .ok (-74, { parse_point := pp, hstate := r.2.1, calls := r.2.2 })
        else
          let hr := handler atoms.length none 0 r.2.1
          let c1 : Cfg σ :=
            { parse_point := pp, hstate := hr.2,
              calls := r.2.2 ++ [.atom atoms.length none 0] }
          if hr.1 < 0 then .ok (-75, c1) else .ok (0, c1)

/-- Runs one of the record functions for `process_csv_line`, which ignores the status it
returns and keeps what it left behind. -/
def after_record {σ : Type} (parse_res : Int) : Run (Int × Cfg σ) → Run (Int × Cfg σ)
  | .ok (_, c) => .ok (parse_res, c)
  | .crash => .crash
  | .nofuel => .nofuel

/-- Function `process_csv_line(parse_point)`: the returned status and what it leaves behind. -/
def process_csv_line {σ : Type} (h : Handlers σ) (c : Cfg σ) : Run (Int × Cfg σ) :=
  match parse_next_element c.parse_point 20 with
  | .crash => .crash
  | .nofuel => .nofuel
  | .ok (parse_res, pp, cfg_kind) =>
    let c1 : Cfg σ := { c with parse_point := pp }
    if parse_res < 0 then .ok (-31, c1)
    else if cfg_kind = "in-port".toList then after_record parse_res (process_in_port h c1)
    else if cfg_kind = "out-port".toList then after_record parse_res (process_out_port h c1)
    else if cfg_kind = "timer".toList then after_record parse_res (process_timer h c1)
    else if cfg_kind = "atoms".toList then after_record parse_res (process_atoms h c1)
    else .ok (-32, c1)

/-- What `dfl_cfg_read_and_process` has done when it returns: the lines it handed to
`process_csv_line` with the status each returned, the handler calls made, the state of the
code behind the handlers and the final `buf_idx`. -/
structure CfgDone (σ : Type) where
  records : List (CStr × Int)
  calls : List CfgCall
  hstate : σ
  buf_idx : Nat

/-- The record loop of `dfl_cfg_read_and_process`, `while (buf_idx < recv_cnt)`, over the
received bytes `buf` (`recv_cnt = buf.length`).  The inner `for` copies the bytes from
`buf_idx` up to the next newline into `line` and leaves `buf_idx` on that newline; the
line is read as a C string, so it ends at its first NUL.  `fuel` bounds the number of
turns of the `while`. -/
def read_loop {σ : Type} (h : Handlers σ) (buf : List Char) :
    Nat → Nat → σ → List CfgCall → List (CStr × Int) → Run (CfgDone σ)
  | 0, _, _, _, _ => .nofuel
  | fuel + 1, buf_idx, s, calls, records =>
    if buf_idx < buf.length then
      let copied := (buf.drop buf_idx).takeWhile (fun ch => ch ≠ '\n')
      let buf_idx1 := buf_idx + copied.length
      let line : CStr := copied.takeWhile (fun ch => ch ≠ '\x00')
      match process_csv_line h { parse_point := some line, hstate := s, calls := calls } with
      | .crash => .crash
      | .nofuel => .nofuel
      | .ok (process_res, c) =>
        if process_res < 0 then
          .ok ⟨records ++ [(line, process_res)], c.calls, c.hstate, buf_idx1⟩
        else read_loop h buf fuel buf_idx1 c.hstate c.calls (records ++ [(line, process_res)])
    else .ok ⟨records, calls, s, buf_idx⟩

/-- Function `dfl_cfg_read_and_process(sock)` for a datagram `buf` that `recvfrom` delivered
(`0 < buf.length ≤ 1000`), from the state `s` of the code behind the handlers. -/
def dfl_cfg_read_and_process {σ : Type} (h : Handlers σ) (fuel : Nat) (buf : List Char)
    (s : σ) : Run (CfgDone σ) :=
  read_loop h buf fuel 0 s [] []

/-! ## `dfl_evt.c`: the event reactor -/

/-- Type `dfl_evt_socktype_t` of `dfl_evt.h`. -/
inductive dfl_evt_socktype_t where
  | socktype_none
  | socktype_udp
  | socktype_tcp
  deriving DecidableEq, Repr

/-- A value of the function pointer type `dfl_evt_reader`: the null pointer, the static
function `accept_connection` of `dfl_evt.c`, or a reader of the caller. -/
inductive dfl_evt_reader where
  | null
  | accept_connection
  | user (id : Nat)
  deriving DecidableEq, Repr

/-- Type `dfl_evt_port_t`: one entry of the table `ports` (`port` is a `uint16_t`). -/
structure dfl_evt_port_t where
  socktype : dfl_evt_socktype_t
  port : Nat
  fd : Int
  reader : dfl_evt_reader
  reader_to_install : dfl_evt_reader
  deriving DecidableEq, Repr

/-- Type `struct pollfd` of `<poll.h>`. -/
structure pollfd where
  fd : Int
  events : Nat
  revents : Nat
  deriving DecidableEq, Repr

/-- Type `struct timespec` of `<time.h>`. -/
structure timespec where
  tv_sec : Int
  tv_nsec : Int
  deriving DecidableEq, Repr

/-- Size of the tables `ports` and `active_polls`. -/
def PORTS_MAX : Nat := 20

/-- Constant `NSECS_IN_SEC` of `dfl_evt.c`. -/
def NSECS_IN_SEC : Int := 1000000000

/-- Constant `NSEC_50` of `dfl_evt.c`. -/
def NSEC_50 : Int := 50000

/-- Constant `POLLIN` of `<poll.h>` on Linux. -/
def POLLIN : Nat := 0x001

/-- Constant `POLLERR` of `<poll.h>` on Linux. -/
def POLLERR : Nat := 0x008

/-- Constant `POLLHUP` of `<poll.h>` on Linux. -/
def POLLHUP : Nat := 0x010

/-- Constant `POLLNVAL` of `<poll.h>` on Linux. -/
def POLLNVAL : Nat := 0x020

/-- The static variables of `dfl_evt.c`.  `timer_action` is a function pointer: `none` is
the null pointer, `some id` an action of the caller. -/
structure EvtState where
  ports : List dfl_evt_port_t
  active_polls : List pollfd
  high_mark : Nat
  last_poll_idx : Nat
  next_time_trig : Int
  timer_action : Option Nat
  deriving DecidableEq, Repr

/-- A zero-initialised entry of `ports`. -/
def port_zero : dfl_evt_port_t :=
  ⟨.socktype_none, 0, 0, .null, .null⟩

/-- A zero-initialised entry of `active_polls`. -/
def pollfd_zero : pollfd := ⟨0, 0, 0⟩

/-- The static variables at program start. -/
def evt_init : EvtState :=
  { ports := List.replicate PORTS_MAX port_zero,
    active_polls := List.replicate PORTS_MAX pollfd_zero,
    high_mark := 0, last_poll_idx := 0, next_time_trig := 0, timer_action := none }

/-- Arithmetic of `int64_t` that leaves the range wraps around. -/
def wrap64 (x : Int) : Int := (x + 2 ^ 63) % 2 ^ 64 - 2 ^ 63

/-- What `clock_gettime(CLOCK_REALTIME, &now_ts)` answers: its return value and the time
it stored. -/
structure ClockRead where
  ret : Int
  ts : timespec
  deriving DecidableEq, Repr

/-- The expression `((int64_t)now_ts.tv_sec) * NSECS_IN_SEC + now_ts.tv_nsec`. -/
def ts_nsec (ts : timespec) : Int :=
  wrap64 (wrap64 (ts.tv_sec * NSECS_IN_SEC) + ts.tv_nsec)

/-- Function `dfl_evt_add_timer(timeout_nsecs, evt_action)`, with the answer of `clock_gettime`
(consulted only when `timeout_nsecs >= 0`). -/
def dfl_evt_add_timer (timeout_nsecs : Int) (evt_action : Option Nat) (clock : ClockRead)
    (st : EvtState) : Int × EvtState :=
  if timeout_nsecs ≥ 0 then
    if clock.ret = 0 then
      let now := ts_nsec clock.ts
      (0, { st with next_time_trig := wrap64 (now + timeout_nsecs),
                    timer_action := evt_action })
    else (0, { st with next_time_trig := 0, timer_action := none })
  else (0, { st with next_time_trig := 0, timer_action := none })

/-- The `for` loop of `find_free_slot`, with `k = high_mark - idx` turns left: the value of
`idx` when the loop ends.  Reading `ports[idx]` past the table is undefined behaviour. -/
def find_free_slot_loop (ports : List dfl_evt_port_t) : Nat → Nat → Run Nat
  | 0, idx => .ok idx
  | k + 1, idx =>
    match ports[idx]? with
    | none => .crash
    | some p => if p.port = 0 then .ok idx else find_free_slot_loop ports k (idx + 1)

/-- Function `find_free_slot()`: the returned `int` and the static variables afterwards. -/
def find_free_slot (st : EvtState) : Run (Int × EvtState) :=
  match find_free_slot_loop st.ports st.high_mark 0 with
  | .crash => .crash
  | .nofuel => .nofuel
  | .ok idx =>
    if idx ≥ st.high_mark then
      let st1 := { st with high_mark := st.high_mark + 1 }
      if st1.high_mark ≥ PORTS_MAX then .ok (-1, st1) else .ok ((idx : Int), st1)
    else .ok ((idx : Int), st)

/-- The `for` loop of `find_slot_by_sock`, with `k = high_mark - idx` turns left. -/
def find_slot_by_sock_loop (ports : List dfl_evt_port_t) (sock : Int) : Nat → Nat → Run Int
  | 0, _ => .ok (-1)
  | k + 1, idx =>
    match ports[idx]? with
    | none => .crash
    | some p => if p.fd = sock then .ok (idx : Int)
                else find_slot_by_sock_loop ports sock k (idx + 1)

/-- Function `find_slot_by_sock(sock)`. -/
def find_slot_by_sock (st : EvtState) (sock : Int) : Run Int :=
  find_slot_by_sock_loop st.ports sock st.high_mark 0

/-- Function `set_slot(idx, socktype, port, sock, evt_reader, reader_to_install)`; both compound
literals leave the members they do not name zero.  Writing past a table is undefined
behaviour. -/
def set_slot (st : EvtState) (idx : Nat) (socktype : dfl_evt_socktype_t) (port : Nat)
    (sock : Int) (evt_reader reader_to_install : dfl_evt_reader) : Run EvtState :=
  if idx < st.ports.length ∧ idx < st.active_polls.length then
    .ok { st with
      ports := st.ports.set idx ⟨socktype, port, sock, evt_reader, reader_to_install⟩,
      active_polls := st.active_polls.set idx ⟨sock, POLLIN, 0⟩ }
  else .crash

/-- Function `accept_connection(acc_sock)`, with the value `accept` returns. -/
def accept_connection (st : EvtState) (acc_sock : Int) (new_sock : Int) : Run EvtState :=
  match find_slot_by_sock st acc_sock with
  | .crash => .crash
  | .nofuel => .nofuel
  | .ok acc_idx =>
    if acc_idx < 0 then .ok st
    else if new_sock < 0 then .ok st
    else
      match find_free_slot st with
      | .crash => .crash
      | .nofuel => .nofuel
      | .ok (idx, st1) =>
        if idx < 0 then .ok st1
        else
          match st1.ports[acc_idx.toNat]? with
          | none => .crash
          | some acc =>
            set_slot st1 idx.toNat acc.socktype acc.port new_sock acc.reader_to_install .null

/-- What the socket calls of `dfl_evt_add_port` return. -/
structure SockEnv where
  socket : Int
  setsockopt : Int
  bind : Int
  listen : Int
  deriving DecidableEq, Repr

/-- Function `dfl_evt_add_port(socktype, port, evt_reader)`: the returned `int` and the static
variables afterwards.  `port` is the `uint16_t` the function receives. -/
def dfl_evt_add_port (st : EvtState) (socktype : dfl_evt_socktype_t) (port : Nat)
    (evt_reader : dfl_evt_reader) (env : SockEnv) : Run (Int × EvtState) :=
  match find_free_slot st with
  | .crash => .crash
  | .nofuel => .nofuel
  | .ok (idx, st1) =>
    if idx < 0 then .ok (-1, st1)
    else
      match socktype with
      | .socktype_none => .ok (-4, st1)
      | .socktype_udp =>
        if env.socket < 0 then .ok (-2, st1)
        else if env.setsockopt < 0 then .ok (-6, st1)
        else if env.bind < 0 then .ok (-3, st1)
        else
          match set_slot st1 idx.toNat socktype port env.socket evt_reader .null with
          | .ok st2 => .ok (0, st2)
          | .crash => .crash
          | .nofuel => .nofuel
      | .socktype_tcp =>
        if env.socket < 0 then .ok (-2, st1)
        else if env.setsockopt < 0 then .ok (-6, st1)
        else if env.bind < 0 then .ok (-3, st1)
        else if env.listen ≠ 0 then .ok (-5, st1)
        else
          match set_slot st1 idx.toNat socktype port env.socket .accept_connection
              evt_reader with
          | .ok st2 => .ok (0, st2)
          | .crash => .crash
          | .nofuel => .nofuel

/-- Whether `revents & (POLLERR | POLLHUP | POLLNVAL)` is non-zero. -/
def has_error_flag (revents : Nat) : Bool :=
  revents &&& (POLLERR ||| POLLHUP ||| POLLNVAL) != 0

/-- Whether `(revents & POLLIN) != 0`. -/
def has_pollin (revents : Nat) : Bool :=
  revents &&& POLLIN != 0

/-- How the readiness scan of `dfl_evt_wait_n_eval` ends. -/
inductive ScanResult where
  /-- an error flag was found: `return -10` -/
  | fatal (st : EvtState)
  /-- slot `idx` has input: `ports[idx].reader(ports[idx].fd); return 0` -/
  | serve (st : EvtState) (idx : Nat)
  /-- the condition of the `while` became false -/
  | exit (st : EvtState)
  deriving DecidableEq, Repr

/-- The statement `if (idx >= high_mark) { idx = 0; }` of the readiness scan: the new
value of `idx`. -/
def wrap_idx (high_mark idx : Nat) : Nat :=
  if idx ≥ high_mark then 0 else idx

/-- The loop `while (idx != last_poll_idx)` of `dfl_evt_wait_n_eval`; `fuel` bounds the
number of turns. -/
def scan_loop : Nat → EvtState → Nat → Run ScanResult
  | 0, _, _ => .nofuel
  | fuel + 1, st, idx =>
    if idx ≠ st.last_poll_idx then
      match st.active_polls[wrap_idx st.high_mark idx]? with
      | none => .crash
      | some p =>
        if has_error_flag p.revents then
          .ok (.fatal { st with last_poll_idx := wrap_idx st.high_mark idx })
        else if has_pollin p.revents then
          .ok (.serve { st with last_poll_idx := wrap_idx st.high_mark idx }
            (wrap_idx st.high_mark idx))
        else
          scan_loop fuel { st with last_poll_idx := wrap_idx st.high_mark idx }
            (wrap_idx st.high_mark idx + 1)
    else .ok (.exit st)

/-- The readiness scan of `dfl_evt_wait_n_eval`, entered when `res > 0 && high_mark > 0`:
`idx` starts at `last_poll_idx + 1`. -/
def readiness_scan (fuel : Nat) (st : EvtState) : Run ScanResult :=
  scan_loop fuel st (st.last_poll_idx + 1)

/-- A call that `dfl_evt_wait_n_eval` makes through a function pointer. -/
inductive EvtCall where
  /-- Call `timer_action(now)` -/
  | timer_action (id : Nat) (now : Int)
  /-- Call `ports[idx].reader(ports[idx].fd)` -/
  | reader (r : dfl_evt_reader) (fd : Int)
  deriving DecidableEq, Repr

/-- The code behind the function pointers of the caller: what a timer action and a reader
do to the static variables of `dfl_evt.c` (through `dfl_evt_add_timer`,
`dfl_evt_add_port`). -/
structure Callbacks where
  timer : Nat → Int → EvtState → EvtState
  reader : Nat → Int → EvtState → EvtState

/-- What `ppoll` answers: its return value, whether `errno` is `EINTR` when that is
negative, and the `revents` it stored for each slot. -/
structure PollAnswer where
  res : Int
  eintr : Bool
  revents : Nat → Nat

/-- What the operating system answers during one turn of the `do ... while (1)` of
`dfl_evt_wait_n_eval`: the clock before the wait, `ppoll` as a function of `nfds` and of
the timeout it is given (`none` is the null pointer), the clock after the wait, and
`accept` should the accept adapter run. -/
structure WaitEnv where
  clock_pre : ClockRead
  ppoll : Nat → Option timespec → PollAnswer
  clock_post : ClockRead
  accept : Int

/-- The first part of a turn of `dfl_evt_wait_n_eval`: the value of `timeout` before the
wait, and the static variables (a failing clock clears the timer). -/
def compute_timeout (st : EvtState) (clock : ClockRead) : EvtState × Int :=
  if st.next_time_trig > 0 then
    if clock.ret ≠ 0 then ({ st with next_time_trig := 0 }, -1)
    else
      let now := ts_nsec clock.ts
      let timeout := wrap64 (st.next_time_trig - now)
      (st, if timeout < 0 then 0 else timeout)
  else (st, -1)

/-- The pointer `timeout_p` handed to `ppoll`: null for a negative `timeout`, otherwise
`timeout` split into seconds and nanoseconds (C division truncates). -/
def timeout_ts (timeout : Int) : Option timespec :=
  if timeout < 0 then none
  else some ⟨timeout.tdiv NSECS_IN_SEC, timeout.tmod NSECS_IN_SEC⟩

/-- The table `active_polls` after `ppoll` stored `revents` into its first `nfds`
entries; `i` is the index of the head of the list. -/
def ppoll_store (revents : Nat → Nat) (nfds : Nat) : Nat → List pollfd → List pollfd
  | _, [] => []
  | i, p :: ps =>
    (if i < nfds then { p with revents := revents i } else p) ::
      ppoll_store revents nfds (i + 1) ps

/-- What `dfl_evt_wait_n_eval` has done when it returns. -/
structure WaitDone where
  res : Int
  st : EvtState
  calls : List EvtCall
  deriving DecidableEq

/-- The call `ports[idx].reader(ports[idx].fd); return 0;` of the readiness scan. -/
def call_reader (cb : Callbacks) (accept_res : Int) (st : EvtState) (idx : Nat) :
    Run WaitDone :=
  match st.ports[idx]? with
  | none => .crash
  | some p =>
    match p.reader with
    | .null => .crash
    | .accept_connection =>
      match accept_connection st p.fd accept_res with
      | .ok st1 => .ok ⟨0, st1, [.reader .accept_connection p.fd]⟩
      | .crash => .crash
      | .nofuel => .nofuel
    | .user id => .ok ⟨0, cb.reader id p.fd st, [.reader (.user id) p.fd]⟩

/-- How the block `if (res == 0) { ... }` of `dfl_evt_wait_n_eval` ends. -/
inductive TimerCheck where
  /-- the deadline has passed: `timer_action(now); return 0;` in the state `st` -/
  | fire (now : Int) (st : EvtState)
  /-- control goes on to the readiness scan with this value of `res` -/
  | pass (res : Int) (st : EvtState)
  deriving DecidableEq, Repr

/-- The block `if (res == 0) { ... }` after the wait of `dfl_evt_wait_n_eval`, with the
answer of the second `clock_gettime` (consulted only when `res == 0`). -/
def timer_check (st : EvtState) (res : Int) (clock : ClockRead) : TimerCheck :=
  if res = 0 then
    if clock.ret ≠ 0 then .pass clock.ret { st with next_time_trig := 0 }
    else
      let now := wrap64 (ts_nsec clock.ts + NSEC_50)
      if now ≥ st.next_time_trig ∧ st.next_time_trig > 0 then
        .fire now { st with next_time_trig := 0 }
      else .pass clock.ret st
  else .pass res st

/-- What `ppoll(active_polls, high_mark, timeout_p, 0)` answers in a turn of
`dfl_evt_wait_n_eval` that starts in state `st`. -/
def poll_answer (st : EvtState) (env : WaitEnv) : PollAnswer :=
  env.ppoll (compute_timeout st env.clock_pre).1.high_mark
    (timeout_ts (compute_timeout st env.clock_pre).2)

/-- The static variables when `ppoll` has returned without error in a turn of
`dfl_evt_wait_n_eval` that started in state `st`: `active_polls` holds the `revents` of
the answer. -/
def after_ppoll (st : EvtState) (env : WaitEnv) : EvtState :=
  { (compute_timeout st env.clock_pre).1 with
    active_polls :=
      ppoll_store (poll_answer st env).revents (compute_timeout st env.clock_pre).1.high_mark 0
        (compute_timeout st env.clock_pre).1.active_polls }

/-- Function `dfl_evt_wait_n_eval()`.  Each element of the list is what the operating system
answers during one turn of the `do ... while (1)`; when the list is used up the call is
still waiting.  `fuel` bounds the turns of the readiness scan. -/
def dfl_evt_wait_n_eval (cb : Callbacks) (fuel : Nat) :
    EvtState → List WaitEnv → Run WaitDone
  | _, [] => .nofuel
  | st, env :: envs =>
    if (compute_timeout st env.clock_pre).1.active_polls.length <
        (compute_timeout st env.clock_pre).1.high_mark then .crash
    else if (poll_answer st env).res < 0 then
      if (poll_answer st env).eintr then
        dfl_evt_wait_n_eval cb fuel (compute_timeout st env.clock_pre).1 envs
      else .ok ⟨(poll_answer st env).res, (compute_timeout st env.clock_pre).1, []⟩
    else
      match timer_check (after_ppoll st env) (poll_answer st env).res env.clock_post with
      | .fire now st3 =>
        match st3.timer_action with
        | none => .crash
        | some id => .ok ⟨0, cb.timer id now st3, [.timer_action id now]⟩
      | .pass res st3 =>
        if res > 0 ∧ st3.high_mark > 0 then
          match readiness_scan fuel st3 with
          | .crash => .crash
          | .nofuel => .nofuel
          | .ok (.fatal st4) => .ok ⟨-10, st4, []⟩
          | .ok (.serve st4 idx) => call_reader cb env.accept st4 idx
          | .ok (.exit st4) => dfl_evt_wait_n_eval cb fuel st4 envs
        else dfl_evt_wait_n_eval cb fuel st3 envs

/-! ## Call sequences

The program around the reactor calls its functions one after the other; the definitions
below run such sequences on the embedding. -/

/-- One call `dfl_evt_add_port(socktype, port, reader)` and what its socket calls return. -/
structure AddPortCall where
  socktype : dfl_evt_socktype_t
  port : Nat
  reader : dfl_evt_reader
  env : SockEnv
  deriving DecidableEq, Repr

/-- Runs a sequence of `dfl_evt_add_port` calls: the value each call returned, in call
order, and the static variables at the end. -/
def add_port_seq : EvtState → List AddPortCall → Run (List Int × EvtState)
  | st, [] => .ok ([], st)
  | st, c :: cs =>
    match dfl_evt_add_port st c.socktype c.port c.reader c.env with
    | .crash => .crash
    | .nofuel => .nofuel
    | .ok (r, st1) =>
      match add_port_seq st1 cs with
      | .crash => .crash
      | .nofuel => .nofuel
      | .ok (rs, st2) => .ok (r :: rs, st2)

/-- The calls `dfl_evt_add_port(dfl_evt_socktype_udp, i + 1, reader_i)` for `i < n`, every
socket call succeeding (`socket` returns the descriptor `i + 3`). -/
def udp_calls (n : Nat) : List AddPortCall :=
  (List.range n).map fun i => ⟨.socktype_udp, i + 1, .user i, ⟨(i : Int) + 3, 0, 0, 0⟩⟩

/-- A registration: a call of `dfl_evt_add_port`, or the reactor servicing slot `idx`, which
runs `accept_connection` when that is the slot's reader (`new_sock` is what `accept`
returns). -/
inductive RegOp where
  | add_port (socktype : dfl_evt_socktype_t) (port : Nat) (reader : dfl_evt_reader)
      (env : SockEnv)
  | service (idx : Nat) (new_sock : Int)
  deriving DecidableEq, Repr

/-- The static variables after one registration. -/
def reg_step (st : EvtState) : RegOp → Run EvtState
  | .add_port socktype port reader env =>
    match dfl_evt_add_port st socktype port reader env with
    | .ok (_, st1) => .ok st1
    | .crash => .crash
    | .nofuel => .nofuel
  | .service idx new_sock =>
    match st.ports[idx]? with
    | none => .crash
    | some p =>
      if p.reader = .accept_connection then accept_connection st p.fd new_sock
      else .ok st

/-- The static variables after a sequence of registrations. -/
def reg_run : EvtState → List RegOp → Run EvtState
  | st, [] => .ok st
  | st, op :: ops =>
    match reg_step st op with
    | .ok st1 => reg_run st1 ops
    | .crash => .crash
    | .nofuel => .nofuel

/-- A registration does not use port 0 (`add_port` with a non-zero port). -/
def RegOp.nonzero_port : RegOp → Prop
  | .add_port _ port _ _ => port ≠ 0
  | .service _ _ => True

/-- Whether slot `i` of `active_polls` has `POLLIN` in its `revents`. -/
def slot_ready (st : EvtState) (i : Nat) : Bool :=
  match st.active_polls[i]? with
  | some p => has_pollin p.revents
  | none => false

/-- Whether slot `i` of `active_polls` has an error flag in its `revents`. -/
def slot_error (st : EvtState) (i : Nat) : Bool :=
  match st.active_polls[i]? with
  | some p => has_error_flag p.revents
  | none => false

/-- Callbacks that leave the static variables of `dfl_evt.c` alone. -/
def cb_idle : Callbacks := ⟨fun _ _ st => st, fun _ _ st => st⟩

/-- The initial state after `dfl_evt_add_timer(1000000, action_7)` at clock reading 0: the
deadline is 1 000 000 ns. -/
def early_state : EvtState :=
  (dfl_evt_add_timer 1000000 (some 7) ⟨0, ⟨0, 0⟩⟩ evt_init).2

/-- A turn in which `ppoll` times out and the clock then reads 950 000 ns. -/
def early_env : WaitEnv :=
  ⟨⟨0, ⟨0, 0⟩⟩, fun _ _ => ⟨0, false, fun _ => 0⟩, ⟨0, ⟨0, 950000⟩⟩, -1⟩

/-- The tables have their `PORTS_MAX` entries and `high_mark` is within them. -/
def tables_in_bounds (st : EvtState) : Prop :=
  st.ports.length = PORTS_MAX ∧ st.active_polls.length = PORTS_MAX ∧ st.high_mark ≤ PORTS_MAX

instance (st : EvtState) : Decidable (tables_in_bounds st) := by
  unfold tables_in_bounds; infer_instance

/-- The registry after `dfl_evt_add_port` registered the UDP ports 1 and 2 (descriptors 3
and 4, readers 0 and 1) on the initial state; the cursor is 0. -/
def two_ports : EvtState :=
  match add_port_seq evt_init (udp_calls 2) with
  | .ok (_, st) => st
  | _ => evt_init

/-- A turn in which `ppoll` reports slot 1 readable. -/
def env_slot1_readable : WaitEnv :=
  ⟨⟨0, ⟨0, 0⟩⟩, fun _ _ => ⟨1, false, fun i => if i = 1 then POLLIN else 0⟩, ⟨0, ⟨0, 0⟩⟩, -1⟩

/-- A turn in which `ppoll` reports slot 1 readable and slot 0 in error. -/
def env_readable_then_error : WaitEnv :=
  ⟨⟨0, ⟨0, 0⟩⟩, fun _ _ => ⟨2, false, fun i => if i = 0 then POLLERR else POLLIN⟩,
   ⟨0, ⟨0, 0⟩⟩, -1⟩

/-- A turn in which `ppoll` reports slot 1 hung up and slot 0 readable. -/
def env_error_then_readable : WaitEnv :=
  ⟨⟨0, ⟨0, 0⟩⟩, fun _ _ => ⟨2, false, fun i => if i = 1 then POLLHUP else POLLIN⟩,
   ⟨0, ⟨0, 0⟩⟩, -1⟩

instance (o : RegOp) : Decidable o.nonzero_port := by
  cases o <;> unfold RegOp.nonzero_port <;> infer_instance

/-- The shape of the registry while every registration uses a non-zero port: both tables
have `PORTS_MAX` entries, the first `m` slots of `ports` are populated (`port ≠ 0`), they
lie below `high_mark`, and the other slots are as the program start left them. -/
def registry_inv_at (st : EvtState) (m : Nat) : Prop :=
  st.ports.length = PORTS_MAX ∧ st.active_polls.length = PORTS_MAX ∧
  m ≤ st.high_mark ∧ m ≤ PORTS_MAX ∧
  (∀ i, i < m → ∃ p, st.ports[i]? = some p ∧ p.port ≠ 0) ∧
  (∀ i, m ≤ i → i < PORTS_MAX → st.ports[i]? = some port_zero)

/-- What a registration does to the tables: nothing, or it fills one slot that was empty. -/
def fills_empty_slot (st st1 : EvtState) : Prop :=
  (st1.ports = st.ports ∧ st1.active_polls = st.active_polls) ∨
  ∃ (j : Nat) (p : dfl_evt_port_t), st.ports[j]? = some port_zero ∧ p.port ≠ 0 ∧
    st1.ports = st.ports.set j p ∧ st1.active_polls = st.active_polls.set j ⟨p.fd, POLLIN, 0⟩

/-- Two calls of `dfl_evt_add_port`, the first with port 0. -/
def port_zero_calls : List AddPortCall :=
  [⟨.socktype_udp, 0, .user 0, ⟨3, 0, 0, 0⟩⟩, ⟨.socktype_udp, 7, .user 1, ⟨4, 0, 0, 0⟩⟩]

/-- A TCP listener on port 80 and a UDP port 53 are registered, then the listener is
serviced and accepts a connection. -/
def sample_ops : List RegOp :=
  [.add_port .socktype_tcp 80 (.user 1) ⟨3, 0, 0, 0⟩,
   .add_port .socktype_udp 53 (.user 2) ⟨4, 0, 0, 0⟩,
   .service 0 5]

/-- The registry after `sample_ops`. -/
def sample_registry : EvtState :=
  match reg_run evt_init sample_ops with
  | .ok st => st
  | _ => evt_init

/-- The registry after `sample_ops` and one more accepted connection. -/
def sample_registry_next : EvtState :=
  match reg_step sample_registry (.service 0 6) with
  | .ok st => st
  | _ => evt_init

/-- A call of `dfl_evt_add_port` with a non-zero port and a supported socket type whose
socket calls all succeed. -/
def AddPortCall.goes_through (c : AddPortCall) : Prop :=
  c.port ≠ 0 ∧ c.socktype ≠ .socktype_none ∧ 0 ≤ c.env.socket ∧ 0 ≤ c.env.setsockopt ∧
    0 ≤ c.env.bind ∧ c.env.listen = 0

instance (c : AddPortCall) : Decidable c.goes_through := by
  unfold AddPortCall.goes_through; infer_instance

/-- A field of a record: no comma, no newline, no NUL. -/
def is_field (f : CStr) : Prop := ∀ c ∈ f, c ≠ ',' ∧ c ≠ '\n' ∧ c ≠ '\x00'

instance (f : CStr) : Decidable (is_field f) := by
  unfold is_field; infer_instance

/-- The text after a field starts with a comma or a newline, or the line ends there. -/
def ends_field (tail : CStr) : Prop :=
  tail.headD '\x00' = ',' ∨ tail.headD '\x00' = '\n' ∨ tail.headD '\x00' = '\x00'

instance (tail : CStr) : Decidable (ends_field tail) := by
  unfold ends_field; infer_instance

/-- What `parse_next_element` reports for the text after a field: the status and the new
`*parse_point`. -/
def after_field (tail : CStr) : Int × Option CStr :=
  if tail.headD '\x00' = ',' then (1, some tail.tail)
  else if tail.headD '\x00' = '\n' then (0, some tail.tail)
  else (0, none)

/-- A decimal literal: a non-empty string of decimal digits that starts with `0` only when
it is `0` itself. -/
def is_decimal (nr : CStr) : Prop :=
  nr ≠ [] ∧ (∀ c ∈ nr, '0' ≤ c ∧ c ≤ '9') ∧ (nr.head? = some '0' → nr = ['0'])

instance (nr : CStr) : Decidable (is_decimal nr) := by
  unfold is_decimal; infer_instance

/-- The number a string of decimal digits stands for, read from the accumulator `acc` on. -/
def dec_fold (acc : Nat) (nr : CStr) : Nat :=
  nr.foldl (fun a c => a * 10 + (c.toNat - 48)) acc

/-- The number a string of decimal digits stands for. -/
def dec_value (nr : CStr) : Nat := dec_fold 0 nr

/-- The sign step of `strtol`: whether a minus sign was read, and the text after the
optional sign. -/
def strtol_sign (s : CStr) : Bool × CStr :=
  match s with
  | '-' :: t => (true, t)
  | '+' :: t => (false, t)
  | _ => (false, s)

/-- The base step of `strtol` with base 0: the base chosen from the lead and the text the
digits are read from. -/
def strtol_base (s1 : CStr) : Nat × CStr :=
  if has_hex_lead s1 then (16, s1.drop 2)
  else match s1 with
    | '0' :: _ => (8, s1)
    | _ => (10, s1)

/-- The last step of `strtol`: the value and the end pointer from what the digit loop
returned. -/
def strtol_result (nptr : CStr) (neg : Bool) (r : Nat × Nat × CStr) : Int × CStr :=
  if r.2.1 = 0 then (0, nptr)
  else
    let v : Int := if neg then -(r.1 : Int) else (r.1 : Int)
    (if v > LONG_MAX then LONG_MAX else if v < LONG_MIN then LONG_MIN else v, r.2.2)

/-- Handlers that accept every call, and no timer handler. -/
def accept_all : Handlers Unit :=
  { in_port_handler := some (fun _ _ s => (0, s)),
    out_port_handler := some (fun _ _ _ s => (0, s)),
    timer_handler := none,
    atom_handler := some (fun _ _ _ s => (0, s)) }

/-- The bytes the inner `for` of `dfl_cfg_read_and_process` copies into `line` in a turn
that starts at `buf_idx`: up to the next newline. -/
def copied_at (buf : List Char) (buf_idx : Nat) : List Char :=
  (buf.drop buf_idx).takeWhile (fun ch => ch ≠ '\n')

/-- The C string `line` of a turn that starts at `buf_idx`. -/
def line_at (buf : List Char) (buf_idx : Nat) : CStr :=
  (copied_at buf buf_idx).takeWhile (fun ch => ch ≠ '\x00')

/-- The first field of a line: its characters before the first comma, newline or NUL. -/
def first_field (line : CStr) : CStr :=
  line.takeWhile (fun c => !(c = ',' || c = '\n' || c = '\x00'))

/-- The line from the end of its first field on. -/
def after_first (line : CStr) : CStr :=
  line.dropWhile (fun c => !(c = ',' || c = '\n' || c = '\x00'))

/-- The four kinds of record. -/
def known_kinds : List CStr :=
  ["in-port".toList, "out-port".toList, "timer".toList, "atoms".toList]

/-- The handler of a kind of record is not installed; a `timer` record has none to
install. -/
def handler_absent {σ : Type} (h : Handlers σ) (kind : CStr) : Prop :=
  (kind = "in-port".toList ∧ h.in_port_handler = none) ∨
  (kind = "out-port".toList ∧ h.out_port_handler = none) ∨
  (kind = "atoms".toList ∧ h.atom_handler = none) ∨
  kind = "timer".toList

/-- The registry after `dfl_evt_add_port(dfl_evt_socktype_tcp, port, reader 9)` on the
initial state, the socket calls succeeding with descriptor 3. -/
def tcp_listener (port : Nat) : EvtState :=
  match dfl_evt_add_port evt_init .socktype_tcp port (.user 9) ⟨3, 0, 0, 0⟩ with
  | .ok (_, st) => st
  | _ => evt_init

/-- A well-formed pair of an atoms record: a name that is a non-empty field of at most 99
characters, and an id written as a decimal literal below `2^31`. -/
def pair_ok (p : CStr × CStr) : Prop :=
  is_field p.1 ∧ p.1 ≠ [] ∧ p.1.length ≤ 99 ∧ is_decimal p.2 ∧ dec_value p.2 < 2 ^ 31

instance (p : CStr × CStr) : Decidable (pair_ok p) := by
  unfold pair_ok; infer_instance

/-- The entry of the table `atoms` that `process_atoms` stores for a pair. -/
def pair_entry (p : CStr × CStr) : atom_entry_t := ⟨p.1, (dec_value p.2 : Int)⟩

/-- The text `name1,id1,...,namen,idn` of the pairs of an atoms record, followed by
`tail`. -/
def atoms_text : List (CStr × CStr) → CStr → CStr
  | [], tail => tail
  | [p], tail => p.1 ++ ',' :: (p.2 ++ tail)
  | p :: q :: ps, tail => p.1 ++ ',' :: (p.2 ++ ',' :: atoms_text (q :: ps) tail)

/-- The text of pairs that are each followed by a comma, `name1,id1,...,namek,idk,`, and
then `rest`. -/
def pairs_then (ps : List (CStr × CStr)) (rest : CStr) : CStr :=
  ps.foldr (fun p acc => p.1 ++ ',' :: (p.2 ++ ',' :: acc)) rest

/-- The state of the code behind the atom handler after the calls for the entries of a
batch of `n` atoms. -/
def batch_state {σ : Type} (handler : Nat → Option CStr → Int → σ → Int × σ) (n : Nat)
    (atoms : List atom_entry_t) (s : σ) : σ :=
  atoms.foldl (fun t a => (handler n (some a.name) a.id_nr t).2) s

/-- The calls of the atom handler for the entries of a batch of `n` atoms. -/
def batch_calls (n : Nat) (atoms : List atom_entry_t) : List CfgCall :=
  atoms.map (fun a => .atom n (some a.name) a.id_nr)

/-- One hundred well-formed pairs `A,1`. -/
def hundred_pairs : List (CStr × CStr) := List.replicate 100 ("A".toList, "1".toList)

/-! ## Further inputs and predicates -/

/-- Handlers that reject every call: each returns -1. -/
def reject_all : Handlers Unit :=
  { in_port_handler := some (fun _ _ s => (-1, s)),
    out_port_handler := some (fun _ _ _ s => (-1, s)),
    timer_handler := none,
    atom_handler := some (fun _ _ _ s => (-1, s)) }

/-- Whether slot `i` of `active_polls` has `POLLIN`, `POLLERR`, `POLLHUP` or `POLLNVAL` in
its `revents`. -/
def slot_flagged (st : EvtState) (i : Nat) : Bool :=
  slot_ready st i || slot_error st i

/-! ## `dfl.c`: the atom handler of template `CFG_atom.C` -/

/-- Type `DFL_atom_entry_t` of `DFL_core.h`; `id_nr` is a `DFL_atom_t`, a `uint32_t`. -/
structure DFL_atom_entry_t where
  name : CStr
  id_nr : Nat
  deriving DecidableEq, Repr

/-- Constant `DFL_ATOM_INVALID_BIT` of `DFL_core.h`. -/
def DFL_ATOM_INVALID_BIT : Nat := 0x80000000

/-- Function `DFL_atom_is_valid(atom)` of `DFL_core.h`. -/
def DFL_atom_is_valid (atom : Nat) : Bool :=
  atom &&& DFL_ATOM_INVALID_BIT == 0

/-- The variables that the labels `atom_table`, `atom_table_inited`, `atom_table_len`,
`dyn_table` and `dyn_table_inited` of template `CFG_atom.C` of `dfl.c` stand for.  Their
declarations are generated and are no part of the template, so their contents are taken
as given.  `dyn_table` is a pointer: `none` is the null pointer, otherwise the entries of
the allocated block, `none` where nothing has been written yet. -/
structure AtomVars where
  atom_table : List DFL_atom_entry_t
  atom_table_inited : Bool
  atom_table_len : Nat
  dyn_table : Option (List (Option DFL_atom_entry_t))
  dyn_table_inited : Bool
  deriving DecidableEq, Repr

/-- The `for` loop of template `CFG_atom.C` that checks the table at the sentinel call:
`false` when it returns -31 at an entry whose id is not valid, `true` when it runs to
the end. -/
def atoms_all_valid : List DFL_atom_entry_t → Bool
  | [] => true
  | e :: es => if !DFL_atom_is_valid e.id_nr then false else atoms_all_valid es

/-- The `for` loop of template `CFG_atom.C` that looks `name` up: the table with `id_nr`
written to the first entry of that name (`strcmp(...) == 0`), or `none` when the loop runs
to the end. -/
def atom_assign (name : CStr) (id_nr : Nat) :
    List DFL_atom_entry_t → Option (List DFL_atom_entry_t)
  | [] => none
  | e :: es =>
    if e.name = name then some ({ e with id_nr := id_nr } :: es)
    else
      match atom_assign name id_nr es with
      | some es1 => some (e :: es1)
      | none => none

/-- The part of template `CFG_atom.C` that is generated in every mode (after the
`endif`), for the arguments `(len, name, id_nr)` of the handler; a null `name` is the
sentinel call. -/
def CFG_atom_static (_len : Nat) (name : Option CStr) (id_nr : Nat) (v : AtomVars) :
    Int × AtomVars :=
  match name with
  | none =>
    if atoms_all_valid v.atom_table then (0, { v with atom_table_inited := true })
    else (-31, v)
  | some nm =>
    match atom_assign nm id_nr v.atom_table with
    | some table => (0, { v with atom_table := table })
    | none => if v.atom_table_len > 0 then (0, v) else (-32, v)

/-- The statement `if (dyn_table == 0) dyn_table = malloc(len * sizeof(DFL_atom_entry_t));`
of template `CFG_atom.C`.  `malloc_ok` is whether `malloc` returns a block (of `len`
entries; the product with the entry size is taken not to wrap). -/
def CFG_atom_alloc (len : Nat) (malloc_ok : Bool) (v : AtomVars) : AtomVars :=
  if v.dyn_table = none then
    { v with dyn_table := if malloc_ok then some (List.replicate len none) else none }
  else v

/-- The part of template `CFG_atom.C` that is generated when `param.init_table` is true:
`some r` when it returns `r`, `none` when control goes on to the part after the `endif`.
Writing through a null `dyn_table` or past its block is undefined behaviour. -/
def CFG_atom_dynamic (len : Nat) (name : Option CStr) (id_nr : Nat) (malloc_ok : Bool)
    (v : AtomVars) : Run (Option Int × AtomVars) :=
  let v1 := CFG_atom_alloc len malloc_ok v
  match name with
  | none =>
    if v1.atom_table_len ≠ len then .ok (some (-33), v1)
    else .ok (none, { v1 with dyn_table_inited := true })
  | some nm =>
    match v1.dyn_table with
    | none => .crash
    | some block =>
      if v1.atom_table_len < block.length then
        .ok (none, { v1 with
          dyn_table := some (block.set v1.atom_table_len (some ⟨nm, id_nr⟩)),
          atom_table_len := v1.atom_table_len + 1 })
      else .crash

/-- The atom handler generated from template `CFG_atom.C`, called with `(len, name,
id_nr)`: in dynamic mode (`init_table`) the dynamic part runs first. -/
def CFG_atom (init_table : Bool) (len : Nat) (name : Option CStr) (id_nr : Nat)
    (malloc_ok : Bool) (v : AtomVars) : Run (Int × AtomVars) :=
  if init_table then
    match CFG_atom_dynamic len name id_nr malloc_ok v with
    | .crash => .crash
    | .nofuel => .nofuel
    | .ok (some r, v1) => .ok (r, v1)
    | .ok (none, v1) => .ok (CFG_atom_static len name id_nr v1)
  else .ok (CFG_atom_static len name id_nr v)

/-- The static-mode handler as `process_atoms` calls it through `atom_handler`: the
`int32_t` argument `id_nr` is converted to the `uint32_t` parameter. -/
def cfg_atom_handler (cnt : Nat) (name : Option CStr) (id_nr : Int) (v : AtomVars) :
    Int × AtomVars :=
  CFG_atom_static cnt name (id_nr % 2 ^ 32).toNat v

/-- Handlers with only the static-mode atom handler installed, as the first stage of
template `Main.C` installs them. -/
def static_atom_handlers : Handlers AtomVars :=
  { in_port_handler := none, out_port_handler := none, timer_handler := none,
    atom_handler := some cfg_atom_handler }

/-- One call of the atom handler: `(len, name, id_nr)`. -/
structure AtomCall where
  len : Nat
  name : Option CStr
  id_nr : Nat
  deriving DecidableEq, Repr

/-- Runs a sequence of calls of the handler generated from `CFG_atom.C`, every `malloc`
succeeding: the value each call returned and the variables at the end. -/
def atom_calls_run (init_table : Bool) : AtomVars → List AtomCall → Run (List Int × AtomVars)
  | v, [] => .ok ([], v)
  | v, c :: cs =>
    match CFG_atom init_table c.len c.name c.id_nr true v with
    | .crash => .crash
    | .nofuel => .nofuel
    | .ok (r, v1) =>
      match atom_calls_run init_table v1 cs with
      | .crash => .crash
      | .nofuel => .nofuel
      | .ok (rs, v2) => .ok (r :: rs, v2)

/-- Variables of a program with the static atoms `A` and `B`, not yet configured, and no
dynamic table. -/
def atom_vars_two : AtomVars :=
  { atom_table := [⟨"A".toList, DFL_ATOM_INVALID_BIT⟩, ⟨"B".toList, DFL_ATOM_INVALID_BIT⟩],
    atom_table_inited := false, atom_table_len := 0, dyn_table := none,
    dyn_table_inited := false }

/-- Variables of a program with no static atom and no dynamic table yet. -/
def atom_vars_dyn : AtomVars :=
  { atom_table := [], atom_table_inited := false, atom_table_len := 0, dyn_table := none,
    dyn_table_inited := false }

/-- The ready flag implies a complete table: when `atom_table_inited` is set, every entry
of the static table holds a valid id. -/
def table_complete (v : AtomVars) : Prop :=
  v.atom_table_inited = true → ∀ e ∈ v.atom_table, DFL_atom_is_valid e.id_nr = true

instance (v : AtomVars) : Decidable (table_complete v) := by
  unfold table_complete; infer_instance

/-! ## `StreamQ.h`: the block queue of a stream -/

/-- Constant `STREAMQ_BEARERS_MAX` of `StreamQ.h`. -/
def STREAMQ_BEARERS_MAX : Nat := 50

/-- Constant `STREAMQ_BLOCKS_MAX` of `StreamQ.h`. -/
def STREAMQ_BLOCKS_MAX : Int := 10000

/-- Conversion of an `int` to `int16_t`: a value out of range wraps around. -/
def to_int16 (x : Int) : Int := (x + 2 ^ 15) % 2 ^ 16 - 2 ^ 15

/-- The static tables of `StreamQ.h` that `StreamQ_alloc_block` and `StreamQ_pop_block`
read and write, both of `int16_t` and indexed by the stream id. -/
structure StreamQ_tables where
  StreamQ_block_start : List Int
  StreamQ_block_next : List Int
  deriving DecidableEq, Repr

/-- The tables at program start: the initialiser `{-2}` of `StreamQ_block_start` gives
element 0 the value -2 and the other elements 0; `StreamQ_block_next` is all 0. -/
def StreamQ_init : StreamQ_tables :=
  { StreamQ_block_start := (-2) :: List.replicate (STREAMQ_BEARERS_MAX - 1) 0,
    StreamQ_block_next := List.replicate STREAMQ_BEARERS_MAX 0 }

/-- Function `StreamQ_alloc_block(id)`: the returned `int16_t` and the tables afterwards.
An `id` past the tables is undefined behaviour. -/
def StreamQ_alloc_block (q : StreamQ_tables) (id : Nat) : Run (Int × StreamQ_tables) :=
  match q.StreamQ_block_next[id]? with
  | none => .crash
  | some blk_nr =>
    match q.StreamQ_block_start[id]? with
    | none => .crash
    | some blk_start =>
      if blk_nr = blk_start then .ok (-1, q)
      else
        let q1 : StreamQ_tables :=
          if blk_nr + 1 ≥ STREAMQ_BLOCKS_MAX then
            { q with StreamQ_block_next := q.StreamQ_block_next.set id 0 }
          else
            { q with StreamQ_block_next := q.StreamQ_block_next.set id (to_int16 (blk_nr + 1)) }
        if blk_start < 0 then
          .ok (blk_nr, { q1 with StreamQ_block_start := q1.StreamQ_block_start.set id blk_nr })
        else .ok (blk_nr, q1)

/-- Function `StreamQ_pop_block(id)`: the returned `int16_t` and the tables afterwards. -/
def StreamQ_pop_block (q : StreamQ_tables) (id : Nat) : Run (Int × StreamQ_tables) :=
  match q.StreamQ_block_start[id]? with
  | none => .crash
  | some blk_nr =>
    if blk_nr ≥ 0 then
      let blk_start0 : Int := to_int16 (blk_nr + 1)
      let blk_start : Int := if blk_start0 ≥ STREAMQ_BLOCKS_MAX then 0 else blk_start0
      match q.StreamQ_block_next[id]? with
      | none => .crash
      | some next =>
        if blk_start = next then
          .ok (blk_nr,
            { StreamQ_block_next := q.StreamQ_block_next.set id 0,
              StreamQ_block_start := q.StreamQ_block_start.set id (-1) })
        else
          .ok (blk_nr, { q with StreamQ_block_start := q.StreamQ_block_start.set id blk_start })
    else .ok (blk_nr, q)

/-- A call of one of the two functions of `StreamQ.h` for a stream. -/
inductive StreamCall where
  | alloc (id : Nat)
  | pop (id : Nat)
  deriving DecidableEq, Repr

/-- The stream a call is for. -/
def StreamCall.id : StreamCall → Nat
  | .alloc id => id
  | .pop id => id

/-- Runs one call. -/
def stream_call (q : StreamQ_tables) : StreamCall → Run (Int × StreamQ_tables)
  | .alloc id => StreamQ_alloc_block q id
  | .pop id => StreamQ_pop_block q id

/-- The blocks of stream `id` that are outstanding after a call that returned `r`, oldest
first: a block that `StreamQ_alloc_block(id)` returned joins at the end, a block that
`StreamQ_pop_block(id)` returned is taken out. -/
def outstanding_after (id : Nat) (out : List Int) (c : StreamCall) (r : Int) : List Int :=
  match c with
  | .alloc i => if i = id ∧ 0 ≤ r then out ++ [r] else out
  | .pop i => if i = id ∧ 0 ≤ r then out.erase r else out

/-- Runs a sequence of calls and keeps the list of outstanding blocks of stream `id`:
the values returned, the tables and the outstanding blocks at the end. -/
def stream_calls_run (id : Nat) :
    StreamQ_tables → List Int → List StreamCall → Run (List Int × StreamQ_tables × List Int)
  | q, out, [] => .ok ([], q, out)
  | q, out, c :: cs =>
    match stream_call q c with
    | .crash => .crash
    | .nofuel => .nofuel
    | .ok (r, q1) =>
      match stream_calls_run id q1 (outstanding_after id out c r) cs with
      | .crash => .crash
      | .nofuel => .nofuel
      | .ok (rs, q2, out2) => .ok (r :: rs, q2, out2)

/-- What a bounded FIFO queue of block numbers with capacity `STREAMQ_BLOCKS_MAX` allows
an allocation to return when the blocks `out` are outstanding: -1 exactly when the queue
is full, otherwise a block number in `[0, STREAMQ_BLOCKS_MAX)` that is not outstanding. -/
def fifo_alloc_ok (out : List Int) (r : Int) : Prop :=
  (r = -1 ↔ (out.length : Int) = STREAMQ_BLOCKS_MAX) ∧
  (r ≠ -1 → 0 ≤ r ∧ r < STREAMQ_BLOCKS_MAX ∧ r ∉ out)

instance (out : List Int) (r : Int) : Decidable (fifo_alloc_ok out r) := by
  unfold fifo_alloc_ok; infer_instance

/-- What a bounded FIFO queue of block numbers allows a pop to return when the blocks
`out` are outstanding, oldest first: a negative value exactly when none is outstanding,
otherwise the oldest. -/
def fifo_pop_ok (out : List Int) (r : Int) : Prop :=
  (r < 0 ↔ out = []) ∧ (0 ≤ r → out.head? = some r)

instance (out : List Int) (r : Int) : Decidable (fifo_pop_ok out r) := by
  unfold fifo_pop_ok; infer_instance

/-- What `StreamQ_alloc_block` does to the two entries of a stream, `s` in
`StreamQ_block_start` and `n` in `StreamQ_block_next`: the value returned, the new start
and the new next. -/
def alloc_cell (s n : Int) : Int × Int × Int :=
  if n = s then (-1, s, n)
  else (n, if s < 0 then n else s,
        if n + 1 ≥ STREAMQ_BLOCKS_MAX then 0 else to_int16 (n + 1))

/-- What `StreamQ_pop_block` does to the two entries of a stream: the value returned, the
new start and the new next. -/
def pop_cell (s n : Int) : Int × Int × Int :=
  if s ≥ 0 then
    if (if to_int16 (s + 1) ≥ STREAMQ_BLOCKS_MAX then 0 else to_int16 (s + 1)) = n then
      (s, -1, 0)
    else (s, if to_int16 (s + 1) ≥ STREAMQ_BLOCKS_MAX then 0 else to_int16 (s + 1), n)
  else (s, s, n)

/-- How the two entries `s`, `n` of a stream hold the outstanding blocks `out`: none when
`s` is negative (and then `n` is 0), otherwise the `cnt` blocks from `s` on, cyclically,
up to `n`. -/
def cell_inv (s n : Int) (out : List Int) : Prop :=
  (s < 0 ∧ n = 0 ∧ out = []) ∨
  (0 ≤ s ∧ s < 10000 ∧ ∃ cnt : Nat, 1 ≤ cnt ∧ cnt ≤ 10000 ∧ n = (s + cnt) % 10000 ∧
    out = (List.range cnt).map (fun (i : Nat) => (s + (i : Int)) % 10000))

/-- Both tables have their `STREAMQ_BEARERS_MAX` entries. -/
def tables_sized (q : StreamQ_tables) : Prop :=
  q.StreamQ_block_start.length = STREAMQ_BEARERS_MAX ∧
  q.StreamQ_block_next.length = STREAMQ_BEARERS_MAX

/-- The entries of stream `id` hold the outstanding blocks `out`. -/
def stream_inv (id : Nat) (q : StreamQ_tables) (out : List Int) : Prop :=
  ∃ s n, q.StreamQ_block_start[id]? = some s ∧ q.StreamQ_block_next[id]? = some n ∧
    cell_inv s n out

/-! ## Consecutive calls of `dfl_evt_wait_n_eval`

Runs of the reactor over several calls, and the readiness that `ppoll` reports in them. -/

/-- A turn in which `ppoll` reports readiness (one descriptor ready) only when it is handed
the timeout 3 s + 499 999 750 ns, and fails with `EBADF` otherwise. -/
def env_probe_timeout : WaitEnv :=
  ⟨⟨0, ⟨2, 250⟩⟩,
   fun _ t => if t = some ⟨3, 499999750⟩ then ⟨1, false, fun _ => 0⟩ else ⟨-1, false, fun _ => 0⟩,
   ⟨0, ⟨0, 0⟩⟩, -1⟩

/-- The record `in-port,p1,,5000` through `process_csv_line`: the in-port handler
is called with `("p1", 5000)` and the status is that of the kind field, 1. -/
theorem process_csv_line_in_port_p1 {σ : Type} (f : CStr → Int → σ → Int × σ)
    (o : Option (CStr → CStr → Int → σ → Int × σ)) (t : Option (CStr → Nat → σ → Int × σ))
    (a : Option (Nat → Option CStr → Int → σ → Int × σ)) (s : σ) :
    process_csv_line ⟨some f, o, t, a⟩
      { parse_point := some "in-port,p1,,5000".toList, hstate := s, calls := [] } =
    .ok (1, { parse_point := none, hstate := (f "p1".toList 5000 s).2,
              calls := [.in_port "p1".toList 5000] }) := by
  show after_record 1 (if (f "p1".toList 5000 s).1 < 0 then _ else _) = _
  split <;> rfl

/-- C1 (code defect): on the buffer `"in-port,p1,,5000\natoms,A,1,B,2\n"`, whatever handlers
are installed next to an in-port handler, `dfl_cfg_read_and_process` hands two lines to
`process_csv_line`: the first record (status 1, the in-port handler is called with
`("p1", 5000)`), and then the empty line, because `buf_idx` is left on the newline that
ended the first record; the empty line gets status -32 and the function returns.  The
`atoms` record is never processed and the atom handler is never called. -/
theorem C1_atoms_record_never_reached {σ : Type} (f : CStr → Int → σ → Int × σ)
    (o : Option (CStr → CStr → Int → σ → Int × σ)) (t : Option (CStr → Nat → σ → Int × σ))
    (a : Option (Nat → Option CStr → Int → σ → Int × σ)) (s : σ) (fuel : Nat) :
    dfl_cfg_read_and_process ⟨some f, o, t, a⟩ (fuel + 2)
      "in-port,p1,,5000\natoms,A,1,B,2\n".toList s =
    .ok ⟨[("in-port,p1,,5000".toList, 1), ([], -32)], [.in_port "p1".toList 5000],
         (f "p1".toList 5000 s).2, 16⟩ := by
  show (match process_csv_line ⟨some f, o, t, a⟩
      { parse_point := some "in-port,p1,,5000".toList, hstate := s, calls := [] } with
      | .crash => _ | .nofuel => _ | .ok (process_res, c) => _) = _
  rw [process_csv_line_in_port_p1]
  rfl

/-! ## Theorems about `dfl_evt.c`: the timer -/

theorem wrap64_eq_self (x : Int) (h1 : -(2 ^ 63) ≤ x) (h2 : x < 2 ^ 63) : wrap64 x = x := by
  unfold wrap64; omega

theorem wrap64_range (x : Int) : -(2 ^ 63) ≤ wrap64 x ∧ wrap64 x < 2 ^ 63 := by
  unfold wrap64; omega

theorem ts_nsec_range (ts : timespec) : -(2 ^ 63) ≤ ts_nsec ts ∧ ts_nsec ts < 2 ^ 63 :=
  wrap64_range _

theorem compute_timeout_trig (st : EvtState) (c : ClockRead) :
    (compute_timeout st c).1.next_time_trig = st.next_time_trig ∨
      (compute_timeout st c).1.next_time_trig = 0 := by
  unfold compute_timeout
  split
  · split
    · right; rfl
    · left; rfl
  · left; rfl

theorem timer_check_pass (st : EvtState) (res : Int) (c : ClockRead) (r : Int)
    (st3 : EvtState) (h : timer_check st res c = .pass r st3) :
    st3.next_time_trig = st.next_time_trig ∨ st3.next_time_trig = 0 := by
  unfold timer_check at h
  dsimp only at h
  split at h
  · split at h
    · cases h; right; rfl
    · split at h
      · cases h
      · cases h; left; rfl
  · cases h; left; rfl

theorem timer_check_fire (st : EvtState) (res : Int) (c : ClockRead) (now : Int)
    (st3 : EvtState) (h : timer_check st res c = .fire now st3) :
    res = 0 ∧ c.ret = 0 ∧ now = wrap64 (ts_nsec c.ts + NSEC_50) ∧
      now ≥ st.next_time_trig ∧ st.next_time_trig > 0 ∧
      st3 = { st with next_time_trig := 0 } := by
  unfold timer_check at h
  dsimp only at h
  split at h
  · rename_i h0
    split at h
    · cases h
    · rename_i h1
      split at h
      · rename_i h2
        cases h
        exact ⟨h0, not_not.mp h1, rfl, h2.1, h2.2, rfl⟩
      · cases h
  · cases h

theorem scan_loop_exit_trig : ∀ (fuel : Nat) (st : EvtState) (idx : Nat) (st4 : EvtState),
    scan_loop fuel st idx = .ok (.exit st4) → st4.next_time_trig = st.next_time_trig := by
  intro fuel
  induction fuel with
  | zero => intro st idx st4 h; cases h
  | succ n ih =>
    intro st idx st4 h
    unfold scan_loop at h
    split at h
    · split at h
      · cases h
      · split at h
        · cases h
        · split at h
          · cases h
          · have := ih _ _ _ h; exact this
    · cases h; rfl

theorem call_reader_calls (cb : Callbacks) (acc : Int) (st : EvtState) (idx : Nat)
    (d : WaitDone) (h : call_reader cb acc st idx = .ok d) :
    d.res = 0 ∧ ∃ p, st.ports[idx]? = some p ∧ p.reader ≠ .null ∧
      d.calls = [.reader p.reader p.fd] := by
  unfold call_reader at h
  split at h
  · cases h
  · rename_i p hp
    split at h
    · cases h
    · rename_i hr
      split at h
      · cases h
        exact ⟨rfl, p, hp, by simp [hr], by simp [hr]⟩
      · cases h
      · cases h
    · rename_i id hr
      cases h
      exact ⟨rfl, p, hp, by simp [hr], by simp [hr]⟩

/-- What a returning call of `dfl_evt_wait_n_eval` that invoked the timer action has done. -/
theorem wait_fire (cb : Callbacks) (fuel : Nat) : ∀ (envs : List WaitEnv) (st : EvtState)
    (d : WaitDone), dfl_evt_wait_n_eval cb fuel st envs = .ok d →
    ∀ id now, EvtCall.timer_action id now ∈ d.calls →
    ∃ env st0, env ∈ envs ∧ env.clock_post.ret = 0 ∧
      now = wrap64 (ts_nsec env.clock_post.ts + NSEC_50) ∧
      now ≥ st.next_time_trig ∧ st.next_time_trig > 0 ∧ st0.next_time_trig = 0 ∧
      st0.timer_action = some id ∧
      d = ⟨0, cb.timer id now st0, [.timer_action id now]⟩ := by
  intro envs
  induction envs with
  | nil => intro st d h; cases h
  | cons env envs ih =>
    intro st d h id now hmem
    have lift : ∀ st' : EvtState,
        (st'.next_time_trig = st.next_time_trig ∨ st'.next_time_trig = 0) →
        dfl_evt_wait_n_eval cb fuel st' envs = .ok d →
        ∃ env' st0, env' ∈ env :: envs ∧ env'.clock_post.ret = 0 ∧
          now = wrap64 (ts_nsec env'.clock_post.ts + NSEC_50) ∧
          now ≥ st.next_time_trig ∧ st.next_time_trig > 0 ∧ st0.next_time_trig = 0 ∧
          st0.timer_action = some id ∧
          d = ⟨0, cb.timer id now st0, [.timer_action id now]⟩ := by
      intro st' hst' h'
      obtain ⟨env', st0, hm, h1, h2, h3, h4, h5, h6, h7⟩ := ih st' d h' id now hmem
      have heq : st'.next_time_trig = st.next_time_trig := by
        rcases hst' with e | e
        · exact e
        · omega
      exact ⟨env', st0, List.mem_cons_of_mem _ hm, h1, h2, heq ▸ h3, heq ▸ h4, h5, h6, h7⟩
    have h1trig := compute_timeout_trig st env.clock_pre
    have h2trig : (after_ppoll st env).next_time_trig =
        (compute_timeout st env.clock_pre).1.next_time_trig := rfl
    unfold dfl_evt_wait_n_eval at h
    split at h
    · cases h
    · split at h
      · split at h
        · exact lift _ h1trig h
        · cases h; simp at hmem
      · split at h
        · rename_i now' st3 hchk
          obtain ⟨_, c1, c2, c3, c4, c5⟩ := timer_check_fire _ _ _ _ _ hchk
          rw [h2trig] at c3 c4
          split at h
          · cases h
          · rename_i id' hact
            cases h
            simp only [List.mem_singleton, EvtCall.timer_action.injEq] at hmem
            obtain ⟨rfl, rfl⟩ := hmem
            have e1 : (compute_timeout st env.clock_pre).1.next_time_trig =
                st.next_time_trig := by
              rcases h1trig with e | e
              · exact e
              · simp only [e] at c4; omega
            refine ⟨env, st3, List.mem_cons_self _ _, c1, c2, ?_, ?_, ?_, hact, rfl⟩
            · rw [← e1]; exact c3
            · rw [← e1]; exact c4
            · rw [c5]
        · rename_i r st3 hchk
          have h3trig : st3.next_time_trig = st.next_time_trig ∨ st3.next_time_trig = 0 := by
            rcases timer_check_pass _ _ _ _ _ hchk with e | e
            · rw [h2trig] at e
              rcases h1trig with e1 | e1
              · left; rw [e]; exact e1
              · right; rw [e]; exact e1
            · right; exact e
          split at h
          · split at h
            · cases h
            · cases h
            · cases h; simp at hmem
            · obtain ⟨_, p, _, _, hc⟩ := call_reader_calls _ _ _ _ _ h
              rw [hc] at hmem; simp at hmem
            · rename_i st4 hscan
              have e4 := scan_loop_exit_trig _ _ _ _ hscan
              exact lift st4 (e4 ▸ h3trig) h
          · exact lift st3 h3trig h

/-- C9, counterexample: a timer armed at clock reading 0 for 1 000 000 ns has the deadline
1 000 000; when `ppoll` times out and the clock then reads 950 000, `dfl_evt_wait_n_eval`
invokes the timer action: the clock reading after the wait is below the deadline, and the
timestamp passed to the action is 1 000 000, not the clock reading. -/
theorem C9_fires_before_deadline :
    early_state.next_time_trig = 1000000 ∧
    dfl_evt_wait_n_eval cb_idle 0 early_state [early_env] =
      .ok ⟨0, { early_state with next_time_trig := 0 }, [.timer_action 7 1000000]⟩ ∧
    ts_nsec early_env.clock_post.ts = 950000 ∧
    ¬ (ts_nsec early_env.clock_post.ts ≥ early_state.next_time_trig) ∧
    (1000000 : Int) ≠ ts_nsec early_env.clock_post.ts := by
  decide

/-- C9, amended: when the pending deadline is the one `dfl_evt_add_timer` armed (`T ≥ 0`,
clock reading `now0`, `now0 + T` within `int64_t`) and `dfl_evt_wait_n_eval` invokes the
timer action, the timestamp passed to the action is the clock reading taken after the wait
plus `NSEC_50` (50 000 ns), and that timestamp is at least the deadline `now0 + T`: the
action can run up to 50 000 ns before the deadline, never earlier. -/
theorem C9_timer_fires_within_slack (cb : Callbacks) (fuel : Nat) (st0 st : EvtState)
    (T : Int) (act : Option Nat) (clock0 : ClockRead) (envs : List WaitEnv) (d : WaitDone)
    (id : Nat) (now : Int)
    (hT : 0 ≤ T) (hc : clock0.ret = 0) (hno : ts_nsec clock0.ts + T < 2 ^ 63)
    (harm : st.next_time_trig = (dfl_evt_add_timer T act clock0 st0).2.next_time_trig)
    (hrun : dfl_evt_wait_n_eval cb fuel st envs = .ok d)
    (hcall : EvtCall.timer_action id now ∈ d.calls) :
    ∃ env ∈ envs, env.clock_post.ret = 0 ∧
      now = wrap64 (ts_nsec env.clock_post.ts + NSEC_50) ∧
      ts_nsec clock0.ts + T ≤ now ∧
      (ts_nsec env.clock_post.ts + NSEC_50 < 2 ^ 63 →
        now = ts_nsec env.clock_post.ts + 50000 ∧
        ts_nsec clock0.ts + T ≤ ts_nsec env.clock_post.ts + 50000) := by
  obtain ⟨env, st1, hm, h1, h2, h3, h4, -, -, -⟩ := wait_fire cb fuel envs st d hrun id now hcall
  have hdl : st.next_time_trig = ts_nsec clock0.ts + T := by
    rw [harm]
    have hr := ts_nsec_range clock0.ts
    simp only [dfl_evt_add_timer, hT, hc, ge_iff_le, if_true]
    apply wrap64_eq_self <;> omega
  refine ⟨env, hm, h1, h2, by omega, ?_⟩
  intro hlt
  have hr := ts_nsec_range env.clock_post.ts
  have hw : wrap64 (ts_nsec env.clock_post.ts + NSEC_50) =
      ts_nsec env.clock_post.ts + 50000 := by
    rw [wrap64_eq_self _ (by simp only [NSEC_50]; omega) hlt]; rfl
  rw [hw] at h2
  exact ⟨h2, by omega⟩

/-- C9, amended, at a concrete input: armed at 0 for 1 000 000 ns, fired at clock reading
950 000. -/
theorem C9_timer_fires_within_slack_witness :
    ∃ env ∈ [early_env], env.clock_post.ret = 0 ∧
      (1000000 : Int) = wrap64 (ts_nsec env.clock_post.ts + NSEC_50) ∧
      ts_nsec (⟨0, ⟨0, 0⟩⟩ : ClockRead).ts + 1000000 ≤ 1000000 ∧
      (ts_nsec env.clock_post.ts + NSEC_50 < 2 ^ 63 →
        (1000000 : Int) = ts_nsec env.clock_post.ts + 50000 ∧
        ts_nsec (⟨0, ⟨0, 0⟩⟩ : ClockRead).ts + 1000000 ≤
          ts_nsec env.clock_post.ts + 50000) :=
  C9_timer_fires_within_slack cb_idle 0 evt_init early_state 1000000 (some 7) ⟨0, ⟨0, 0⟩⟩
    [early_env] ⟨0, { early_state with next_time_trig := 0 }, [.timer_action 7 1000000]⟩
    7 1000000 (by decide) rfl (by decide) rfl (by decide) (by decide)

/-- C10: a call of `dfl_evt_wait_n_eval` that invokes the timer action has cleared
`next_time_trig` before the action runs (the action starts from a state with
`next_time_trig = 0`, so the pending timer after the call is what the action armed),
makes that one call and no reader call, and returns 0; a call entered with
`next_time_trig = 0` never invokes the timer action; and when the deadline has passed
after a timed-out wait, the call does invoke the action and return. -/
theorem C10_timer_fires_once_per_arm (cb : Callbacks) (fuel : Nat) (st : EvtState)
    (envs : List WaitEnv) (d : WaitDone) (id : Nat) (now : Int)
    (hrun : dfl_evt_wait_n_eval cb fuel st envs = .ok d)
    (hcall : EvtCall.timer_action id now ∈ d.calls) :
    (∃ st0 : EvtState, st0.next_time_trig = 0 ∧ d.st = cb.timer id now st0) ∧
    d.res = 0 ∧ d.calls = [.timer_action id now] ∧
    (∀ r fd, EvtCall.reader r fd ∉ d.calls) ∧
    (∀ (cb1 : Callbacks) (fuel1 : Nat) (st1 : EvtState) (envs1 : List WaitEnv)
      (d1 : WaitDone), st1.next_time_trig = 0 →
      dfl_evt_wait_n_eval cb1 fuel1 st1 envs1 = .ok d1 →
      ∀ id1 now1, EvtCall.timer_action id1 now1 ∉ d1.calls) ∧
    (∀ (env : WaitEnv) (rest : List WaitEnv) (st1 : EvtState) (id1 : Nat),
      st1.next_time_trig > 0 → st1.timer_action = some id1 →
      st1.high_mark ≤ st1.active_polls.length → env.clock_pre.ret = 0 →
      (poll_answer st1 env).res = 0 → env.clock_post.ret = 0 →
      wrap64 (ts_nsec env.clock_post.ts + NSEC_50) ≥ st1.next_time_trig →
      ∃ st0 : EvtState, st0.next_time_trig = 0 ∧
        dfl_evt_wait_n_eval cb fuel st1 (env :: rest) =
          .ok ⟨0, cb.timer id1 (wrap64 (ts_nsec env.clock_post.ts + NSEC_50)) st0,
               [.timer_action id1 (wrap64 (ts_nsec env.clock_post.ts + NSEC_50))]⟩) := by
  obtain ⟨env, st0, -, -, -, -, -, h5, -, h7⟩ := wait_fire cb fuel envs st d hrun id now hcall
  refine ⟨⟨st0, h5, by rw [h7]⟩, by rw [h7], by rw [h7], ?_, ?_, ?_⟩
  · intro r fd hmem
    rw [h7] at hmem
    simp at hmem
  · intro cb1 fuel1 st1 envs1 d1 hz hrun1 id1 now1 hmem
    obtain ⟨_, _, _, _, _, _, hpos, _⟩ := wait_fire cb1 fuel1 envs1 st1 d1 hrun1 id1 now1 hmem
    omega
  · intro env rest st1 id1 hpend hact hlen hpre hpoll hpost hdue
    have hct : (compute_timeout st1 env.clock_pre).1 = st1 := by
      simp [compute_timeout, hpend, hpre]
    have hap : (after_ppoll st1 env).next_time_trig = st1.next_time_trig := by
      show (compute_timeout st1 env.clock_pre).1.next_time_trig = _
      rw [hct]
    have hat : (after_ppoll st1 env).timer_action = some id1 := by
      show (compute_timeout st1 env.clock_pre).1.timer_action = _
      rw [hct]; exact hact
    refine ⟨{ after_ppoll st1 env with next_time_trig := 0 }, rfl, ?_⟩
    unfold dfl_evt_wait_n_eval
    simp only [hct, not_lt.mpr hlen, if_false, hpoll, lt_irrefl, timer_check, hpost,
      ne_eq, not_true_eq_false, if_true, hdue, hpend, and_self, ge_iff_le, hap, hat]

/-- C10, at a concrete input: the timer armed at 0 for 1 000 000 ns fires at clock
reading 950 000. -/
theorem C10_timer_fires_once_per_arm_witness :
    dfl_evt_wait_n_eval cb_idle 0 early_state [early_env] =
      .ok ⟨0, { early_state with next_time_trig := 0 }, [.timer_action 7 1000000]⟩ ∧
    (∃ st0 : EvtState, st0.next_time_trig = 0 ∧
      ({ early_state with next_time_trig := 0 } : EvtState) = cb_idle.timer 7 1000000 st0) :=
  ⟨by decide,
   (C10_timer_fires_once_per_arm cb_idle 0 early_state [early_env]
      ⟨0, { early_state with next_time_trig := 0 }, [.timer_action 7 1000000]⟩ 7 1000000
      (by decide) (by decide)).1⟩

/-! ## Theorems about `dfl_evt.c`: the readiness scan -/

theorem wrap_idx_succ (hm x : Nat) (hx : x < hm) : wrap_idx hm (x + 1) = (x + 1) % hm := by
  unfold wrap_idx
  split
  · have : x + 1 = hm := by omega
    rw [this, Nat.mod_self]
  · rw [Nat.mod_eq_of_lt (by omega)]

theorem slot_ready_of_get (st : EvtState) (i : Nat) (p : pollfd)
    (h : st.active_polls[i]? = some p) : slot_ready st i = has_pollin p.revents := by
  simp [slot_ready, h]

theorem slot_error_of_get (st : EvtState) (i : Nat) (p : pollfd)
    (h : st.active_polls[i]? = some p) : slot_error st i = has_error_flag p.revents := by
  simp [slot_error, h]

/-- One turn of the scan loop, entered with `idx = last_poll_idx + 1`. -/
theorem readiness_scan_step (fuel : Nat) (st : EvtState) (hcur : st.last_poll_idx < st.high_mark)
    (hlen : st.high_mark ≤ st.active_polls.length) :
    readiness_scan (fuel + 1) st =
      if slot_error st ((st.last_poll_idx + 1) % st.high_mark) then
        .ok (.fatal { st with last_poll_idx := (st.last_poll_idx + 1) % st.high_mark })
      else if slot_ready st ((st.last_poll_idx + 1) % st.high_mark) then
        .ok (.serve { st with last_poll_idx := (st.last_poll_idx + 1) % st.high_mark }
          ((st.last_poll_idx + 1) % st.high_mark))
      else readiness_scan fuel { st with last_poll_idx := (st.last_poll_idx + 1) % st.high_mark } := by
  have hlt : (st.last_poll_idx + 1) % st.high_mark < st.active_polls.length :=
    lt_of_lt_of_le (Nat.mod_lt _ (by omega)) hlen
  have hget : st.active_polls[(st.last_poll_idx + 1) % st.high_mark]? =
      some (st.active_polls[(st.last_poll_idx + 1) % st.high_mark]) :=
    List.getElem?_eq_getElem hlt
  rw [slot_error_of_get st _ _ hget, slot_ready_of_get st _ _ hget]
  unfold readiness_scan
  conv_lhs => unfold scan_loop
  simp only [wrap_idx_succ _ _ hcur, hget, ne_eq, Nat.succ_ne_self, not_false_eq_true,
    if_true]

/-- Slots without any flag are skipped: after `d` such slots the scan goes on from the
cursor `(last_poll_idx + d) % high_mark`. -/
theorem readiness_scan_skip : ∀ (d fuel : Nat) (st : EvtState),
    st.last_poll_idx < st.high_mark → st.high_mark ≤ st.active_polls.length →
    (∀ e, e < d → slot_ready st ((st.last_poll_idx + 1 + e) % st.high_mark) = false ∧
      slot_error st ((st.last_poll_idx + 1 + e) % st.high_mark) = false) →
    readiness_scan (fuel + d) st =
      readiness_scan fuel { st with last_poll_idx := (st.last_poll_idx + d) % st.high_mark } := by
  intro d
  induction d with
  | zero =>
    intro fuel st hcur _ _
    simp only [Nat.add_zero, Nat.mod_eq_of_lt hcur]
  | succ d ih =>
    intro fuel st hcur hlen hfree
    have h0 := hfree 0 (by omega)
    simp only [Nat.add_zero] at h0
    have hm0 : 0 < st.high_mark := by omega
    have hstep := readiness_scan_step (fuel + d) st hcur hlen
    simp only [h0.1, h0.2, Bool.false_eq_true, if_false] at hstep
    have hrec := ih fuel { st with last_poll_idx := (st.last_poll_idx + 1) % st.high_mark }
      (Nat.mod_lt _ hm0) hlen (by
        intro e he
        have := hfree (e + 1) (by omega)
        have e1 : ((st.last_poll_idx + 1) % st.high_mark + 1 + e) % st.high_mark =
            (st.last_poll_idx + 1 + (e + 1)) % st.high_mark := by
          rw [Nat.add_assoc, Nat.mod_add_mod, Nat.add_comm 1 e]
        simp only [slot_ready, slot_error, e1] at this ⊢
        exact this)
    simp only [Nat.mod_add_mod] at hrec
    rw [show fuel + (d + 1) = (fuel + d) + 1 by omega, hstep, hrec,
      show st.last_poll_idx + 1 + d = st.last_poll_idx + (d + 1) by omega]

/-- What the scan does at the first slot, in the cyclic order after the cursor `l`, that
carries a flag. -/
theorem readiness_scan_first (d f l hm : Nat) (st : EvtState)
    (hl : st.last_poll_idx = l) (hh : st.high_mark = hm)
    (hcur : l < hm) (hlen : hm ≤ st.active_polls.length)
    (hfree : ∀ e, e < d → slot_ready st ((l + 1 + e) % hm) = false ∧
      slot_error st ((l + 1 + e) % hm) = false) :
    readiness_scan (f + 1 + d) st =
      if slot_error st ((l + 1 + d) % hm) then
        .ok (.fatal { st with last_poll_idx := (l + 1 + d) % hm })
      else if slot_ready st ((l + 1 + d) % hm) then
        .ok (.serve { st with last_poll_idx := (l + 1 + d) % hm } ((l + 1 + d) % hm))
      else readiness_scan f { st with last_poll_idx := (l + 1 + d) % hm } := by
  subst hl hh
  have hm0 : 0 < st.high_mark := by omega
  have hskip := readiness_scan_skip d (f + 1) st hcur hlen hfree
  have hstep := readiness_scan_step f
    { st with last_poll_idx := (st.last_poll_idx + d) % st.high_mark } (Nat.mod_lt _ hm0) hlen
  simp only [Nat.mod_add_mod] at hstep
  rw [show st.last_poll_idx + d + 1 = st.last_poll_idx + 1 + d by omega] at hstep
  rw [hskip, hstep]
  rfl

/-! ### The tables stay in bounds -/

theorem find_free_slot_loop_spec (ports : List dfl_evt_port_t) : ∀ (k idx j : Nat),
    find_free_slot_loop ports k idx = .ok j →
    idx ≤ j ∧ j ≤ idx + k ∧
      (∀ i, idx ≤ i → i < j → ∃ p, ports[i]? = some p ∧ p.port ≠ 0) ∧
      (j < idx + k → ∃ p, ports[j]? = some p ∧ p.port = 0) := by
  intro k
  induction k with
  | zero =>
    intro idx j h
    simp only [find_free_slot_loop, Run.ok.injEq] at h
    subst h
    exact ⟨le_refl _, le_refl _, fun i h1 h2 => absurd h2 (by omega), fun h => absurd h (by omega)⟩
  | succ k ih =>
    intro idx j h
    unfold find_free_slot_loop at h
    split at h
    · cases h
    · rename_i p hp
      split at h
      · rename_i h0
        simp only [Run.ok.injEq] at h
        subst h
        exact ⟨le_refl _, by omega, fun i h1 h2 => absurd h2 (by omega), fun _ => ⟨p, hp, h0⟩⟩
      · rename_i h0
        obtain ⟨a, b, c, e⟩ := ih (idx + 1) j h
        refine ⟨by omega, by omega, ?_, fun hj => e (by omega)⟩
        intro i h1 h2
        by_cases hi : i = idx
        · subst hi; exact ⟨p, hp, h0⟩
        · exact c i (by omega) h2

theorem find_free_slot_loop_total (ports : List dfl_evt_port_t) : ∀ (k idx : Nat),
    idx + k ≤ ports.length → ∃ j, find_free_slot_loop ports k idx = .ok j := by
  intro k
  induction k with
  | zero => intro idx _; exact ⟨idx, rfl⟩
  | succ k ih =>
    intro idx h
    unfold find_free_slot_loop
    rw [List.getElem?_eq_getElem (show idx < ports.length by omega)]
    simp only
    split
    · exact ⟨idx, rfl⟩
    · exact ih (idx + 1) (by omega)

theorem find_slot_by_sock_loop_spec (ports : List dfl_evt_port_t) (sock : Int) :
    ∀ (k idx : Nat) (r : Int), find_slot_by_sock_loop ports sock k idx = .ok r →
    r = -1 ∨ (∃ (j : Nat) (p : dfl_evt_port_t), r = (j : Int) ∧ idx ≤ j ∧ j < idx + k ∧ ports[j]? = some p ∧
      p.fd = sock ∧ ∀ i, idx ≤ i → i < j → ∃ q, ports[i]? = some q ∧ q.fd ≠ sock) := by
  intro k
  induction k with
  | zero =>
    intro idx r h
    simp only [find_slot_by_sock_loop, Run.ok.injEq] at h
    exact Or.inl h.symm
  | succ k ih =>
    intro idx r h
    rw [find_slot_by_sock_loop] at h
    cases hp : ports[idx]? with
    | none => rw [hp] at h; cases h
    | some p =>
      rw [hp] at h
      dsimp only at h
      by_cases h0 : p.fd = sock
      · rw [if_pos h0] at h
        simp only [Run.ok.injEq] at h
        exact Or.inr ⟨idx, p, h.symm, le_refl _, by omega, hp, h0,
          fun i h1 h2 => absurd h2 (by omega)⟩
      · rw [if_neg h0] at h
        rcases ih (idx + 1) r h with e | ⟨j, q, e1, e2, e3, e4, e5, e6⟩
        · exact Or.inl e
        · refine Or.inr ⟨j, q, e1, by omega, by omega, e4, e5, ?_⟩
          intro i h1 h2
          by_cases hi : i = idx
          · subst hi; exact ⟨p, hp, h0⟩
          · exact e6 i (by omega) h2

theorem find_slot_by_sock_loop_total (ports : List dfl_evt_port_t) (sock : Int) :
    ∀ (k idx : Nat), idx + k ≤ ports.length →
    ∃ r, find_slot_by_sock_loop ports sock k idx = .ok r := by
  intro k
  induction k with
  | zero => intro idx _; exact ⟨-1, rfl⟩
  | succ k ih =>
    intro idx h
    unfold find_slot_by_sock_loop
    rw [List.getElem?_eq_getElem (show idx < ports.length by omega)]
    simp only
    split
    · exact ⟨_, rfl⟩
    · exact ih (idx + 1) (by omega)

/-- What `find_free_slot` returns: `-1` with `high_mark` raised, or the first slot with
port 0 below `high_mark`, or `high_mark` itself when there is none (and `high_mark` is
raised). -/
theorem find_free_slot_spec (st : EvtState) (r : Int) (st1 : EvtState)
    (h : find_free_slot st = .ok (r, st1)) :
    st1.ports = st.ports ∧ st1.active_polls = st.active_polls ∧
    st1.last_poll_idx = st.last_poll_idx ∧ st1.next_time_trig = st.next_time_trig ∧
    st1.timer_action = st.timer_action ∧
    ((r = -1 ∧ st1.high_mark = st.high_mark + 1 ∧ PORTS_MAX ≤ st.high_mark + 1 ∧
        ∀ i, i < st.high_mark → ∃ p, st.ports[i]? = some p ∧ p.port ≠ 0) ∨
      (∃ j : Nat, r = (j : Int) ∧ j < st1.high_mark ∧
        (∀ i, i < j → ∃ p, st.ports[i]? = some p ∧ p.port ≠ 0) ∧
        ((j < st.high_mark ∧ st1.high_mark = st.high_mark ∧
            ∃ p, st.ports[j]? = some p ∧ p.port = 0) ∨
          (j = st.high_mark ∧ st1.high_mark = st.high_mark + 1 ∧
            st.high_mark + 1 < PORTS_MAX)))) := by
  unfold find_free_slot at h
  split at h
  · cases h
  · cases h
  · rename_i idx hloop
    obtain ⟨_, hle, hpop, hfree⟩ := find_free_slot_loop_spec _ _ _ _ hloop
    simp only [Nat.zero_add] at hle hfree
    split at h
    · rename_i hge
      have hidx : idx = st.high_mark := by omega
      dsimp only at h
      split at h
      · rename_i hfull
        simp only [Run.ok.injEq, Prod.mk.injEq] at h
        obtain ⟨rfl, rfl⟩ := h
        refine ⟨rfl, rfl, rfl, rfl, rfl, Or.inl ⟨rfl, rfl, hfull, ?_⟩⟩
        intro i hi
        exact hpop i (Nat.zero_le _) (by omega)
      · rename_i hfull
        simp only [Run.ok.injEq, Prod.mk.injEq] at h
        obtain ⟨rfl, rfl⟩ := h
        refine ⟨rfl, rfl, rfl, rfl, rfl, Or.inr ⟨idx, rfl, ?_, ?_, Or.inr ⟨hidx, rfl, ?_⟩⟩⟩
        · show idx < st.high_mark + 1
          omega
        · intro i hi; exact hpop i (Nat.zero_le _) hi
        · simp only [ge_iff_le, not_le] at hfull; exact hfull
    · rename_i hlt
      simp only [Run.ok.injEq, Prod.mk.injEq] at h
      obtain ⟨rfl, rfl⟩ := h
      refine ⟨rfl, rfl, rfl, rfl, rfl, Or.inr ⟨idx, rfl, by omega, ?_, Or.inl ⟨by omega, rfl, ?_⟩⟩⟩
      · intro i hi; exact hpop i (Nat.zero_le _) hi
      · exact hfree (by omega)

theorem find_free_slot_total (st : EvtState) (h : st.high_mark ≤ st.ports.length) :
    ∃ r st1, find_free_slot st = .ok (r, st1) := by
  obtain ⟨j, hj⟩ := find_free_slot_loop_total st.ports st.high_mark 0 (by omega)
  unfold find_free_slot
  rw [hj]
  dsimp only
  split
  · split
    · exact ⟨_, _, rfl⟩
    · exact ⟨_, _, rfl⟩
  · exact ⟨_, _, rfl⟩

theorem accept_connection_total (st : EvtState) (sock new_sock : Int)
    (hwf : tables_in_bounds st) :
    ∃ st1, accept_connection st sock new_sock = .ok st1 ∧
      st1.last_poll_idx = st.last_poll_idx := by
  obtain ⟨hpl, hal, hhm⟩ := hwf
  obtain ⟨r, hr⟩ := find_slot_by_sock_loop_total st.ports sock st.high_mark 0 (by omega)
  have hrs := find_slot_by_sock_loop_spec _ _ _ _ _ hr
  obtain ⟨i, st1, hf⟩ := find_free_slot_total st (by omega)
  obtain ⟨e1, e2, e3, -, -, hcase⟩ := find_free_slot_spec st i st1 hf
  unfold accept_connection find_slot_by_sock
  rw [hr]
  dsimp only
  by_cases hneg : r < 0
  · rw [if_pos hneg]; exact ⟨st, rfl, rfl⟩
  rw [if_neg hneg]
  by_cases hns : new_sock < 0
  · rw [if_pos hns]; exact ⟨st, rfl, rfl⟩
  rw [if_neg hns, hf]
  dsimp only
  by_cases hi : i < 0
  · rw [if_pos hi]; exact ⟨st1, rfl, e3⟩
  rw [if_neg hi]
  rcases hrs with hr1 | ⟨j, p, hrj, -, hjlt, hjp, -, -⟩
  · omega
  subst hrj
  rw [Int.toNat_ofNat, e1, hjp]
  dsimp only
  rcases hcase with ⟨hm1, -⟩ | ⟨m, hm, hmlt, -, hm2⟩
  · omega
  subst hm
  have hm20 : m < PORTS_MAX := by
    rcases hm2 with ⟨a, -, -⟩ | ⟨a, -, c⟩
    · omega
    · omega
  unfold set_slot
  rw [Int.toNat_ofNat, e1, e2, if_pos ⟨by omega, by omega⟩]
  exact ⟨_, rfl, e3⟩

theorem compute_timeout_fields (st : EvtState) (c : ClockRead) :
    (compute_timeout st c).1.ports = st.ports ∧
    (compute_timeout st c).1.active_polls = st.active_polls ∧
    (compute_timeout st c).1.high_mark = st.high_mark ∧
    (compute_timeout st c).1.last_poll_idx = st.last_poll_idx ∧
    (compute_timeout st c).1.timer_action = st.timer_action := by
  unfold compute_timeout
  split
  · split
    · exact ⟨rfl, rfl, rfl, rfl, rfl⟩
    · exact ⟨rfl, rfl, rfl, rfl, rfl⟩
  · exact ⟨rfl, rfl, rfl, rfl, rfl⟩

theorem ppoll_store_length (rev : Nat → Nat) (nfds : Nat) : ∀ (ps : List pollfd) (i : Nat),
    (ppoll_store rev nfds i ps).length = ps.length := by
  intro ps
  induction ps with
  | nil => intro i; rfl
  | cons p ps ih => intro i; simp only [ppoll_store, List.length_cons, ih]

theorem after_ppoll_fields (st : EvtState) (env : WaitEnv) :
    (after_ppoll st env).ports = st.ports ∧
    (after_ppoll st env).high_mark = st.high_mark ∧
    (after_ppoll st env).last_poll_idx = st.last_poll_idx ∧
    (after_ppoll st env).active_polls.length = st.active_polls.length := by
  obtain ⟨a, b, c, d, -⟩ := compute_timeout_fields st env.clock_pre
  refine ⟨a, c, d, ?_⟩
  show (ppoll_store _ _ 0 _).length = _
  rw [ppoll_store_length, b]

/-- A turn of `dfl_evt_wait_n_eval` in which `ppoll` reports readiness goes to the
readiness scan. -/
theorem wait_ready_turn (cb : Callbacks) (fuel : Nat) (st : EvtState) (env : WaitEnv)
    (envs : List WaitEnv) (hres : 0 < (poll_answer st env).res) (hhm : 0 < st.high_mark)
    (hlen : st.high_mark ≤ st.active_polls.length) :
    dfl_evt_wait_n_eval cb fuel st (env :: envs) =
      match readiness_scan fuel (after_ppoll st env) with
      | .crash => .crash
      | .nofuel => .nofuel
      | .ok (.fatal st4) => .ok ⟨-10, st4, []⟩
      | .ok (.serve st4 idx) => call_reader cb env.accept st4 idx
      | .ok (.exit st4) => dfl_evt_wait_n_eval cb fuel st4 envs := by
  obtain ⟨-, b, c, -, -⟩ := compute_timeout_fields st env.clock_pre
  obtain ⟨-, c2, -, -⟩ := after_ppoll_fields st env
  have hchk : timer_check (after_ppoll st env) (poll_answer st env).res env.clock_post =
      .pass (poll_answer st env).res (after_ppoll st env) := by
    unfold timer_check
    rw [if_neg (by omega)]
  conv_lhs => unfold dfl_evt_wait_n_eval
  rw [b, c, if_neg (by omega), if_neg (by omega), hchk]
  dsimp only
  rw [if_pos ⟨hres, by omega⟩]

/-- C2: when `ppoll` reports readiness, no slot below `high_mark` carries an error flag,
and slot `s = (last_poll_idx + 1 + d) % high_mark` is the first with `POLLIN` in the cyclic
order after the cursor (the slots at the offsets before `d` have no `POLLIN`), then
`dfl_evt_wait_n_eval` returns 0 after exactly one call through a function pointer, the
registered reader of slot `s` with the descriptor of slot `s`, made in a state whose
`last_poll_idx` is `s`. -/
theorem C2_scan_services_first_readable (cb : Callbacks) (fuel : Nat) (st : EvtState)
    (env : WaitEnv) (envs : List WaitEnv) (d : Nat) (p : dfl_evt_port_t)
    (hwf : tables_in_bounds st) (hres : 0 < (poll_answer st env).res)
    (hhm : 0 < st.high_mark) (hcur : st.last_poll_idx < st.high_mark)
    (hfuel : st.high_mark ≤ fuel)
    (hnoerr : ∀ i, i < st.high_mark → slot_error (after_ppoll st env) i = false)
    (hd : d < st.high_mark)
    (hin : slot_ready (after_ppoll st env)
      ((st.last_poll_idx + 1 + d) % st.high_mark) = true)
    (hfirst : ∀ e, e < d →
      slot_ready (after_ppoll st env) ((st.last_poll_idx + 1 + e) % st.high_mark) = false)
    (hp : st.ports[(st.last_poll_idx + 1 + d) % st.high_mark]? = some p)
    (hreg : p.reader ≠ .null) :
    ∃ dn, dfl_evt_wait_n_eval cb fuel st (env :: envs) = .ok dn ∧ dn.res = 0 ∧
      dn.calls = [.reader p.reader p.fd] ∧
      dfl_evt_wait_n_eval cb fuel st (env :: envs) =
        call_reader cb env.accept
          { after_ppoll st env with
            last_poll_idx := (st.last_poll_idx + 1 + d) % st.high_mark }
          ((st.last_poll_idx + 1 + d) % st.high_mark) ∧
      (∀ id, p.reader = .user id → dn.st = cb.reader id p.fd
        { after_ppoll st env with
          last_poll_idx := (st.last_poll_idx + 1 + d) % st.high_mark }) ∧
      (p.reader = .accept_connection →
        dn.st.last_poll_idx = (st.last_poll_idx + 1 + d) % st.high_mark) := by
  obtain ⟨hpl, hal, hhm20⟩ := hwf
  obtain ⟨c1, c2, c3, c4⟩ := after_ppoll_fields st env
  have hscan := readiness_scan_first d (fuel - 1 - d) st.last_poll_idx st.high_mark
    (after_ppoll st env) c3 c2 hcur (by rw [c4]; omega)
    (by intro e he; exact ⟨hfirst e he, hnoerr _ (Nat.mod_lt _ hhm)⟩)
  rw [show fuel - 1 - d + 1 + d = fuel by omega, hnoerr _ (Nat.mod_lt _ hhm), hin] at hscan
  simp only [Bool.false_eq_true, if_false, if_true] at hscan
  have hturn := wait_ready_turn cb fuel st env envs hres hhm (by omega)
  rw [hscan] at hturn
  dsimp only at hturn
  have hports : ({ after_ppoll st env with
      last_poll_idx := (st.last_poll_idx + 1 + d) % st.high_mark } : EvtState).ports[
      (st.last_poll_idx + 1 + d) % st.high_mark]? = some p := by
    show (after_ppoll st env).ports[_]? = _
    rw [c1]; exact hp
  have hcall : ∃ dn, call_reader cb env.accept
      { after_ppoll st env with last_poll_idx := (st.last_poll_idx + 1 + d) % st.high_mark }
      ((st.last_poll_idx + 1 + d) % st.high_mark) = .ok dn ∧ dn.res = 0 ∧
      dn.calls = [.reader p.reader p.fd] ∧
      (∀ id, p.reader = .user id → dn.st = cb.reader id p.fd
        { after_ppoll st env with
          last_poll_idx := (st.last_poll_idx + 1 + d) % st.high_mark }) ∧
      (p.reader = .accept_connection →
        dn.st.last_poll_idx = (st.last_poll_idx + 1 + d) % st.high_mark) := by
    unfold call_reader
    rw [hports]
    dsimp only
    cases hr : p.reader with
    | null => exact absurd hr hreg
    | accept_connection =>
      obtain ⟨st1, h1, h2⟩ := accept_connection_total
        { after_ppoll st env with
          last_poll_idx := (st.last_poll_idx + 1 + d) % st.high_mark } p.fd env.accept
        ⟨by show (after_ppoll st env).ports.length = _; rw [c1]; exact hpl,
         by show (after_ppoll st env).active_polls.length = _; rw [c4]; exact hal,
         by show (after_ppoll st env).high_mark ≤ _; rw [c2]; exact hhm20⟩
      dsimp only
      rw [h1]
      exact ⟨_, rfl, rfl, rfl, fun id hid => (by cases hid), fun _ => h2⟩
    | user id =>
      exact ⟨_, rfl, rfl, rfl, fun id1 hid => (by cases hid; rfl), fun h => (by cases h)⟩
  obtain ⟨dn, k1, k2, k3, k4, k5⟩ := hcall
  exact ⟨dn, by rw [hturn, k1], k2, k3, hturn, k4, k5⟩

/-- C2, at a concrete input: two registered ports, cursor 0, slot 1 readable: reader 1 is
called with descriptor 4. -/
theorem C2_scan_services_first_readable_witness :
    ∃ dn, dfl_evt_wait_n_eval cb_idle 2 two_ports [env_slot1_readable] = .ok dn ∧
      dn.res = 0 ∧ dn.calls = [.reader (.user 1) 4] :=
  have h := C2_scan_services_first_readable cb_idle 2 two_ports env_slot1_readable [] 0
    ⟨.socktype_udp, 2, 4, .user 1, .null⟩ (by decide) (by decide) (by decide) (by decide)
    (by decide) (by decide) (by decide) (by decide) (by decide) (by decide) (by decide)
  match h with
  | ⟨dn, h1, h2, h3, _⟩ => ⟨dn, h1, h2, h3⟩

/-- C7, counterexample: with two registered ports and the cursor on slot 0, `ppoll` reports
slot 1 readable and slot 0 with `POLLERR`; `dfl_evt_wait_n_eval` calls the reader of slot 1
and returns 0, although a slot below `high_mark` carries an error flag. -/
theorem C7_error_flag_behind_readable_slot :
    slot_error (after_ppoll two_ports env_readable_then_error) 0 = true ∧
    two_ports.high_mark = 2 ∧
    0 < (poll_answer two_ports env_readable_then_error).res ∧
    dfl_evt_wait_n_eval cb_idle 2 two_ports [env_readable_then_error] =
      .ok ⟨0, { after_ppoll two_ports env_readable_then_error with last_poll_idx := 1 },
           [.reader (.user 1) 4]⟩ := by
  decide

/-- C7, amended: when `ppoll` reports readiness and the first slot, in the cyclic order
after the cursor, that carries any flag carries an error flag (`POLLERR`, `POLLHUP` or
`POLLNVAL`), `dfl_evt_wait_n_eval` returns -10 and makes no call through a function
pointer. -/
theorem C7_error_flag_reached_first (cb : Callbacks) (fuel : Nat) (st : EvtState)
    (env : WaitEnv) (envs : List WaitEnv) (d : Nat)
    (hlen : st.high_mark ≤ st.active_polls.length) (hres : 0 < (poll_answer st env).res)
    (hhm : 0 < st.high_mark) (hcur : st.last_poll_idx < st.high_mark)
    (hfuel : st.high_mark ≤ fuel) (hd : d < st.high_mark)
    (herr : slot_error (after_ppoll st env)
      ((st.last_poll_idx + 1 + d) % st.high_mark) = true)
    (hfirst : ∀ e, e < d →
      slot_ready (after_ppoll st env) ((st.last_poll_idx + 1 + e) % st.high_mark) = false ∧
      slot_error (after_ppoll st env) ((st.last_poll_idx + 1 + e) % st.high_mark) = false) :
    dfl_evt_wait_n_eval cb fuel st (env :: envs) =
      .ok ⟨-10, { after_ppoll st env with
                  last_poll_idx := (st.last_poll_idx + 1 + d) % st.high_mark }, []⟩ := by
  obtain ⟨c1, c2, c3, c4⟩ := after_ppoll_fields st env
  have hscan := readiness_scan_first d (fuel - 1 - d) st.last_poll_idx st.high_mark
    (after_ppoll st env) c3 c2 hcur (by rw [c4]; omega)
    (by intro e he; exact hfirst e he)
  rw [show fuel - 1 - d + 1 + d = fuel by omega, herr] at hscan
  simp only [if_true] at hscan
  rw [wait_ready_turn cb fuel st env envs hres hhm hlen, hscan]

/-- C7, amended, at a concrete input: cursor 0, slot 1 hung up, slot 0 readable. -/
theorem C7_error_flag_reached_first_witness :
    dfl_evt_wait_n_eval cb_idle 2 two_ports [env_error_then_readable] =
      .ok ⟨-10, { after_ppoll two_ports env_error_then_readable with
                  last_poll_idx := (two_ports.last_poll_idx + 1 + 0) % two_ports.high_mark },
           []⟩ :=
  C7_error_flag_reached_first cb_idle 2 two_ports env_error_then_readable [] 0
    (by decide) (by decide) (by decide) (by decide) (by decide) (by decide) (by decide)
    (by decide)

/-! ### Round robin -/

theorem registry_inv_init : registry_inv_at evt_init 0 := by
  refine ⟨by decide, by decide, le_refl _, Nat.zero_le _, fun i hi => absurd hi (by omega), ?_⟩
  intro i _ hi
  show (List.replicate PORTS_MAX port_zero)[i]? = some port_zero
  rw [List.getElem?_replicate, if_pos hi]

theorem find_free_slot_inv (st : EvtState) (m : Nat) (r : Int) (st0 : EvtState)
    (hinv : registry_inv_at st m) (h : find_free_slot st = .ok (r, st0)) :
    st0.ports = st.ports ∧ st0.active_polls = st.active_polls ∧
    st.high_mark ≤ st0.high_mark ∧
    (r < 0 ∨ (r = (m : Int) ∧ m < PORTS_MAX ∧ m < st0.high_mark)) := by
  obtain ⟨hpl, hal, hmh, hm20, hpop, hzero⟩ := hinv
  obtain ⟨e1, e2, -, -, -, hcase⟩ := find_free_slot_spec st r st0 h
  refine ⟨e1, e2, ?_, ?_⟩
  · rcases hcase with ⟨-, a, -⟩ | ⟨j, -, -, -, ⟨-, a, -⟩ | ⟨-, a, -⟩⟩ <;> omega
  · rcases hcase with ⟨a, -⟩ | ⟨j, hr, hjlt, hbelow, hj⟩
    · left; omega
    · right
      have hjm : j = m := by
        rcases Nat.lt_trichotomy j m with hlt | heq | hgt
        · exfalso
          obtain ⟨p, hp, hp0⟩ := hpop j hlt
          rcases hj with ⟨-, -, q, hq, hq0⟩ | ⟨a, -, -⟩
          · rw [hp] at hq; cases hq; exact hp0 hq0
          · omega
        · exact heq
        · exfalso
          obtain ⟨p, hp, hp0⟩ := hbelow m hgt
          by_cases hm : m < PORTS_MAX
          · rw [hzero m (le_refl _) hm] at hp
            cases hp; exact hp0 rfl
          · have : st.ports[m]? = none := List.getElem?_eq_none (by omega)
            rw [this] at hp; cases hp
      subst hjm
      refine ⟨hr, ?_, hjlt⟩
      rcases hj with ⟨-, -, q, hq, -⟩ | ⟨-, -, a⟩
      · have := (List.getElem?_eq_some_iff.mp hq).1
        omega
      · omega

theorem set_slot_inv (st0 : EvtState) (m : Nat) (socktype : dfl_evt_socktype_t) (port : Nat)
    (sock : Int) (r1 r2 : dfl_evt_reader) (hinv : registry_inv_at st0 m) (hm : m < PORTS_MAX)
    (hmh : m < st0.high_mark) (hport : port ≠ 0) :
    ∃ st2, set_slot st0 m socktype port sock r1 r2 = .ok st2 ∧ registry_inv_at st2 (m + 1) ∧
      st2.ports = st0.ports.set m ⟨socktype, port, sock, r1, r2⟩ ∧
      st2.active_polls = st0.active_polls.set m ⟨sock, POLLIN, 0⟩ := by
  obtain ⟨hpl, hal, -, -, hpop, hzero⟩ := hinv
  unfold set_slot
  rw [if_pos ⟨by omega, by omega⟩]
  refine ⟨_, rfl, ⟨?_, ?_, ?_, ?_, ?_, ?_⟩, rfl, rfl⟩
  · simp only [List.length_set]; exact hpl
  · simp only [List.length_set]; exact hal
  · show m + 1 ≤ st0.high_mark
    omega
  · omega
  · intro i hi
    show ∃ p, (st0.ports.set m _)[i]? = some p ∧ p.port ≠ 0
    rw [List.getElem?_set]
    by_cases him : m = i
    · rw [if_pos him, if_pos (by omega)]
      exact ⟨_, rfl, hport⟩
    · rw [if_neg him]
      exact hpop i (by omega)
  · intro i hi hi20
    show (st0.ports.set m _)[i]? = some port_zero
    rw [List.getElem?_set, if_neg (by omega)]
    exact hzero i (by omega) hi20

theorem inv_of_same_tables (st st0 : EvtState) (m : Nat) (hinv : registry_inv_at st m)
    (e1 : st0.ports = st.ports) (e2 : st0.active_polls = st.active_polls)
    (e3 : st.high_mark ≤ st0.high_mark) : registry_inv_at st0 m := by
  obtain ⟨hpl, hal, hmh, hm20, hpop, hzero⟩ := hinv
  exact ⟨by rw [e1]; exact hpl, by rw [e2]; exact hal, by omega, hm20,
    by rw [e1]; exact hpop, by rw [e1]; exact hzero⟩

theorem add_port_inv (st : EvtState) (m : Nat) (socktype : dfl_evt_socktype_t) (port : Nat)
    (reader : dfl_evt_reader) (env : SockEnv) (r : Int) (st1 : EvtState)
    (hinv : registry_inv_at st m) (hport : port ≠ 0)
    (h : dfl_evt_add_port st socktype port reader env = .ok (r, st1)) :
    (registry_inv_at st1 m ∨ registry_inv_at st1 (m + 1)) ∧ fills_empty_slot st st1 := by
  unfold dfl_evt_add_port at h
  cases hf : find_free_slot st with
  | crash => rw [hf] at h; cases h
  | nofuel => rw [hf] at h; cases h
  | ok x =>
    obtain ⟨idx, st0⟩ := x
    rw [hf] at h
    dsimp only at h
    obtain ⟨e1, e2, e3, hidx⟩ := find_free_slot_inv st m idx st0 hinv hf
    have hinv0 := inv_of_same_tables st st0 m hinv e1 e2 e3
    have hsame : ∀ (x : Int), Run.ok (x, st0) = Run.ok (r, st1) →
        (registry_inv_at st1 m ∨ registry_inv_at st1 (m + 1)) ∧ fills_empty_slot st st1 := by
      intro x hx
      simp only [Run.ok.injEq, Prod.mk.injEq] at hx
      obtain ⟨-, rfl⟩ := hx
      exact ⟨Or.inl hinv0, Or.inl ⟨e1, e2⟩⟩
    have hset : ∀ (r1 r2 : dfl_evt_reader), ¬ idx < 0 →
        (match set_slot st0 idx.toNat socktype port env.socket r1 r2 with
          | .ok st2 => Run.ok ((0 : Int), st2)
          | .crash => .crash
          | .nofuel => .nofuel) = Run.ok (r, st1) →
        (registry_inv_at st1 m ∨ registry_inv_at st1 (m + 1)) ∧ fills_empty_slot st st1 := by
      intro r1 r2 hneg hx
      rcases hidx with hlt | ⟨him, hm20, hmh⟩
      · exact absurd hlt hneg
      · subst him
        rw [Int.toNat_ofNat] at hx
        obtain ⟨st2, k1, k2, k3, k4⟩ := set_slot_inv st0 m socktype port env.socket r1 r2
          hinv0 hm20 hmh hport
        rw [k1] at hx
        simp only [Run.ok.injEq, Prod.mk.injEq] at hx
        obtain ⟨-, rfl⟩ := hx
        refine ⟨Or.inr k2, Or.inr ⟨m, ⟨socktype, port, env.socket, r1, r2⟩, ?_, hport,
          by rw [k3, e1], by rw [k4, e2]⟩⟩
        exact hinv.2.2.2.2.2 m (le_refl _) hm20
    split at h
    · exact hsame _ h
    · rename_i hneg
      split at h
      · exact hsame _ h
      · split at h
        · exact hsame _ h
        · split at h
          · exact hsame _ h
          · split at h
            · exact hsame _ h
            · exact hset _ _ hneg h
      · split at h
        · exact hsame _ h
        · split at h
          · exact hsame _ h
          · split at h
            · exact hsame _ h
            · split at h
              · exact hsame _ h
              · exact hset _ _ hneg h

theorem accept_connection_inv (st : EvtState) (m idx : Nat) (p : dfl_evt_port_t)
    (new_sock : Int) (st1 : EvtState) (hinv : registry_inv_at st m)
    (hp : st.ports[idx]? = some p) (hreader : p.reader = .accept_connection)
    (h : accept_connection st p.fd new_sock = .ok st1) :
    (registry_inv_at st1 m ∨ registry_inv_at st1 (m + 1)) ∧ fills_empty_slot st st1 := by
  have hidx20 : idx < PORTS_MAX := by
    have := (List.getElem?_eq_some_iff.mp hp).1
    rw [hinv.1] at this; exact this
  have hidxm : idx < m := by
    by_contra hge
    have hz := hinv.2.2.2.2.2 idx (by omega) hidx20
    rw [hp] at hz
    cases hz
    cases hreader
  unfold accept_connection find_slot_by_sock at h
  cases hs : find_slot_by_sock_loop st.ports p.fd st.high_mark 0 with
  | crash => rw [hs] at h; cases h
  | nofuel => rw [hs] at h; cases h
  | ok r =>
    rw [hs] at h
    dsimp only at h
    have hsame : Run.ok st = Run.ok st1 →
        (registry_inv_at st1 m ∨ registry_inv_at st1 (m + 1)) ∧ fills_empty_slot st st1 := by
      intro hx
      cases hx
      exact ⟨Or.inl hinv, Or.inl ⟨rfl, rfl⟩⟩
    split at h
    · exact hsame h
    · rename_i hrneg
      split at h
      · exact hsame h
      · cases hf : find_free_slot st with
        | crash => rw [hf] at h; cases h
        | nofuel => rw [hf] at h; cases h
        | ok x =>
          obtain ⟨i, st0⟩ := x
          rw [hf] at h
          dsimp only at h
          obtain ⟨e1, e2, e3, hi⟩ := find_free_slot_inv st m i st0 hinv hf
          have hinv0 := inv_of_same_tables st st0 m hinv e1 e2 e3
          split at h
          · cases h
            exact ⟨Or.inl hinv0, Or.inl ⟨e1, e2⟩⟩
          · rename_i hineg
            rcases hi with hlt | ⟨him, hm20, hmh⟩
            · exact absurd hlt hineg
            subst him
            rcases find_slot_by_sock_loop_spec _ _ _ _ _ hs with hr1 | ⟨j, q, hrj, -, -, hjq, -, hbefore⟩
            · omega
            subst hrj
            have hjidx : j ≤ idx := by
              by_contra hgt
              obtain ⟨q2, hq2, hne⟩ := hbefore idx (Nat.zero_le _) (by omega)
              rw [hp] at hq2; cases hq2
              exact hne rfl
            obtain ⟨q3, hq3, hq30⟩ := hinv.2.2.2.2.1 j (by omega)
            rw [hjq] at hq3; cases hq3
            rw [Int.toNat_ofNat, Int.toNat_ofNat, e1, hjq] at h
            dsimp only at h
            obtain ⟨st2, k1, k2, k3, k4⟩ := set_slot_inv st0 m q.socktype q.port new_sock
              q.reader_to_install .null hinv0 hm20 hmh hq30
            rw [k1] at h
            cases h
            refine ⟨Or.inr k2, Or.inr ⟨m,
              ⟨q.socktype, q.port, new_sock, q.reader_to_install, .null⟩, ?_, hq30,
              by rw [k3, e1], by rw [k4, e2]⟩⟩
            exact hinv.2.2.2.2.2 m (le_refl _) hm20

theorem reg_step_inv (st : EvtState) (m : Nat) (op : RegOp) (st1 : EvtState)
    (hinv : registry_inv_at st m) (hop : op.nonzero_port) (h : reg_step st op = .ok st1) :
    (registry_inv_at st1 m ∨ registry_inv_at st1 (m + 1)) ∧ fills_empty_slot st st1 := by
  cases op with
  | add_port socktype port reader env =>
    simp only [reg_step] at h
    cases ha : dfl_evt_add_port st socktype port reader env with
    | crash => rw [ha] at h; cases h
    | nofuel => rw [ha] at h; cases h
    | ok x =>
      obtain ⟨r, st2⟩ := x
      rw [ha] at h
      cases h
      exact add_port_inv st m socktype port reader env r st1 hinv hop ha
  | service idx new_sock =>
    simp only [reg_step] at h
    cases hp : st.ports[idx]? with
    | none => rw [hp] at h; cases h
    | some p =>
      rw [hp] at h
      dsimp only at h
      split at h
      · rename_i hreader
        exact accept_connection_inv st m idx p new_sock st1 hinv hp hreader h
      · cases h
        exact ⟨Or.inl hinv, Or.inl ⟨rfl, rfl⟩⟩

theorem reg_run_inv : ∀ (ops : List RegOp) (st0 : EvtState) (m : Nat) (st : EvtState),
    registry_inv_at st0 m → (∀ o ∈ ops, o.nonzero_port) → reg_run st0 ops = .ok st →
    ∃ m1, registry_inv_at st m1 := by
  intro ops
  induction ops with
  | nil =>
    intro st0 m st hinv _ h
    cases h
    exact ⟨m, hinv⟩
  | cons op ops ih =>
    intro st0 m st hinv hops h
    unfold reg_run at h
    cases hs : reg_step st0 op with
    | crash => rw [hs] at h; cases h
    | nofuel => rw [hs] at h; cases h
    | ok st1 =>
      rw [hs] at h
      dsimp only at h
      have hstep := (reg_step_inv st0 m op st1 hinv (hops op (List.mem_cons_self _ _)) hs).1
      rcases hstep with h1 | h1
      · exact ih st1 m st h1 (fun o ho => hops o (List.mem_cons_of_mem _ ho)) h
      · exact ih st1 (m + 1) st h1 (fun o ho => hops o (List.mem_cons_of_mem _ ho)) h

/-- C6, counterexample: after `dfl_evt_add_port(udp, 0, reader_0)` (descriptor 3) slot 0
holds that endpoint, and `find_free_slot` hands slot 0 out again; a second call
`dfl_evt_add_port(udp, 7, reader_1)` (descriptor 4) returns 0 and overwrites it:
descriptor 3 is in no slot any more. -/
theorem C6_port_zero_is_overwritten :
    (∃ st, add_port_seq evt_init (port_zero_calls.take 1) = .ok ([0], st) ∧
      st.ports[0]? = some ⟨.socktype_udp, 0, 3, .user 0, .null⟩ ∧
      find_free_slot st = .ok (0, st)) ∧
    (∃ st, add_port_seq evt_init port_zero_calls = .ok ([0, 0], st) ∧
      st.ports[0]? = some ⟨.socktype_udp, 7, 4, .user 1, .null⟩ ∧
      ∀ p ∈ st.ports, p.fd ≠ 3) :=
  ⟨⟨_, rfl, rfl, rfl⟩, ⟨_, rfl, rfl, by decide⟩⟩

/-- C6, amended: after any sequence of registrations that use no port 0
(`dfl_evt_add_port` with a non-zero port, or the accept adapter run for a serviced slot),
the slot `find_free_slot` hands out is an empty one (as the program start left it), every
slot is either empty or holds a non-zero port, and a further such registration either
leaves both tables alone or fills exactly one slot that was empty; so every populated slot
of `ports` and its entry of `active_polls` are the same afterwards. -/
theorem C6_registration_takes_empty_slot (ops : List RegOp) (st : EvtState) (op : RegOp)
    (st1 : EvtState) (hops : ∀ o ∈ ops, o.nonzero_port)
    (hrun : reg_run evt_init ops = .ok st) (hop : op.nonzero_port)
    (hstep : reg_step st op = .ok st1) :
    (∀ (r : Int) (st2 : EvtState), find_free_slot st = .ok (r, st2) → 0 ≤ r →
      st.ports[r.toNat]? = some port_zero) ∧
    (∀ (i : Nat) (p : dfl_evt_port_t), st.ports[i]? = some p → p = port_zero ∨ p.port ≠ 0) ∧
    fills_empty_slot st st1 ∧
    (∀ (i : Nat) (p : dfl_evt_port_t), st.ports[i]? = some p → p.port ≠ 0 →
      st1.ports[i]? = some p ∧ st1.active_polls[i]? = st.active_polls[i]?) := by
  obtain ⟨m, hinv⟩ := reg_run_inv ops evt_init 0 st registry_inv_init hops hrun
  have hfill := (reg_step_inv st m op st1 hinv hop hstep).2
  refine ⟨?_, ?_, hfill, ?_⟩
  · intro r st2 hf hr
    obtain ⟨-, -, -, hcase⟩ := find_free_slot_inv st m r st2 hinv hf
    rcases hcase with hlt | ⟨hrm, hm20, -⟩
    · omega
    · subst hrm
      rw [Int.toNat_ofNat]
      exact hinv.2.2.2.2.2 m (le_refl _) hm20
  · intro i p hp
    by_cases him : i < m
    · obtain ⟨q, hq, hq0⟩ := hinv.2.2.2.2.1 i him
      rw [hp] at hq; cases hq
      exact Or.inr hq0
    · have hi20 : i < PORTS_MAX := by
        have := (List.getElem?_eq_some_iff.mp hp).1
        rw [hinv.1] at this; exact this
      have hz := hinv.2.2.2.2.2 i (by omega) hi20
      rw [hp] at hz; cases hz
      exact Or.inl rfl
  · intro i p hp hp0
    rcases hfill with ⟨e1, e2⟩ | ⟨j, q, hj, -, e1, e2⟩
    · rw [e1, e2]; exact ⟨hp, rfl⟩
    · have hij : j ≠ i := by
        intro hji
        subst hji
        rw [hp] at hj; cases hj
        exact hp0 rfl
      rw [e1, e2, List.getElem?_set, List.getElem?_set, if_neg hij, if_neg hij]
      exact ⟨hp, rfl⟩

/-- C6, amended, at a concrete input: after a TCP listener, a UDP port and one accepted
connection, a second accepted connection goes to the empty slot 3. -/
theorem C6_registration_takes_empty_slot_witness :
    sample_registry.ports[2]? = some ⟨.socktype_tcp, 80, 5, .user 1, .null⟩ ∧
    sample_registry_next.ports[3]? = some ⟨.socktype_tcp, 80, 6, .user 1, .null⟩ ∧
    fills_empty_slot sample_registry sample_registry_next :=
  ⟨by decide, by decide,
   (C6_registration_takes_empty_slot sample_ops sample_registry (.service 0 6)
      sample_registry_next (by decide) (by decide) (by decide) (by decide)).2.2.1⟩

/-! ### Filling the registry -/

theorem find_free_slot_loop_exact (ports : List dfl_evt_port_t) (m : Nat) :
    ∀ (k idx : Nat), idx ≤ m → m ≤ idx + k →
    (∀ i, idx ≤ i → i < m → ∃ p, ports[i]? = some p ∧ p.port ≠ 0) →
    (m < idx + k → ports[m]? = some port_zero) →
    find_free_slot_loop ports k idx = .ok m := by
  intro k
  induction k with
  | zero =>
    intro idx h1 h2 _ _
    have : idx = m := by omega
    subst this; rfl
  | succ k ih =>
    intro idx h1 h2 hpop hz
    rw [find_free_slot_loop]
    by_cases hidx : idx = m
    · subst hidx
      rw [hz (by omega)]
      rfl
    · obtain ⟨p, hp, hp0⟩ := hpop idx (le_refl _) (by omega)
      rw [hp]
      dsimp only
      rw [if_neg hp0]
      exact ih (idx + 1) (by omega) (by omega) (fun i a b => hpop i (by omega) b)
        (fun a => hz (by omega))

/-- What `find_free_slot` returns on a registry whose first `m` slots are populated. -/
theorem find_free_slot_exact (st : EvtState) (m : Nat) (hinv : registry_inv_at st m)
    (hm : m < PORTS_MAX) :
    find_free_slot st =
      if m < st.high_mark then .ok ((m : Int), st)
      else if st.high_mark + 1 ≥ PORTS_MAX then
        .ok (-1, { st with high_mark := st.high_mark + 1 })
      else .ok ((m : Int), { st with high_mark := st.high_mark + 1 }) := by
  obtain ⟨-, -, hmh, -, hpop, hzero⟩ := hinv
  have hloop := find_free_slot_loop_exact st.ports m st.high_mark 0 (Nat.zero_le _)
    (by omega) (fun i _ hi => hpop i hi) (fun _ => hzero m (le_refl _) hm)
  unfold find_free_slot
  rw [hloop]
  dsimp only
  by_cases hlt : m < st.high_mark
  · rw [if_neg (by omega), if_pos hlt]
  · rw [if_pos (by omega), if_neg hlt]

theorem add_port_goes_through (st st0 : EvtState) (m : Nat) (c : AddPortCall)
    (hinv : registry_inv_at st m) (hok : c.goes_through)
    (hf : find_free_slot st = .ok ((m : Int), st0)) :
    ∃ st1, dfl_evt_add_port st c.socktype c.port c.reader c.env = .ok (0, st1) ∧
      registry_inv_at st1 (m + 1) ∧ st1.high_mark = st0.high_mark ∧
      st1.ports = st.ports.set m
        ⟨c.socktype, c.port, c.env.socket,
         if c.socktype = .socktype_tcp then .accept_connection else c.reader,
         if c.socktype = .socktype_tcp then c.reader else .null⟩ := by
  obtain ⟨hport, hkind, h1, h2, h3, h4⟩ := hok
  obtain ⟨e1, e2, e3, hidx⟩ := find_free_slot_inv st m m st0 hinv hf
  have hinv0 := inv_of_same_tables st st0 m hinv e1 e2 e3
  rcases hidx with hneg | ⟨-, hm20, hmh⟩
  · omega
  unfold dfl_evt_add_port
  rw [hf]
  dsimp only
  rw [if_neg (by omega), Int.toNat_ofNat]
  cases hs : c.socktype with
  | socktype_none => exact absurd hs hkind
  | socktype_udp =>
    dsimp only
    rw [if_neg (by omega), if_neg (by omega), if_neg (by omega)]
    obtain ⟨st2, k1, k2, k3, -⟩ := set_slot_inv st0 m .socktype_udp c.port c.env.socket
      c.reader .null hinv0 hm20 hmh hport
    rw [k1]
    refine ⟨st2, rfl, k2, ?_, ?_⟩
    · unfold set_slot at k1
      rw [if_pos ⟨by rw [hinv0.1]; exact hm20, by rw [hinv0.2.1]; exact hm20⟩] at k1
      cases k1; rfl
    · rw [k3, e1]; simp
  | socktype_tcp =>
    dsimp only
    rw [if_neg (by omega), if_neg (by omega), if_neg (by omega), if_neg (by omega)]
    obtain ⟨st2, k1, k2, k3, -⟩ := set_slot_inv st0 m .socktype_tcp c.port c.env.socket
      .accept_connection c.reader hinv0 hm20 hmh hport
    rw [k1]
    refine ⟨st2, rfl, k2, ?_, ?_⟩
    · unfold set_slot at k1
      rw [if_pos ⟨by rw [hinv0.1]; exact hm20, by rw [hinv0.2.1]; exact hm20⟩] at k1
      cases k1; rfl
    · rw [k3, e1]; simp

theorem add_port_seq_append : ∀ (a b : List AddPortCall) (st : EvtState),
    add_port_seq st (a ++ b) =
      match add_port_seq st a with
      | .crash => .crash
      | .nofuel => .nofuel
      | .ok (ra, st1) =>
        match add_port_seq st1 b with
        | .crash => .crash
        | .nofuel => .nofuel
        | .ok (rb, st2) => .ok (ra ++ rb, st2) := by
  intro a
  induction a with
  | nil =>
    intro b st
    simp only [List.nil_append, add_port_seq]
    cases add_port_seq st b with
    | crash => rfl
    | nofuel => rfl
    | ok x => rfl
  | cons c a ih =>
    intro b st
    simp only [List.cons_append, add_port_seq]
    cases dfl_evt_add_port st c.socktype c.port c.reader c.env with
    | crash => rfl
    | nofuel => rfl
    | ok x =>
      dsimp only
      rw [show a.append b = a ++ b from rfl, ih]
      cases add_port_seq x.2 a with
      | crash => rfl
      | nofuel => rfl
      | ok y =>
        dsimp only
        cases add_port_seq y.2 b with
        | crash => rfl
        | nofuel => rfl
        | ok z => rfl

/-- Calls that go through fill the slots in order and return 0 while fewer than
`PORTS_MAX - 1` slots are taken. -/
theorem add_port_seq_fill : ∀ (calls : List AddPortCall) (st : EvtState) (m : Nat),
    registry_inv_at st m → st.high_mark = m → m + calls.length < PORTS_MAX →
    (∀ c ∈ calls, c.goes_through) →
    ∃ st1, add_port_seq st calls = .ok (List.replicate calls.length 0, st1) ∧
      registry_inv_at st1 (m + calls.length) ∧ st1.high_mark = m + calls.length := by
  intro calls
  induction calls with
  | nil => intro st m hinv hh _ _; exact ⟨st, rfl, hinv, hh⟩
  | cons c cs ih =>
    intro st m hinv hh hlen hok
    simp only [List.length_cons] at hlen
    have hf := find_free_slot_exact st m hinv (by omega)
    rw [if_neg (by omega), if_neg (by omega)] at hf
    obtain ⟨st1, k1, k2, k3, -⟩ := add_port_goes_through st _ m c hinv
      (hok c (List.mem_cons_self _ _)) hf
    obtain ⟨st2, j1, j2, j3⟩ := ih st1 (m + 1) k2 (by rw [k3]; show st.high_mark + 1 = _; omega)
      (by omega) (fun x hx => hok x (List.mem_cons_of_mem _ hx))
    refine ⟨st2, ?_, ?_, ?_⟩
    · simp only [add_port_seq, k1, j1, List.length_cons, List.replicate_succ]
    · rw [List.length_cons, show m + (cs.length + 1) = m + 1 + cs.length by omega]; exact j2
    · rw [List.length_cons, show m + (cs.length + 1) = m + 1 + cs.length by omega]; exact j3

theorem add_port_refused (st : EvtState) (m : Nat) (c : AddPortCall)
    (hinv : registry_inv_at st m) (hh : st.high_mark = m) (hm : m + 1 = PORTS_MAX) :
    dfl_evt_add_port st c.socktype c.port c.reader c.env =
      .ok (-1, { st with high_mark := st.high_mark + 1 }) := by
  have hf := find_free_slot_exact st m hinv (by omega)
  rw [if_neg (by omega), if_pos (by omega)] at hf
  unfold dfl_evt_add_port
  rw [hf]
  rfl

/-- The first 19 of a sequence of calls that go through, from the initial registry. -/
theorem first_nineteen (calls : List AddPortCall) (hlen : 19 ≤ calls.length)
    (hok : ∀ c ∈ calls, c.goes_through) :
    ∃ st1, add_port_seq evt_init (calls.take 19) = .ok (List.replicate 19 0, st1) ∧
      registry_inv_at st1 19 ∧ st1.high_mark = 19 := by
  have hl : (calls.take 19).length = 19 := by
    rw [List.length_take]; omega
  obtain ⟨st1, h1, h2, h3⟩ := add_port_seq_fill (calls.take 19) evt_init 0 registry_inv_init
    rfl (by rw [hl]; decide) (fun c hc => hok c (List.mem_of_mem_take hc))
  rw [hl] at h1 h2 h3
  exact ⟨st1, h1, by simpa using h2, by simpa using h3⟩

/-- C4 (code defect): of any 20 calls `dfl_evt_add_port` on the initial registry that use
non-zero ports and a supported socket type and whose socket calls all succeed, the first
19 return 0 and the 20th returns -1: `find_free_slot` raises `high_mark` to 20 and then
refuses it (`high_mark >= PORTS_MAX`), although slot 19 of the table is free. -/
theorem C4_twentieth_registration_refused (calls : List AddPortCall)
    (hlen : calls.length = PORTS_MAX) (hok : ∀ c ∈ calls, c.goes_through) :
    ∃ st, add_port_seq evt_init calls = .ok (List.replicate 19 0 ++ [-1], st) ∧
      st.high_mark = 20 ∧ st.ports[19]? = some port_zero := by
  have hlen20 : calls.length = 20 := hlen
  obtain ⟨st1, h1, h2, h3⟩ := first_nineteen calls (by omega) hok
  obtain ⟨c, hc⟩ : ∃ c, calls.drop 19 = [c] := by
    have hl : (calls.drop 19).length = 1 := by rw [List.length_drop]; omega
    match hd : calls.drop 19, hl with
    | [c], _ => exact ⟨c, rfl⟩
  have hsplit : calls = calls.take 19 ++ [c] := by
    rw [← hc, List.take_append_drop]
  have hlast := add_port_refused st1 19 c h2 h3 (by decide)
  refine ⟨{ st1 with high_mark := st1.high_mark + 1 }, ?_, ?_, ?_⟩
  · rw [hsplit, add_port_seq_append, h1]
    simp only [add_port_seq, hlast]
  · show st1.high_mark + 1 = 20
    omega
  · exact h2.2.2.2.2.2 19 (le_refl _) (by decide)

/-- C4, at a concrete input: the UDP ports 1..20. -/
theorem C4_twentieth_registration_refused_witness :
    ∃ st, add_port_seq evt_init (udp_calls 20) = .ok (List.replicate 19 0 ++ [-1], st) ∧
      st.high_mark = 20 ∧ st.ports[19]? = some port_zero :=
  C4_twentieth_registration_refused (udp_calls 20) (by decide) (by decide)

/-- C5 (code defect): of any 21 calls `dfl_evt_add_port` on the initial registry that use
non-zero ports and a supported socket type and whose socket calls all succeed, the 20th
returns -1 and the 21st returns 0: the refused 20th call left `high_mark` at 20, so the
21st finds the free slot 19 below `high_mark` and registers its port there. -/
theorem C5_call_after_capacity_succeeds (calls : List AddPortCall)
    (hlen : calls.length = PORTS_MAX + 1) (hok : ∀ c ∈ calls, c.goes_through) :
    ∃ st, add_port_seq evt_init calls = .ok (List.replicate 19 0 ++ [-1, 0], st) ∧
      st.high_mark = 20 ∧ ∃ p, st.ports[19]? = some p ∧ p.port ≠ 0 := by
  have hlen21 : calls.length = 21 := hlen
  obtain ⟨st1, h1, h2, h3⟩ := first_nineteen calls (by omega) hok
  obtain ⟨c, c2, hc⟩ : ∃ c c2, calls.drop 19 = [c, c2] := by
    have hl : (calls.drop 19).length = 2 := by rw [List.length_drop]; omega
    match hd : calls.drop 19, hl with
    | [c, c2], _ => exact ⟨c, c2, rfl⟩
  have hsplit : calls = calls.take 19 ++ [c, c2] := by
    rw [← hc, List.take_append_drop]
  have hc2 : c2.goes_through := by
    apply hok
    rw [hsplit]
    simp
  have hlast := add_port_refused st1 19 c h2 h3 (by decide)
  have hinv2 : registry_inv_at { st1 with high_mark := st1.high_mark + 1 } 19 :=
    inv_of_same_tables st1 _ 19 h2 rfl rfl (Nat.le_succ _)
  have hf := find_free_slot_exact { st1 with high_mark := st1.high_mark + 1 } 19 hinv2
    (by decide)
  rw [if_pos (by show 19 < st1.high_mark + 1; omega)] at hf
  obtain ⟨st2, k1, k2, k3, -⟩ := add_port_goes_through _ _ 19 c2 hinv2 hc2 hf
  refine ⟨st2, ?_, ?_, ?_⟩
  · rw [hsplit, add_port_seq_append, h1]
    simp only [add_port_seq, hlast, k1]
  · rw [k3]
    show st1.high_mark + 1 = 20
    omega
  · exact k2.2.2.2.2.1 19 (by omega)

/-- C5, at a concrete input: the UDP ports 1..21; port 21 ends up in slot 19. -/
theorem C5_call_after_capacity_succeeds_witness :
    (∃ st, add_port_seq evt_init (udp_calls 21) = .ok (List.replicate 19 0 ++ [-1, 0], st) ∧
      st.high_mark = 20 ∧ ∃ p, st.ports[19]? = some p ∧ p.port ≠ 0) ∧
    (∃ st, add_port_seq evt_init (udp_calls 21) = .ok (List.replicate 19 0 ++ [-1, 0], st) ∧
      st.ports[19]? = some ⟨.socktype_udp, 21, 23, .user 20, .null⟩) :=
  ⟨C5_call_after_capacity_succeeds (udp_calls 21) (by decide) (by decide), ⟨_, rfl, rfl⟩⟩

/-! ### Fields of a record -/

theorem parse_copy_field : ∀ (f : CStr) (room : Nat) (tail : CStr), is_field f →
    f.length ≤ room → ends_field tail → parse_copy room (f ++ tail) = (f, tail) := by
  intro f
  induction f with
  | nil =>
    intro room tail _ _ ht
    cases room with
    | zero => rfl
    | succ r =>
      cases tail with
      | nil => rfl
      | cons c cs =>
        simp only [ends_field, List.headD_cons] at ht
        simp only [List.nil_append, parse_copy, ht, if_true]
  | cons a f ih =>
    intro room tail hf hlen ht
    cases room with
    | zero => simp at hlen
    | succ r =>
      have ha := hf a (List.mem_cons_self _ _)
      have hf2 : is_field f := fun c hc => hf c (List.mem_cons_of_mem _ hc)
      simp only [List.length_cons, Nat.add_le_add_iff_right] at hlen
      have hrec := ih r tail hf2 hlen ht
      simp only [List.cons_append, parse_copy, ha.1, ha.2.1, ha.2.2, or_self, if_false]
      rw [show f.append tail = f ++ tail from rfl, hrec]

theorem parse_next_element_field (f tail : CStr) (buf_size : Int) (hf : is_field f)
    (hlen : (f.length : Int) ≤ buf_size - 1) (ht : ends_field tail) :
    parse_next_element (some (f ++ tail)) buf_size =
      .ok ((after_field tail).1, (after_field tail).2, f) := by
  have hpos : buf_size - 1 > 0 ∨ f.length = 0 := by omega
  have hroom : f.length ≤ (if buf_size - 1 > 0 then buf_size - 1 else 0 : Int).toNat := by
    split <;> omega
  unfold parse_next_element
  simp only [parse_copy_field f _ tail hf hroom ht]
  unfold after_field
  rcases ht with h | h | h
  · simp only [h, if_true]
  · simp only [h]; rfl
  · simp only [h]; rfl

theorem digit_bounds (c : Char) (h : '0' ≤ c ∧ c ≤ '9') : 48 ≤ c.toNat ∧ c.toNat ≤ 57 :=
  ⟨h.1, h.2⟩

theorem digit_val_digit (c : Char) (h : '0' ≤ c ∧ c ≤ '9') :
    digit_val c = some (c.toNat - 48) := by
  simp only [digit_val, h, and_self, if_true]

theorem strtol_digits_decimal : ∀ (nr : CStr) (acc n : Nat),
    (∀ c ∈ nr, '0' ≤ c ∧ c ≤ '9') →
    strtol_digits 10 nr acc n = (dec_fold acc nr, n + nr.length, []) := by
  intro nr
  induction nr with
  | nil => intro acc n _; rfl
  | cons c cs ih =>
    intro acc n h
    have hc := h c (List.mem_cons_self _ _)
    have hb := digit_bounds c hc
    rw [strtol_digits, digit_val_digit c hc]
    simp only
    rw [if_pos (by omega), ih _ _ (fun x hx => h x (List.mem_cons_of_mem _ hx))]
    simp only [dec_fold, List.foldl_cons, List.length_cons]
    congr 2
    omega

theorem strtol_steps (nptr : CStr) :
    strtol nptr =
      strtol_result nptr (strtol_sign (nptr.dropWhile isspace)).1
        (strtol_digits (strtol_base (strtol_sign (nptr.dropWhile isspace)).2).1
          (strtol_base (strtol_sign (nptr.dropWhile isspace)).2).2 0 0) := rfl

theorem strtol_decimal (nr : CStr) (h : is_decimal nr) (hmax : (dec_value nr : Int) ≤ LONG_MAX) :
    strtol nr = ((dec_value nr : Int), []) := by
  obtain ⟨hne, hdig, hlead⟩ := h
  cases nr with
  | nil => exact absurd rfl hne
  | cons c cs =>
    have hc := hdig c (List.mem_cons_self _ _)
    by_cases h0 : c = '0'
    · subst h0
      have := hlead rfl
      rw [this]
      decide
    · have hsp : isspace c = false := by
        unfold isspace
        have e1 : c ≠ ' ' := by rintro rfl; exact absurd hc.1 (by decide)
        have e2 : c ≠ '\t' := by rintro rfl; exact absurd hc.1 (by decide)
        have e3 : c ≠ '\n' := by rintro rfl; exact absurd hc.1 (by decide)
        have e4 : c ≠ '\x0b' := by rintro rfl; exact absurd hc.1 (by decide)
        have e5 : c ≠ '\x0c' := by rintro rfl; exact absurd hc.1 (by decide)
        have e6 : c ≠ '\r' := by rintro rfl; exact absurd hc.1 (by decide)
        simp [e1, e2, e3, e4, e5, e6]
      have em : c ≠ '-' := by rintro rfl; exact absurd hc.1 (by decide)
      have ep : c ≠ '+' := by rintro rfl; exact absurd hc.1 (by decide)
      have hdrop : (c :: cs).dropWhile isspace = c :: cs := by
        rw [List.dropWhile_cons, hsp]; rfl
      have hsign : strtol_sign (c :: cs) = (false, c :: cs) := by
        unfold strtol_sign
        split
        · rename_i heq; simp only [List.cons.injEq] at heq; exact absurd heq.1 em
        · rename_i heq; simp only [List.cons.injEq] at heq; exact absurd heq.1 ep
        · rfl
      have hhex : has_hex_lead (c :: cs) = false := by
        unfold has_hex_lead
        split
        · rename_i heq
          simp only [List.cons.injEq] at heq
          exact absurd heq.1 h0
        · rfl
      have hbase : strtol_base (c :: cs) = (10, c :: cs) := by
        unfold strtol_base
        rw [hhex]
        simp only [Bool.false_eq_true, if_false]
        split
        · rename_i heq; simp only [List.cons.injEq] at heq; exact absurd heq.1 h0
        · rfl
      have hd := strtol_digits_decimal (c :: cs) 0 0 hdig
      rw [strtol_steps, hdrop, hsign, hbase, hd]
      unfold strtol_result
      simp only [Nat.zero_add, List.length_cons, Nat.add_one_ne_zero, if_false,
        Bool.false_eq_true]
      have hmin : ¬ ((dec_fold 0 (c :: cs) : Nat) : Int) < LONG_MIN := by
        unfold LONG_MIN; omega
      have hmax2 : ¬ ((dec_fold 0 (c :: cs) : Nat) : Int) > LONG_MAX := by
        unfold dec_value at hmax; omega
      simp only [hmin, hmax2, if_false]
      rfl

theorem dec_fold_lower : ∀ (nr : CStr) (acc : Nat), acc * 10 ^ nr.length ≤ dec_fold acc nr := by
  intro nr
  induction nr with
  | nil => intro acc; simp [dec_fold]
  | cons c cs ih =>
    intro acc
    have h := ih (acc * 10 + (c.toNat - 48))
    simp only [dec_fold, List.foldl_cons, List.length_cons] at h ⊢
    calc acc * 10 ^ (cs.length + 1) = acc * 10 * 10 ^ cs.length := by ring
      _ ≤ (acc * 10 + (c.toNat - 48)) * 10 ^ cs.length :=
          Nat.mul_le_mul_right _ (Nat.le_add_right _ _)
      _ ≤ _ := h

theorem decimal_length (nr : CStr) (h : is_decimal nr) (hval : dec_value nr < 2 ^ 31) :
    nr.length ≤ 10 := by
  obtain ⟨hne, hdig, hlead⟩ := h
  cases nr with
  | nil => exact absurd rfl hne
  | cons c cs =>
    by_cases h0 : c = '0'
    · subst h0
      rw [hlead rfl]
      decide
    · have hb := digit_bounds c (hdig c (List.mem_cons_self _ _))
      have hne48 : c.toNat ≠ 48 := by
        intro e
        apply h0
        rw [← Char.ofNat_toNat c, e]
      have hlow := dec_fold_lower cs (0 * 10 + (c.toNat - 48))
      have hv : dec_value (c :: cs) = dec_fold (0 * 10 + (c.toNat - 48)) cs := rfl
      rw [hv] at hval
      by_contra hlen
      simp only [List.length_cons, not_le] at hlen
      have hp : 10 ^ 10 ≤ 10 ^ cs.length := Nat.pow_le_pow_right (by decide) (by omega)
      have h1 : 1 * 10 ^ cs.length ≤ (0 * 10 + (c.toNat - 48)) * 10 ^ cs.length :=
        Nat.mul_le_mul_right _ (by omega)
      have : (10 : Nat) ^ 10 = 10000000000 := by norm_num
      have : (2 : Nat) ^ 31 = 2147483648 := by norm_num
      omega

theorem decimal_is_field (nr : CStr) (h : is_decimal nr) : is_field nr := by
  intro c hc
  have hd := h.2.1 c hc
  refine ⟨?_, ?_, ?_⟩
  · rintro rfl; exact absurd hd.1 (by decide)
  · rintro rfl; exact absurd hd.1 (by decide)
  · rintro rfl; exact absurd hd.1 (by decide)

theorem after_field_nonneg (tail : CStr) : ¬ (after_field tail).1 < 0 := by
  unfold after_field
  split
  · simp
  · split <;> simp

theorem after_field_comma (t : CStr) : after_field (',' :: t) = (1, some t) := rfl

theorem ends_field_comma (t : CStr) : ends_field (',' :: t) := Or.inl rfl

theorem to_int32_small (n : Nat) (h : n < 2 ^ 31) : to_int32 (n : Int) = (n : Int) := by
  unfold to_int32
  have : (2 : Nat) ^ 31 = 2147483648 := by norm_num
  omega

/-- Reading a decimal literal of a non-negative 32-bit value: `strtol` consumes it all and
the `int32_t` is its value. -/
theorem strtol_decimal_int32 (nr : CStr) (h : is_decimal nr) (hval : dec_value nr < 2 ^ 31) :
    (strtol nr).2 = [] ∧ to_int32 (strtol nr).1 = (dec_value nr : Int) := by
  have : (2 : Nat) ^ 31 = 2147483648 := by norm_num
  rw [strtol_decimal nr h (by unfold LONG_MAX; omega)]
  exact ⟨rfl, to_int32_small _ hval⟩

/-- C13: on the rest `<name>,<host>,<ip_port>` of an in-port record (name a non-empty
field of at most 99 characters, host a field of at most 99 characters, `ip_port` a decimal
literal of a value below `2^31`, followed by the end of the record), with an in-port
handler installed, `process_in_port` calls the handler once, with the name and the value,
and returns 0 unless the handler returns a negative value (then -42). -/
theorem C13_in_port_record {σ : Type} (h : Handlers σ) (handler : CStr → Int → σ → Int × σ)
    (name host nr tail : CStr) (s : σ) (calls : List CfgCall)
    (hh : h.in_port_handler = some handler)
    (hname : is_field name) (hne : name ≠ []) (hnl : name.length ≤ 99)
    (hhost : is_field host) (hhl : host.length ≤ 99)
    (hnr : is_decimal nr) (hval : dec_value nr < 2 ^ 31) (htail : ends_field tail) :
    process_in_port h ⟨some (name ++ ',' :: (host ++ ',' :: (nr ++ tail))), s, calls⟩ =
      .ok (if (handler name (dec_value nr) s).1 < 0 then -42 else 0,
           ⟨(after_field tail).2, (handler name (dec_value nr) s).2,
            calls ++ [.in_port name (dec_value nr)]⟩) := by
  have hnrl := decimal_length nr hnr hval
  have hnrne : nr ≠ [] := hnr.1
  obtain ⟨hrest, hv⟩ := strtol_decimal_int32 nr hnr hval
  have p1 := parse_next_element_field name (',' :: (host ++ ',' :: (nr ++ tail))) 100 hname
    (by omega) (ends_field_comma _)
  have p2 := parse_next_element_field host (',' :: (nr ++ tail)) 100 hhost
    (by omega) (ends_field_comma _)
  have p3 := parse_next_element_field nr tail 20 (decimal_is_field nr hnr) (by omega) htail
  simp only [after_field_comma] at p1 p2
  have e1 : ¬ ((1 : Int) < 0) := by decide
  unfold process_in_port
  rw [hh]
  simp only [p1, p2, p3, hne, hnrne, hrest, hv, after_field_nonneg tail, e1, or_self,
    if_false, ne_eq, not_true_eq_false]
  by_cases hneg : (handler name (dec_value nr) s).1 < 0
  · simp only [hneg, if_true]
  · simp only [hneg, if_false]

/-- C13, at a concrete input: the rest `p1,,5000` of the record `in-port,p1,,5000`. -/
theorem C13_in_port_record_witness :
    process_in_port accept_all ⟨some "p1,,5000".toList, (), []⟩ =
      .ok (0, ⟨none, (), [.in_port "p1".toList 5000]⟩) :=
  C13_in_port_record accept_all (fun _ _ s => (0, s)) "p1".toList [] "5000".toList [] () []
    rfl (by decide) (by decide) (by decide) (by decide) (by decide) (by decide) (by decide)
    (by decide)

/-- C15 (code defect): on the rest `p1,,-5` of a record (`ip_port` field `-5`), with any
in-port handler installed `process_in_port` calls it with `("p1", -5)`, and with any
out-port handler installed `process_out_port` calls it with `("p1", "localhost", -5)`; the
status is 0 unless the handler itself returns a negative value.  Neither function tests
the sign of `ip_port`. -/
theorem C15_negative_port_reaches_handler {σ : Type} (f : CStr → Int → σ → Int × σ)
    (g : CStr → CStr → Int → σ → Int × σ) (hs : Handlers σ) (s : σ) :
    process_in_port { hs with in_port_handler := some f } ⟨some "p1,,-5".toList, s, []⟩ =
      .ok (if (f "p1".toList (-5) s).1 < 0 then -42 else 0,
           ⟨none, (f "p1".toList (-5) s).2, [.in_port "p1".toList (-5)]⟩) ∧
    process_out_port { hs with out_port_handler := some g } ⟨some "p1,,-5".toList, s, []⟩ =
      .ok (if (g "p1".toList "localhost".toList (-5) s).1 < 0 then -52 else 0,
           ⟨none, (g "p1".toList "localhost".toList (-5) s).2,
            [.out_port "p1".toList "localhost".toList (-5)]⟩) := by
  constructor
  · show (if (f "p1".toList (-5) s).1 < 0 then _ else _) = _
    split <;> rfl
  · show (if (g "p1".toList "localhost".toList (-5) s).1 < 0 then _ else _) = _
    split <;> rfl

theorem first_field_split (line : CStr) : first_field line ++ after_first line = line :=
  List.takeWhile_append_dropWhile _ _

theorem first_field_is_field (line : CStr) : is_field (first_field line) := by
  intro c hc
  have := List.mem_takeWhile_imp hc
  simp only [Bool.not_eq_true', Bool.or_eq_false_iff, decide_eq_false_iff_not] at this
  exact ⟨this.1.1, this.1.2, this.2⟩

theorem after_first_ends (line : CStr) : ends_field (after_first line) := by
  unfold ends_field after_first
  cases hd : line.dropWhile (fun c => !(c = ',' || c = '\n' || c = '\x00')) with
  | nil => right; right; rfl
  | cons c cs =>
    have hne : line.dropWhile (fun c => !(c = ',' || c = '\n' || c = '\x00')) ≠ [] := by
      rw [hd]; simp
    have hh := List.head_dropWhile_not (fun c => !(c = ',' || c = '\n' || c = '\x00')) line hne
    simp only [hd, List.head_cons, Bool.not_eq_true, Bool.not_eq_false',
      Bool.or_eq_true, decide_eq_true_eq] at hh
    simp only [List.headD_cons]
    rcases hh with (h1 | h2) | h3
    · exact Or.inl h1
    · exact Or.inr (Or.inl h2)
    · exact Or.inr (Or.inr h3)

/-- One turn of the record loop of `dfl_cfg_read_and_process`, given what
`process_csv_line` returns for the line of the turn. -/
theorem read_loop_turn {σ : Type} (h : Handlers σ) (buf : List Char) (fuel buf_idx : Nat)
    (s : σ) (calls : List CfgCall) (recs : List (CStr × Int)) (r : Int) (c : Cfg σ)
    (hlt : buf_idx < buf.length)
    (hp : process_csv_line h ⟨some (line_at buf buf_idx), s, calls⟩ = .ok (r, c)) :
    read_loop h buf (fuel + 1) buf_idx s calls recs =
      if r < 0 then
        .ok ⟨recs ++ [(line_at buf buf_idx, r)], c.calls, c.hstate,
             buf_idx + (copied_at buf buf_idx).length⟩
      else
        read_loop h buf fuel (buf_idx + (copied_at buf buf_idx).length) c.hstate c.calls
          (recs ++ [(line_at buf buf_idx, r)]) := by
  unfold line_at copied_at at hp
  conv_lhs => unfold read_loop
  simp only [hlt, if_true, hp]
  rfl

/-- A field longer than the room left in `elem_buf`: the copy loop stops inside it. -/
theorem parse_copy_long : ∀ (f : CStr) (room : Nat) (tail : CStr), is_field f →
    room < f.length → parse_copy room (f ++ tail) = (f.take room, f.drop room ++ tail) := by
  intro f
  induction f with
  | nil => intro room tail _ hlen; simp at hlen
  | cons a f ih =>
    intro room tail hf hlen
    cases room with
    | zero => rfl
    | succ r =>
      have ha := hf a (List.mem_cons_self _ _)
      have hf2 : is_field f := fun c hc => hf c (List.mem_cons_of_mem _ hc)
      simp only [List.length_cons, Nat.add_lt_add_iff_right] at hlen
      have hrec := ih r tail hf2 hlen
      simp only [List.cons_append, parse_copy, ha.1, ha.2.1, ha.2.2, or_self, if_false]
      rw [show f.append tail = f ++ tail from rfl, hrec]
      rfl

theorem parse_next_element_long (f tail : CStr) (buf_size : Int) (hf : is_field f)
    (hpos : 0 < buf_size) (hlen : buf_size - 1 < (f.length : Int)) :
    parse_next_element (some (f ++ tail)) buf_size =
      .ok (-91, some (f ++ tail), f.take (buf_size - 1).toNat) := by
  have hroom : (if buf_size - 1 > 0 then buf_size - 1 else 0 : Int).toNat =
      (buf_size - 1).toNat := by
    split
    · rfl
    · have : buf_size - 1 = 0 := by omega
      rw [this]
  have hlt : (buf_size - 1).toNat < f.length := by omega
  have hmem : (f.drop (buf_size - 1).toNat ++ tail).headD '\x00' ∈ f := by
    have hne : f.drop (buf_size - 1).toNat ≠ [] := by
      intro e
      have := congrArg List.length e
      simp only [List.length_drop, List.length_nil] at this
      omega
    cases hd : f.drop (buf_size - 1).toNat with
    | nil => exact absurd hd hne
    | cons x xs =>
      simp only [List.cons_append, List.headD_cons]
      exact List.mem_of_mem_drop (by rw [hd]; exact List.mem_cons_self _ _)
  have hx := hf _ hmem
  unfold parse_next_element
  simp only [hroom, parse_copy_long f _ tail hf hlt, hx.1, hx.2.1, hx.2.2, if_false]

theorem process_csv_line_absent {σ : Type} (h : Handlers σ) (kind rest : CStr) (s : σ)
    (calls : List CfgCall) (habs : handler_absent h kind) (hrest : ends_field rest) :
    process_csv_line h ⟨some (kind ++ rest), s, calls⟩ =
      .ok ((after_field rest).1, ⟨(after_field rest).2, s, calls⟩) := by
  have hnn := after_field_nonneg rest
  have n1 : "out-port".toList ≠ "in-port".toList := by decide
  have n2 : "atoms".toList ≠ "in-port".toList := by decide
  have n3 : "atoms".toList ≠ "out-port".toList := by decide
  have n4 : "atoms".toList ≠ "timer".toList := by decide
  have n5 : "timer".toList ≠ "in-port".toList := by decide
  have n6 : "timer".toList ≠ "out-port".toList := by decide
  rcases habs with ⟨hk, hh⟩ | ⟨hk, hh⟩ | ⟨hk, hh⟩ | hk
  · subst hk
    have p := parse_next_element_field "in-port".toList rest 20 (by decide) (by decide) hrest
    simp only [process_csv_line, p, hnn, if_false, if_true, process_in_port, hh, after_record]
  · subst hk
    have p := parse_next_element_field "out-port".toList rest 20 (by decide) (by decide) hrest
    simp only [process_csv_line, p, hnn, if_false, if_true, n1, process_out_port, hh,
      after_record]
  · subst hk
    have p := parse_next_element_field "atoms".toList rest 20 (by decide) (by decide) hrest
    simp only [process_csv_line, p, hnn, if_false, if_true, n2, n3, n4, process_atoms, hh,
      after_record]
  · subst hk
    have p := parse_next_element_field "timer".toList rest 20 (by decide) (by decide) hrest
    simp only [process_csv_line, p, hnn, if_false, if_true, n5, n6, process_timer,
      after_record]

/-- C16: a record function whose handler is not installed returns 0 and leaves everything
as it was, whatever the record holds; `process_timer` does so with or without a timer
handler; for a record of a recognised kind whose handler is absent `process_csv_line`
makes no handler call and returns the status of the kind field, which is not negative; and
the record loop of `dfl_cfg_read_and_process` goes on to its next turn after such a
record. -/
theorem C16_absent_handler_is_no_op {σ : Type} (h : Handlers σ) (kind rest : CStr) (s : σ)
    (calls : List CfgCall) (habs : handler_absent h kind) (hrest : ends_field rest) :
    (∀ c : Cfg σ, h.in_port_handler = none → process_in_port h c = .ok (0, c)) ∧
    (∀ c : Cfg σ, h.out_port_handler = none → process_out_port h c = .ok (0, c)) ∧
    (∀ c : Cfg σ, h.atom_handler = none → process_atoms h c = .ok (0, c)) ∧
    (∀ c : Cfg σ, process_timer h c = .ok (0, c)) ∧
    process_csv_line h ⟨some (kind ++ rest), s, calls⟩ =
      .ok ((after_field rest).1, ⟨(after_field rest).2, s, calls⟩) ∧
    0 ≤ (after_field rest).1 ∧
    (∀ (buf : List Char) (buf_idx fuel : Nat) (recs : List (CStr × Int)),
      buf_idx < buf.length → line_at buf buf_idx = kind ++ rest →
      read_loop h buf (fuel + 1) buf_idx s calls recs =
        read_loop h buf fuel (buf_idx + (copied_at buf buf_idx).length) s calls
          (recs ++ [(kind ++ rest, (after_field rest).1)])) := by
  have hcsv := process_csv_line_absent h kind rest s calls habs hrest
  have hnn := after_field_nonneg rest
  refine ⟨?_, ?_, ?_, ?_, hcsv, by omega, ?_⟩
  · intro c hh; simp only [process_in_port, hh]
  · intro c hh; simp only [process_out_port, hh]
  · intro c hh; simp only [process_atoms, hh]
  · intro c; rfl
  · intro buf buf_idx fuel recs hlt hline
    rw [← hline] at hcsv
    rw [read_loop_turn h buf fuel buf_idx s calls recs _ _ hlt hcsv, if_neg hnn, hline]

/-- C16, at a concrete input: the record `in-port,p1,,5000` with only an atom handler
installed. -/
theorem C16_absent_handler_is_no_op_witness :
    process_csv_line ({ accept_all with in_port_handler := none } : Handlers Unit)
      ⟨some "in-port,p1,,5000".toList, (), []⟩ = .ok (1, ⟨some "p1,,5000".toList, (), []⟩) :=
  (C16_absent_handler_is_no_op ({ accept_all with in_port_handler := none } : Handlers Unit)
    "in-port".toList ",p1,,5000".toList () [] (Or.inl ⟨rfl, rfl⟩) (by decide)).2.2.2.2.1

/-- C17, counterexample: the record `abcdefghijklmnopqrstuvwxyz`, whose first field is none
of the four kinds, gets the status -31 from `process_csv_line`, not -32: the field is
longer than the 19 characters `cfg_kind` holds. -/
theorem C17_long_kind_is_minus_31 :
    first_field "abcdefghijklmnopqrstuvwxyz".toList ∉ known_kinds ∧
    process_csv_line accept_all ⟨some "abcdefghijklmnopqrstuvwxyz".toList, (), []⟩ =
      .ok (-31, ⟨some "abcdefghijklmnopqrstuvwxyz".toList, (), []⟩) :=
  ⟨by decide, rfl⟩

/-- C17, amended: for every line whose first field is none of `in-port`, `out-port`,
`timer`, `atoms` (the empty line included), `process_csv_line` makes no handler call and
returns a negative status, -32 when the first field has at most 19 characters and -31
when it is longer; the record loop of `dfl_cfg_read_and_process` returns at that line. -/
theorem C17_unknown_kind {σ : Type} (h : Handlers σ) (line : CStr) (s : σ)
    (calls : List CfgCall) (hkind : first_field line ∉ known_kinds) :
    process_csv_line h ⟨some line, s, calls⟩ =
      .ok (if (first_field line).length ≤ 19 then -32 else -31,
           ⟨if (first_field line).length ≤ 19 then (after_field (after_first line)).2
            else some line, s, calls⟩) ∧
    (∀ (buf : List Char) (buf_idx fuel : Nat) (recs : List (CStr × Int)),
      buf_idx < buf.length → line_at buf buf_idx = line →
      read_loop h buf (fuel + 1) buf_idx s calls recs =
        .ok ⟨recs ++ [(line, if (first_field line).length ≤ 19 then -32 else -31)], calls, s,
             buf_idx + (copied_at buf buf_idx).length⟩) := by
  have hcsv : process_csv_line h ⟨some line, s, calls⟩ =
      .ok (if (first_field line).length ≤ 19 then -32 else -31,
           ⟨if (first_field line).length ≤ 19 then (after_field (after_first line)).2
            else some line, s, calls⟩) := by
    simp only [known_kinds, List.mem_cons, List.mem_singleton, List.not_mem_nil, or_false,
      not_or] at hkind
    obtain ⟨k1, k2, k3, k4⟩ := hkind
    by_cases hlen : (first_field line).length ≤ 19
    · have p := parse_next_element_field (first_field line) (after_first line) 20
        (first_field_is_field line) (by omega) (after_first_ends line)
      rw [first_field_split] at p
      simp only [process_csv_line, p, after_field_nonneg, if_false, k1, k2, k3, k4, hlen,
        if_true]
    · have p := parse_next_element_long (first_field line) (after_first line) 20
        (first_field_is_field line) (by decide) (by omega)
      rw [first_field_split] at p
      have e : ((-91 : Int) < 0) := by decide
      simp only [process_csv_line, p, e, if_true, hlen, if_false]
  refine ⟨hcsv, ?_⟩
  intro buf buf_idx fuel recs hlt hline
  rw [← hline] at hcsv
  rw [read_loop_turn h buf fuel buf_idx s calls recs _ _ hlt hcsv, hline]
  have hneg : (if (first_field line).length ≤ 19 then (-32 : Int) else -31) < 0 := by
    split <;> decide
  rw [if_pos hneg]

/-- C17, amended, at a concrete input: the record `foo,1`. -/
theorem C17_unknown_kind_witness :
    process_csv_line accept_all ⟨some "foo,1".toList, (), []⟩ =
      .ok (-32, ⟨some "1".toList, (), []⟩) :=
  (C17_unknown_kind accept_all "foo,1".toList () [] (by decide)).1

theorem find_slot_by_sock_loop_exact (ports : List dfl_evt_port_t) (sock : Int) (i : Nat)
    (p : dfl_evt_port_t) (hp : ports[i]? = some p) (hfd : p.fd = sock)
    (hfirst : ∀ j q, j < i → ports[j]? = some q → q.fd ≠ sock) :
    ∀ (k idx : Nat), idx ≤ i → i < idx + k →
    find_slot_by_sock_loop ports sock k idx = .ok (i : Int) := by
  intro k
  induction k with
  | zero => intro idx h1 h2; omega
  | succ k ih =>
    intro idx h1 h2
    unfold find_slot_by_sock_loop
    by_cases hidx : idx = i
    · subst hidx
      rw [hp]
      simp only [hfd, if_true]
    · have hlt : idx < i := by omega
      have hil : i < ports.length := by
        rcases Nat.lt_or_ge i ports.length with h | h
        · exact h
        · rw [List.getElem?_eq_none h] at hp; cases hp
      have hq : ports[idx]? = some (ports.get ⟨idx, by omega⟩) :=
        List.getElem?_eq_getElem (by omega)
      rw [hq]
      have hne := hfirst idx _ hlt hq
      simp only [hne, if_false]
      exact ih (idx + 1) (by omega) (by omega)

theorem set_slot_ok (st st2 : EvtState) (idx : Nat) (socktype : dfl_evt_socktype_t)
    (port : Nat) (sock : Int) (rd ri : dfl_evt_reader)
    (h : set_slot st idx socktype port sock rd ri = .ok st2) :
    idx < st.ports.length ∧ idx < st.active_polls.length ∧
    st2 = { st with
      ports := st.ports.set idx ⟨socktype, port, sock, rd, ri⟩,
      active_polls := st.active_polls.set idx ⟨sock, POLLIN, 0⟩ } := by
  unfold set_slot at h
  split at h
  · rename_i hb
    cases h
    exact ⟨hb.1, hb.2, rfl⟩
  · cases h

theorem add_port_slot (st0 st2 : EvtState) (socktype : dfl_evt_socktype_t) (p : Nat)
    (r : dfl_evt_reader) (env : SockEnv)
    (h : dfl_evt_add_port st0 socktype p r env = .ok (0, st2)) :
    ∃ (idx : Nat),
      st2.ports[idx]? = some ⟨socktype, p, env.socket,
        if socktype = .socktype_tcp then .accept_connection else r,
        if socktype = .socktype_tcp then r else .null⟩ ∧
      st2.active_polls[idx]? = some ⟨env.socket, POLLIN, 0⟩ := by
  unfold dfl_evt_add_port at h
  split at h
  · cases h
  · cases h
  · rename_i idx st1 hf
    split at h
    · cases h
    · cases socktype with
      | socktype_none => cases h
      | socktype_udp =>
        dsimp only at h
        split at h
        · cases h
        · split at h
          · cases h
          · split at h
            · cases h
            · split at h
              · rename_i st3 hs
                cases h
                obtain ⟨hb1, hb2, e⟩ := set_slot_ok _ _ _ _ _ _ _ _ hs
                subst e
                exact ⟨idx.toNat, by simp only [List.getElem?_set_self hb1]; rfl,
                  by simp only [List.getElem?_set_self hb2]⟩
              · cases h
              · cases h
      | socktype_tcp =>
        dsimp only at h
        split at h
        · cases h
        · split at h
          · cases h
          · split at h
            · cases h
            · split at h
              · cases h
              · split at h
                · rename_i st3 hs
                  cases h
                  obtain ⟨hb1, hb2, e⟩ := set_slot_ok _ _ _ _ _ _ _ _ hs
                  subst e
                  exact ⟨idx.toNat, by simp only [List.getElem?_set_self hb1]; rfl,
                    by simp only [List.getElem?_set_self hb2]⟩
                · cases h
                · cases h

/-- C11: `dfl_evt_add_timer` returns 0 for every input and leaves the tables and the cursor
alone.  With an offset `T ≥ 0` and a successful clock reading the pending deadline becomes
`now + T` when that sum is in the range of `int64_t` (and `now` is
`tv_sec * 10^9 + tv_nsec` when that is in range) and the pending action becomes the given
one; with a negative offset, or when the clock read fails, the deadline becomes 0 and the
action is cleared.  Nothing of the former pending timer is left in either case. -/
theorem C11_add_timer_replaces_pending (T : Int) (act : Option Nat) (clock : ClockRead)
    (st : EvtState) :
    (dfl_evt_add_timer T act clock st).1 = 0 ∧
    (0 ≤ T → clock.ret = 0 → ts_nsec clock.ts + T < 2 ^ 63 →
      (dfl_evt_add_timer T act clock st).2 =
        { ports := st.ports, active_polls := st.active_polls, high_mark := st.high_mark,
          last_poll_idx := st.last_poll_idx,
          next_time_trig := ts_nsec clock.ts + T, timer_action := act }) ∧
    (-(2 ^ 63) ≤ clock.ts.tv_sec * NSECS_IN_SEC →
      clock.ts.tv_sec * NSECS_IN_SEC < 2 ^ 63 →
      -(2 ^ 63) ≤ clock.ts.tv_sec * NSECS_IN_SEC + clock.ts.tv_nsec →
      clock.ts.tv_sec * NSECS_IN_SEC + clock.ts.tv_nsec < 2 ^ 63 →
      ts_nsec clock.ts = clock.ts.tv_sec * NSECS_IN_SEC + clock.ts.tv_nsec) ∧
    (T < 0 ∨ clock.ret ≠ 0 →
      (dfl_evt_add_timer T act clock st).2 =
        { ports := st.ports, active_polls := st.active_polls, high_mark := st.high_mark,
          last_poll_idx := st.last_poll_idx,
          next_time_trig := 0, timer_action := none }) := by
  refine ⟨?_, ?_, ?_, ?_⟩
  · unfold dfl_evt_add_timer
    split
    · split <;> rfl
    · rfl
  · intro hT hc hsum
    have hr := ts_nsec_range clock.ts
    unfold dfl_evt_add_timer
    rw [if_pos hT, if_pos hc]
    dsimp only
    rw [wrap64_eq_self _ (by omega) hsum]
  · intro h1 h2 h3 h4
    unfold ts_nsec
    rw [wrap64_eq_self _ h1 h2, wrap64_eq_self _ h3 h4]
  · intro hc
    unfold dfl_evt_add_timer
    by_cases hT : T ≥ 0
    · rw [if_pos hT]
      have hne : clock.ret ≠ 0 := by
        rcases hc with h | h
        · omega
        · exact h
      rw [if_neg hne]
    · rw [if_neg hT]

/-- C11, at a concrete input: an offset of 5 s armed at 100 s with action 1, over a pending
timer with action 7. -/
theorem C11_add_timer_replaces_pending_witness :
    (dfl_evt_add_timer 5000000000 (some 1) ⟨0, ⟨100, 0⟩⟩
      { evt_init with next_time_trig := 42, timer_action := some 7 }).2 =
      { evt_init with next_time_trig := 105000000000, timer_action := some 1 } :=
  (C11_add_timer_replaces_pending 5000000000 (some 1) ⟨0, ⟨100, 0⟩⟩
    { evt_init with next_time_trig := 42, timer_action := some 7 }).2.1
    (by decide) rfl (by decide)

/-- C12, counterexample: a listener registered with `dfl_evt_add_port(tcp, 0, reader 9)`
keeps looking free, since a slot with port 0 is what `find_free_slot` takes for free; the
accepted connection is written over the listener's own slot, and no slot with the accept
adapter is left. -/
theorem C12_listener_on_port_zero_is_overwritten :
    dfl_evt_add_port evt_init .socktype_tcp 0 (.user 9) ⟨3, 0, 0, 0⟩ =
      .ok (0, tcp_listener 0) ∧
    (tcp_listener 0).ports[0]? =
      some ⟨.socktype_tcp, 0, 3, .accept_connection, .user 9⟩ ∧
    find_free_slot (tcp_listener 0) = .ok (0, tcp_listener 0) ∧
    ∃ st, accept_connection (tcp_listener 0) 3 5 = .ok st ∧
      st.ports[0]? = some ⟨.socktype_tcp, 0, 5, .user 9, .null⟩ ∧
      ∀ q ∈ st.ports, q.reader ≠ .accept_connection :=
  ⟨rfl, rfl, rfl, _, rfl, rfl, by decide⟩

/-- C12, amended: let slot `i` hold a listener as `dfl_evt_add_port` writes it for kind
tcp, a port `p ≠ 0` and the caller's reader `r` (active reader the accept adapter,
reader-to-install `r`), first among the slots with its descriptor.  When `accept` returns
a descriptor and `find_free_slot` hands out slot `k`, `accept_connection` writes
`(tcp, p, new_sock, r, null)` to slot `k` of `ports` and `(new_sock, POLLIN)` to slot `k` of
`active_polls`; `k` is not the listener's slot, which is as before, and so is every other
slot.  A successful registration writes `(tcp, p, sock, accept adapter, r)` for kind tcp and
`(udp, p, sock, r, null)` for kind udp. -/
theorem C12_accepted_connection_slot (st st1 : EvtState) (i p : Nat) (fd new_sock : Int)
    (r : dfl_evt_reader) (k : Int)
    (hpl : st.ports.length = PORTS_MAX) (hal : st.active_polls.length = PORTS_MAX)
    (hi : i < st.high_mark)
    (hslot : st.ports[i]? = some ⟨.socktype_tcp, p, fd, .accept_connection, r⟩)
    (hp : p ≠ 0)
    (hfirst : ∀ j q, j < i → st.ports[j]? = some q → q.fd ≠ fd)
    (hnew : 0 ≤ new_sock)
    (hfree : find_free_slot st = .ok (k, st1)) (hk : 0 ≤ k) :
    (∃ st2, accept_connection st fd new_sock = .ok st2 ∧
      st2.ports = st.ports.set k.toNat ⟨.socktype_tcp, p, new_sock, r, .null⟩ ∧
      st2.active_polls = st.active_polls.set k.toNat ⟨new_sock, POLLIN, 0⟩ ∧
      st2.ports[k.toNat]? = some ⟨.socktype_tcp, p, new_sock, r, .null⟩ ∧
      st2.active_polls[k.toNat]? = some ⟨new_sock, POLLIN, 0⟩ ∧
      st2.ports[i]? = some ⟨.socktype_tcp, p, fd, .accept_connection, r⟩ ∧
      st2.active_polls[i]? = st.active_polls[i]? ∧
      (∀ j, j ≠ k.toNat → st2.ports[j]? = st.ports[j]? ∧
        st2.active_polls[j]? = st.active_polls[j]?)) ∧
    k.toNat ≠ i ∧ k.toNat < PORTS_MAX ∧
    (∀ (st0 st3 : EvtState) (q : Nat) (env : SockEnv),
      dfl_evt_add_port st0 .socktype_tcp q r env = .ok (0, st3) →
      ∃ idx : Nat, st3.ports[idx]? =
        some (⟨.socktype_tcp, q, env.socket, .accept_connection, r⟩ : dfl_evt_port_t)) ∧
    (∀ (st0 st3 : EvtState) (q : Nat) (env : SockEnv),
      dfl_evt_add_port st0 .socktype_udp q r env = .ok (0, st3) →
      ∃ idx : Nat, st3.ports[idx]? =
        some (⟨.socktype_udp, q, env.socket, r, .null⟩ : dfl_evt_port_t)) := by
  obtain ⟨e1, e2, -, -, -, hcase⟩ := find_free_slot_spec st k st1 hfree
  have hkk : k.toNat ≠ i ∧ k.toNat < PORTS_MAX := by
    rcases hcase with ⟨hneg, -⟩ | ⟨j, hj, -, -, hsub⟩
    · omega
    · subst hj
      rw [Int.toNat_ofNat]
      rcases hsub with ⟨hlt, -, q, hq, hq0⟩ | ⟨hjm, -, hlt⟩
      · constructor
        · rintro rfl
          rw [hslot] at hq
          cases hq
          exact hp hq0
        · rcases Nat.lt_or_ge j st.ports.length with h | h
          · omega
          · rw [List.getElem?_eq_none h] at hq; cases hq
      · constructor <;> omega
  obtain ⟨hki, hk20⟩ := hkk
  refine ⟨?_, hki, hk20, ?_, ?_⟩
  · have hfind : find_slot_by_sock st fd = .ok (i : Int) :=
      find_slot_by_sock_loop_exact st.ports fd i _ hslot rfl hfirst st.high_mark 0
        (by omega) (by omega)
    have hb : k.toNat < st1.ports.length ∧ k.toNat < st1.active_polls.length := by
      rw [e1, e2, hpl, hal]; exact ⟨hk20, hk20⟩
    have hacc : accept_connection st fd new_sock =
        .ok { st1 with
          ports := st1.ports.set k.toNat ⟨.socktype_tcp, p, new_sock, r, .null⟩,
          active_polls := st1.active_polls.set k.toNat ⟨new_sock, POLLIN, 0⟩ } := by
      unfold accept_connection
      rw [hfind]
      dsimp only
      rw [if_neg (by omega), if_neg (by omega), hfree]
      dsimp only
      rw [if_neg (by omega), Int.toNat_ofNat, e1, hslot]
      dsimp only
      unfold set_slot
      rw [if_pos hb, e1]
    refine ⟨_, hacc, ?_, ?_, ?_, ?_, ?_, ?_, ?_⟩
    · dsimp only; rw [e1]
    · dsimp only; rw [e2]
    · dsimp only; rw [List.getElem?_set_self hb.1]
    · dsimp only; rw [List.getElem?_set_self hb.2]
    · dsimp only; rw [e1, List.getElem?_set_ne hki, hslot]
    · dsimp only; rw [e2, List.getElem?_set_ne hki]
    · intro j hj
      dsimp only
      rw [e1, e2, List.getElem?_set_ne (Ne.symm hj), List.getElem?_set_ne (Ne.symm hj)]
      exact ⟨rfl, rfl⟩
  · intro st0 st3 q env h
    obtain ⟨idx, h1, -⟩ := add_port_slot st0 st3 .socktype_tcp q r env h
    exact ⟨idx, h1⟩
  · intro st0 st3 q env h
    obtain ⟨idx, h1, -⟩ := add_port_slot st0 st3 .socktype_udp q r env h
    exact ⟨idx, h1⟩

/-- C12, amended, at a concrete input: the listener of port 5000 (descriptor 3, reader 9)
in slot 0 and the accepted descriptor 5, which goes to slot 1. -/
theorem C12_accepted_connection_slot_witness :
    ∃ st2, accept_connection (tcp_listener 5000) 3 5 = .ok st2 ∧
      st2.ports[1]? = some ⟨.socktype_tcp, 5000, 5, .user 9, .null⟩ ∧
      st2.ports[0]? = some ⟨.socktype_tcp, 5000, 3, .accept_connection, .user 9⟩ := by
  obtain ⟨⟨st2, h1, -, -, h2, -, h3, -⟩, -⟩ :=
    C12_accepted_connection_slot (tcp_listener 5000)
      { tcp_listener 5000 with high_mark := 2 } 0 5000 3 5 (.user 9) 1
      rfl rfl (by decide) rfl (by decide) (by intro j q hj; omega) (by decide) rfl
      (by decide)
  exact ⟨st2, h1, h2, h3⟩

theorem atoms_loop_stop (room : Nat) (pr : Int) (hpr : ¬ pr > 0) (pp : Option CStr)
    (atoms : List atom_entry_t) :
    process_atoms_loop room pr pp atoms = .ok (.inr (pr, atoms), pp) := by
  cases room with
  | zero => rfl
  | succ room => unfold process_atoms_loop; rw [if_neg hpr]

theorem atoms_loop_step (room : Nat) (pr : Int) (hpr : pr > 0) (name nr tail : CStr)
    (atoms : List atom_entry_t)
    (hname : is_field name) (hne : name ≠ []) (hnl : name.length ≤ 99)
    (hnr : is_decimal nr) (hval : dec_value nr < 2 ^ 31) (htail : ends_field tail) :
    process_atoms_loop (room + 1) pr (some (name ++ ',' :: (nr ++ tail))) atoms =
      process_atoms_loop room (after_field tail).1 (after_field tail).2
        (atoms ++ [⟨name, (dec_value nr : Int)⟩]) := by
  have hnrl := decimal_length nr hnr hval
  have hnrne : nr ≠ [] := hnr.1
  obtain ⟨hrest, hv⟩ := strtol_decimal_int32 nr hnr hval
  have p1 := parse_next_element_field name (',' :: (nr ++ tail)) 100 hname
    (by omega) (ends_field_comma _)
  have p2 := parse_next_element_field nr tail 20 (decimal_is_field nr hnr) (by omega) htail
  simp only [after_field_comma] at p1
  have e1 : ¬ ((1 : Int) < 0) := by decide
  have e2 : ¬ ((dec_value nr : Int) < 0) := by omega
  conv_lhs => unfold process_atoms_loop
  simp only [hpr, if_true, p1, p2, hne, hnrne, hrest, hv, after_field_nonneg tail, e1, e2,
    or_self, if_false, ne_eq, not_true_eq_false]

theorem atoms_loop_bad_name (room : Nat) (pr : Int) (hpr : pr > 0) (tail : CStr)
    (atoms : List atom_entry_t) (htail : ends_field tail) :
    process_atoms_loop (room + 1) pr (some tail) atoms =
      .ok (.inl (after_field tail).1, (after_field tail).2) := by
  have p1 := parse_next_element_field [] tail 100 (by decide) (by decide) htail
  simp only [List.nil_append] at p1
  conv_lhs => unfold process_atoms_loop
  simp only [hpr, if_true, p1, or_true]

theorem atoms_loop_long_name (room : Nat) (pr : Int) (hpr : pr > 0) (name tail : CStr)
    (atoms : List atom_entry_t) (hname : is_field name) (hlen : 99 < name.length) :
    process_atoms_loop (room + 1) pr (some (name ++ tail)) atoms =
      .ok (.inl (-91), some (name ++ tail)) := by
  have p1 := parse_next_element_long name tail 100 hname (by decide) (by omega)
  have e : ((-91 : Int) < 0) := by decide
  conv_lhs => unfold process_atoms_loop
  simp only [hpr, if_true, p1, e, true_or]

theorem atoms_loop_bad_id (room : Nat) (pr : Int) (hpr : pr > 0) (name tail : CStr)
    (atoms : List atom_entry_t)
    (hname : is_field name) (hne : name ≠ []) (hnl : name.length ≤ 99)
    (htail : ends_field tail) :
    process_atoms_loop (room + 1) pr (some (name ++ ',' :: tail)) atoms =
      .ok (.inl (after_field tail).1, (after_field tail).2) := by
  have p1 := parse_next_element_field name (',' :: tail) 100 hname
    (by omega) (ends_field_comma _)
  have p2 := parse_next_element_field [] tail 20 (by decide) (by decide) htail
  simp only [after_field_comma] at p1
  simp only [List.nil_append] at p2
  have e1 : ¬ ((1 : Int) < 0) := by decide
  conv_lhs => unfold process_atoms_loop
  simp only [hpr, if_true, p1, p2, hne, e1, or_self, if_false, or_true]

theorem atoms_loop_long_id (room : Nat) (pr : Int) (hpr : pr > 0) (name nr tail : CStr)
    (atoms : List atom_entry_t)
    (hname : is_field name) (hne : name ≠ []) (hnl : name.length ≤ 99)
    (hnr : is_field nr) (hlen : 19 < nr.length) :
    process_atoms_loop (room + 1) pr (some (name ++ ',' :: (nr ++ tail))) atoms =
      .ok (.inl (-91), some (nr ++ tail)) := by
  have p1 := parse_next_element_field name (',' :: (nr ++ tail)) 100 hname
    (by omega) (ends_field_comma _)
  have p2 := parse_next_element_long nr tail 20 hnr (by decide) (by omega)
  simp only [after_field_comma] at p1
  have e1 : ¬ ((1 : Int) < 0) := by decide
  have e : ((-91 : Int) < 0) := by decide
  conv_lhs => unfold process_atoms_loop
  simp only [hpr, if_true, p1, p2, hne, e1, e, or_self, if_false, true_or]

theorem atoms_loop_not_a_number (room : Nat) (pr : Int) (hpr : pr > 0) (name nr tail : CStr)
    (atoms : List atom_entry_t)
    (hname : is_field name) (hne : name ≠ []) (hnl : name.length ≤ 99)
    (hnr : is_field nr) (hnrne : nr ≠ []) (hlen : nr.length ≤ 19)
    (hbad : (strtol nr).2 ≠ []) (htail : ends_field tail) :
    process_atoms_loop (room + 1) pr (some (name ++ ',' :: (nr ++ tail))) atoms =
      .ok (.inl (-71), (after_field tail).2) := by
  have p1 := parse_next_element_field name (',' :: (nr ++ tail)) 100 hname
    (by omega) (ends_field_comma _)
  have p2 := parse_next_element_field nr tail 20 hnr (by omega) htail
  simp only [after_field_comma] at p1
  have e1 : ¬ ((1 : Int) < 0) := by decide
  conv_lhs => unfold process_atoms_loop
  simp only [hpr, if_true, p1, p2, hne, hnrne, hbad, after_field_nonneg tail, e1, or_self,
    if_false, ne_eq, not_false_eq_true, or_true]

theorem atoms_loop_negative (room : Nat) (pr : Int) (hpr : pr > 0) (name nr tail : CStr)
    (atoms : List atom_entry_t)
    (hname : is_field name) (hne : name ≠ []) (hnl : name.length ≤ 99)
    (hnr : is_field nr) (hnrne : nr ≠ []) (hlen : nr.length ≤ 19)
    (hnum : (strtol nr).2 = []) (hneg : to_int32 (strtol nr).1 < 0)
    (htail : ends_field tail) :
    process_atoms_loop (room + 1) pr (some (name ++ ',' :: (nr ++ tail))) atoms =
      .ok (.inl (-72), (after_field tail).2) := by
  have p1 := parse_next_element_field name (',' :: (nr ++ tail)) 100 hname
    (by omega) (ends_field_comma _)
  have p2 := parse_next_element_field nr tail 20 hnr (by omega) htail
  simp only [after_field_comma] at p1
  have e1 : ¬ ((1 : Int) < 0) := by decide
  conv_lhs => unfold process_atoms_loop
  simp only [hpr, if_true, p1, p2, hne, hnrne, hnum, hneg, after_field_nonneg tail, e1,
    or_self, if_false, ne_eq, not_true_eq_false]

theorem atoms_loop_pairs (tail : CStr) (htail : ends_field tail) :
    ∀ (ps : List (CStr × CStr)) (room : Nat) (pr : Int) (atoms : List atom_entry_t),
    ps ≠ [] → (∀ p ∈ ps, pair_ok p) → ps.length ≤ room → pr > 0 →
    process_atoms_loop room pr (some (atoms_text ps tail)) atoms =
      process_atoms_loop (room - ps.length) (after_field tail).1 (after_field tail).2
        (atoms ++ ps.map pair_entry) := by
  intro ps
  induction ps with
  | nil => intro room pr atoms hne; exact absurd rfl hne
  | cons p ps ih =>
    intro room pr atoms _ hok hlen hpr
    obtain ⟨h1, h2, h3, h4, h5⟩ := hok p (List.mem_cons_self _ _)
    cases room with
    | zero => simp only [List.length_cons] at hlen; omega
    | succ room =>
      cases ps with
      | nil =>
        simp only [atoms_text, List.length_singleton, Nat.add_sub_cancel, List.map_cons,
          List.map_nil]
        exact atoms_loop_step room pr hpr p.1 p.2 tail atoms h1 h2 h3 h4 h5 htail
      | cons q qs =>
        simp only [atoms_text]
        rw [atoms_loop_step room pr hpr p.1 p.2 _ atoms h1 h2 h3 h4 h5 (ends_field_comma _),
          after_field_comma]
        dsimp only
        simp only [List.length_cons] at hlen
        rw [ih room 1 _ (by simp) (fun x hx => hok x (List.mem_cons_of_mem _ hx))
          (by simp only [List.length_cons]; omega) (by decide)]
        simp only [List.length_cons, List.map_cons, List.append_assoc, List.singleton_append,
          Nat.add_sub_add_right]
        rfl

theorem pairs_then_eq (rest : CStr) : ∀ (ps : List (CStr × CStr)), ps ≠ [] →
    pairs_then ps rest = atoms_text ps (',' :: rest) := by
  intro ps
  induction ps with
  | nil => intro h; exact absurd rfl h
  | cons p ps ih =>
    intro _
    cases ps with
    | nil => rfl
    | cons q qs =>
      have := ih (by simp)
      simp only [pairs_then, List.foldr_cons, atoms_text] at this ⊢
      rw [this]

theorem atoms_loop_pairs_then (ps : List (CStr × CStr)) (rest : CStr) (room : Nat)
    (atoms : List atom_entry_t) (hok : ∀ p ∈ ps, pair_ok p) (hlen : ps.length ≤ room) :
    process_atoms_loop room 1 (some (pairs_then ps rest)) atoms =
      process_atoms_loop (room - ps.length) 1 (some rest) (atoms ++ ps.map pair_entry) := by
  by_cases hps : ps = []
  · subst hps
    simp only [pairs_then, List.foldr_nil, List.length_nil, Nat.sub_zero, List.map_nil,
      List.append_nil]
  · rw [pairs_then_eq rest ps hps,
      atoms_loop_pairs _ (ends_field_comma _) ps room 1 atoms hps hok hlen (by decide),
      after_field_comma]

theorem atoms_call_loop_accept {σ : Type} (handler : Nat → Option CStr → Int → σ → Int × σ)
    (hacc : ∀ cnt name id t, 0 ≤ (handler cnt name id t).1) (n : Nat) :
    ∀ (atoms : List atom_entry_t) (s : σ) (calls : List CfgCall),
    atoms_call_loop handler n atoms s calls =
      (false, batch_state handler n atoms s, calls ++ batch_calls n atoms) := by
  intro atoms
  induction atoms with
  | nil => intro s calls; simp only [atoms_call_loop, batch_state, batch_calls, List.foldl_nil,
      List.map_nil, List.append_nil]
  | cons a as ih =>
    intro s calls
    have hn : ¬ (handler n (some a.name) a.id_nr s).1 < 0 := by
      have := hacc n (some a.name) a.id_nr s; omega
    simp only [atoms_call_loop, hn, if_false, ih, batch_state, batch_calls, List.foldl_cons,
      List.map_cons, List.append_assoc, List.singleton_append]

theorem process_atoms_parse_fails {σ : Type} (h : Handlers σ)
    (handler : Nat → Option CStr → Int → σ → Int × σ) (hh : h.atom_handler = some handler)
    (txt : CStr) (s : σ) (calls : List CfgCall) (status : Int) (pp : Option CStr)
    (hloop : process_atoms_loop MAX_ATOMS 1 (some txt) [] = .ok (.inl status, pp)) :
    process_atoms h ⟨some txt, s, calls⟩ = .ok (status, ⟨pp, s, calls⟩) := by
  unfold process_atoms
  rw [hh]
  simp only [Option.some_ne_none, if_false, hloop]

theorem process_atoms_too_many {σ : Type} (h : Handlers σ)
    (handler : Nat → Option CStr → Int → σ → Int × σ) (hh : h.atom_handler = some handler)
    (txt : CStr) (s : σ) (calls : List CfgCall) (pr : Int) (atoms : List atom_entry_t)
    (pp : Option CStr) (hpr : pr > 0) (hlen : atoms.length ≥ MAX_ATOMS)
    (hloop : process_atoms_loop MAX_ATOMS 1 (some txt) [] = .ok (.inr (pr, atoms), pp)) :
    process_atoms h ⟨some txt, s, calls⟩ = .ok (-73, ⟨pp, s, calls⟩) := by
  unfold process_atoms
  rw [hh]
  simp only [Option.some_ne_none, if_false, hloop, hpr, hlen, and_self, if_true]

theorem process_atoms_batch {σ : Type} (h : Handlers σ)
    (handler : Nat → Option CStr → Int → σ → Int × σ) (hh : h.atom_handler = some handler)
    (hacc : ∀ cnt name id t, 0 ≤ (handler cnt name id t).1)
    (ps : List (CStr × CStr)) (tail : CStr) (s : σ) (calls : List CfgCall)
    (hne : ps ≠ []) (hok : ∀ p ∈ ps, pair_ok p) (hlen : ps.length ≤ MAX_ATOMS)
    (htail : tail.headD '\x00' = '\n' ∨ tail.headD '\x00' = '\x00') :
    process_atoms h ⟨some (atoms_text ps tail), s, calls⟩ =
      .ok (0, ⟨(after_field tail).2,
        (handler ps.length none 0 (batch_state handler ps.length (ps.map pair_entry) s)).2,
        calls ++ batch_calls ps.length (ps.map pair_entry) ++ [.atom ps.length none 0]⟩) := by
  have hends : ends_field tail := Or.inr htail
  have h0 : (after_field tail).1 = 0 := by
    unfold after_field
    rcases htail with e | e
    · rw [e]; rfl
    · rw [e]; rfl
  have hloop := atoms_loop_pairs tail hends ps MAX_ATOMS 1 [] hne hok hlen (by decide)
  rw [h0, atoms_loop_stop _ 0 (by decide)] at hloop
  have hsent : ¬ (handler ps.length none 0
      (batch_state handler ps.length (ps.map pair_entry) s)).1 < 0 := by
    have := hacc ps.length none 0 (batch_state handler ps.length (ps.map pair_entry) s)
    omega
  have e0 : ¬ ((0 : Int) > 0) := by decide
  unfold process_atoms
  rw [hh]
  simp only [Option.some_ne_none, if_false, hloop, List.nil_append, List.length_map, e0,
    false_and,
    atoms_call_loop_accept handler hacc, Bool.false_eq_true, hsent]

theorem batch_calls_pairs (n : Nat) (ps : List (CStr × CStr)) :
    batch_calls n (ps.map pair_entry) =
      ps.map (fun p => CfgCall.atom n (some p.1) (dec_value p.2)) := by
  unfold batch_calls
  rw [List.map_map]
  rfl

theorem process_csv_line_atoms {σ : Type} (h : Handlers σ) (rest : CStr) (s : σ)
    (calls : List CfgCall) (hrest : ends_field rest) :
    process_csv_line h ⟨some ("atoms".toList ++ rest), s, calls⟩ =
      after_record (after_field rest).1 (process_atoms h ⟨(after_field rest).2, s, calls⟩) := by
  have p := parse_next_element_field "atoms".toList rest 20 (by decide) (by decide) hrest
  have n2 : "atoms".toList ≠ "in-port".toList := by decide
  have n3 : "atoms".toList ≠ "out-port".toList := by decide
  have n4 : "atoms".toList ≠ "timer".toList := by decide
  simp only [process_csv_line, p, after_field_nonneg rest, if_false, if_true, n2, n3, n4]

theorem process_atoms_exhausted {σ : Type} (h : Handlers σ)
    (handler : Nat → Option CStr → Int → σ → Int × σ) (hh : h.atom_handler = some handler)
    (hacc : ∀ cnt name id t, 0 ≤ (handler cnt name id t).1) (s : σ) (calls : List CfgCall) :
    process_atoms h ⟨none, s, calls⟩ =
      .ok (0, ⟨none, (handler 0 none 0 s).2, calls ++ [.atom 0 none 0]⟩) := by
  have hsent : ¬ (handler 0 none 0 s).1 < 0 := by
    have := hacc 0 none 0 s; omega
  have hloop : process_atoms_loop MAX_ATOMS 0 none [] = .ok (.inr (0, []), none) :=
    atoms_loop_stop _ 0 (by decide) none []
  have e0 : ¬ ((0 : Int) > 0) := by decide
  unfold process_atoms
  rw [hh]
  simp only [if_true, hloop, e0, false_and, if_false, atoms_call_loop, List.length_nil,
    Bool.false_eq_true, hsent]

theorem process_atoms_after_pairs {σ : Type} (h : Handlers σ)
    (handler : Nat → Option CStr → Int → σ → Int × σ) (hh : h.atom_handler = some handler)
    (ps : List (CStr × CStr)) (bad : CStr) (s : σ) (calls : List CfgCall)
    (status : Int) (pp : Option CStr)
    (hok : ∀ p ∈ ps, pair_ok p) (hlen : ps.length < MAX_ATOMS)
    (hstep : ∀ (room : Nat) (atoms : List atom_entry_t),
      process_atoms_loop (room + 1) 1 (some bad) atoms = .ok (.inl status, pp)) :
    process_atoms h ⟨some (pairs_then ps bad), s, calls⟩ = .ok (status, ⟨pp, s, calls⟩) := by
  apply process_atoms_parse_fails h handler hh
  rw [atoms_loop_pairs_then ps bad MAX_ATOMS [] hok (by omega)]
  obtain ⟨r, hr⟩ : ∃ r, MAX_ATOMS - ps.length = r + 1 :=
    ⟨MAX_ATOMS - ps.length - 1, by omega⟩
  rw [hr]
  exact hstep r _

theorem process_atoms_cap {σ : Type} (h : Handlers σ)
    (handler : Nat → Option CStr → Int → σ → Int × σ) (hh : h.atom_handler = some handler)
    (qs : List (CStr × CStr)) (rest : CStr) (s : σ) (calls : List CfgCall)
    (hok : ∀ p ∈ qs, pair_ok p) (hlen : qs.length = MAX_ATOMS) :
    process_atoms h ⟨some (pairs_then qs rest), s, calls⟩ =
      .ok (-73, ⟨some rest, s, calls⟩) := by
  have hloop := atoms_loop_pairs_then qs rest MAX_ATOMS [] hok (by omega)
  rw [hlen, Nat.sub_self] at hloop
  exact process_atoms_too_many h handler hh _ s calls 1 _ (some rest) (by decide)
    (by rw [List.nil_append, List.length_map]; omega) hloop

theorem process_atoms_quiet {σ : Type} (h : Handlers σ) (c c1 : Cfg σ) (status : Int)
    (hres : process_atoms h c = .ok (status, c1))
    (h0 : status ≠ 0) (h74 : status ≠ -74) (h75 : status ≠ -75) :
    c1.calls = c.calls ∧ c1.hstate = c.hstate := by
  unfold process_atoms at hres
  split at hres
  · cases hres; exact ⟨rfl, rfl⟩
  · dsimp only at hres
    split at hres
    · cases hres
    · cases hres
    · cases hres; exact ⟨rfl, rfl⟩
    · split at hres
      · cases hres; exact ⟨rfl, rfl⟩
      · split at hres
        · cases hres; exact absurd rfl h74
        · split at hres
          · cases hres; exact absurd rfl h75
          · cases hres; exact absurd rfl h0

/-- C18: for an atoms record with `n ≥ 1` well-formed pairs, `n ≤ 100`, that ends at the end
of the line, and an atom handler that accepts every call, `process_atoms` returns 0 after
exactly `n + 1` handler calls: `(n, name_i, id_i)` for the pairs in record order, then the
sentinel `(n, none, 0)`.  When the cursor is exhausted on entry only the sentinel call
`(0, none, 0)` is made.  The same holds for `process_csv_line` on the whole record
`atoms,name1,id1,...` and on the record `atoms` alone. -/
theorem C18_atoms_batch_calls {σ : Type} (h : Handlers σ)
    (handler : Nat → Option CStr → Int → σ → Int × σ) (ps : List (CStr × CStr))
    (tail : CStr) (s : σ) (calls : List CfgCall)
    (hh : h.atom_handler = some handler)
    (hacc : ∀ cnt name id t, 0 ≤ (handler cnt name id t).1)
    (hok : ∀ p ∈ ps, pair_ok p) (hlen : ps.length ≤ MAX_ATOMS)
    (htail : tail.headD '\x00' = '\n' ∨ tail.headD '\x00' = '\x00') :
    (ps ≠ [] →
      process_atoms h ⟨some (atoms_text ps tail), s, calls⟩ =
        .ok (0, ⟨(after_field tail).2,
          (handler ps.length none 0
            (batch_state handler ps.length (ps.map pair_entry) s)).2,
          calls ++ ps.map (fun p => CfgCall.atom ps.length (some p.1) (dec_value p.2)) ++
            [.atom ps.length none 0]⟩)) ∧
    process_atoms h ⟨none, s, calls⟩ =
      .ok (0, ⟨none, (handler 0 none 0 s).2, calls ++ [.atom 0 none 0]⟩) ∧
    (ps ≠ [] →
      process_csv_line h ⟨some ("atoms".toList ++ ',' :: atoms_text ps tail), s, calls⟩ =
        .ok (1, ⟨(after_field tail).2,
          (handler ps.length none 0
            (batch_state handler ps.length (ps.map pair_entry) s)).2,
          calls ++ ps.map (fun p => CfgCall.atom ps.length (some p.1) (dec_value p.2)) ++
            [.atom ps.length none 0]⟩)) ∧
    process_csv_line h ⟨some "atoms".toList, s, calls⟩ =
      .ok (0, ⟨none, (handler 0 none 0 s).2, calls ++ [.atom 0 none 0]⟩) := by
  have hb := fun hne => process_atoms_batch h handler hh hacc ps tail s calls hne hok hlen htail
  have he := process_atoms_exhausted h handler hh hacc s calls
  refine ⟨?_, he, ?_, ?_⟩
  · intro hne
    rw [hb hne, batch_calls_pairs]
  · intro hne
    rw [process_csv_line_atoms h _ s calls (ends_field_comma _), after_field_comma]
    dsimp only
    rw [hb hne, batch_calls_pairs]
    rfl
  · have := process_csv_line_atoms h [] s calls (by decide)
    rw [List.append_nil] at this
    rw [this]
    have e : after_field [] = (0, none) := rfl
    rw [e]
    dsimp only
    rw [he]
    rfl

/-- C18, at a concrete input: the rest `A,1,B,2` of the record `atoms,A,1,B,2`. -/
theorem C18_atoms_batch_calls_witness :
    process_atoms accept_all ⟨some "A,1,B,2".toList, (), []⟩ =
      .ok (0, ⟨none, (),
        [.atom 2 (some "A".toList) 1, .atom 2 (some "B".toList) 2, .atom 2 none 0]⟩) :=
  (C18_atoms_batch_calls accept_all (fun _ _ _ s => (0, s))
    [("A".toList, "1".toList), ("B".toList, "2".toList)] [] () [] rfl
    (fun _ _ _ _ => le_refl _) (by decide) (by decide) (by decide)).1 (by decide)

/-- C19: the table of `process_atoms` holds `MAX_ATOMS = 100` pairs.  A record with exactly
100 well-formed pairs that ends at the end of the line is accepted: 100 handler calls and
the sentinel `(100, none, 0)`, status 0.  A record in which a comma follows the 100th
well-formed pair, whatever comes after it, makes `process_atoms` return -73 with no handler
call at all. -/
theorem C19_atoms_cap {σ : Type} (h : Handlers σ)
    (handler : Nat → Option CStr → Int → σ → Int × σ) (ps : List (CStr × CStr))
    (s : σ) (calls : List CfgCall)
    (hh : h.atom_handler = some handler)
    (hok : ∀ p ∈ ps, pair_ok p) (hlen : ps.length = MAX_ATOMS) :
    (∀ tail : CStr, (∀ cnt name id t, 0 ≤ (handler cnt name id t).1) →
      (tail.headD '\x00' = '\n' ∨ tail.headD '\x00' = '\x00') →
      process_atoms h ⟨some (atoms_text ps tail), s, calls⟩ =
        .ok (0, ⟨(after_field tail).2,
          (handler 100 none 0 (batch_state handler 100 (ps.map pair_entry) s)).2,
          calls ++ ps.map (fun p => CfgCall.atom 100 (some p.1) (dec_value p.2)) ++
            [.atom 100 none 0]⟩)) ∧
    (∀ rest : CStr,
      process_atoms h ⟨some (atoms_text ps (',' :: rest)), s, calls⟩ =
        .ok (-73, ⟨some rest, s, calls⟩)) := by
  have hne : ps ≠ [] := by
    rintro rfl
    exact absurd hlen (by decide)
  have h100 : ps.length = 100 := hlen
  constructor
  · intro tail hacc htail
    rw [process_atoms_batch h handler hh hacc ps tail s calls hne hok (by omega) htail,
      batch_calls_pairs, h100]
  · intro rest
    rw [← pairs_then_eq rest ps hne]
    exact process_atoms_cap h handler hh ps rest s calls hok hlen

/-- C19, at a concrete input: one hundred pairs `A,1` followed by `,B,2`. -/
theorem C19_atoms_cap_witness :
    process_atoms accept_all ⟨some (atoms_text hundred_pairs ",B,2".toList), (), []⟩ =
      .ok (-73, ⟨some "B,2".toList, (), []⟩) :=
  (C19_atoms_cap accept_all (fun _ _ _ s => (0, s)) hundred_pairs () [] rfl
    (fun p hp => by rw [List.eq_of_mem_replicate hp]; decide)
    (List.length_replicate _ _)).2 "B,2".toList

/-- C20: when the parse of a pair fails after any number `k < 100` of well-formed pairs,
`process_atoms` returns with no handler call made, for no pair and no sentinel, and with the
state behind the handlers as it was: for an empty name, a name longer than 99 characters,
an empty id, an id longer than 19 characters, an id that is not a number (-71), a negative
id (-72), and for a comma after 100 well-formed pairs (-73).  In general, whenever
`process_atoms` returns a status other than 0, -74 and -75 it has made no handler call. -/
theorem C20_atoms_all_or_nothing {σ : Type} (h : Handlers σ)
    (handler : Nat → Option CStr → Int → σ → Int × σ) (ps : List (CStr × CStr))
    (name : CStr) (s : σ) (calls : List CfgCall)
    (hh : h.atom_handler = some handler)
    (hok : ∀ p ∈ ps, pair_ok p) (hlen : ps.length < MAX_ATOMS)
    (hname : is_field name) (hne : name ≠ []) (hnl : name.length ≤ 99) :
    (∀ tail : CStr, ends_field tail →
      process_atoms h ⟨some (pairs_then ps tail), s, calls⟩ =
        .ok ((after_field tail).1, ⟨(after_field tail).2, s, calls⟩)) ∧
    (∀ long tail : CStr, is_field long → 99 < long.length →
      process_atoms h ⟨some (pairs_then ps (long ++ tail)), s, calls⟩ =
        .ok (-91, ⟨some (long ++ tail), s, calls⟩)) ∧
    (∀ tail : CStr, ends_field tail →
      process_atoms h ⟨some (pairs_then ps (name ++ ',' :: tail)), s, calls⟩ =
        .ok ((after_field tail).1, ⟨(after_field tail).2, s, calls⟩)) ∧
    (∀ nr tail : CStr, is_field nr → 19 < nr.length →
      process_atoms h ⟨some (pairs_then ps (name ++ ',' :: (nr ++ tail))), s, calls⟩ =
        .ok (-91, ⟨some (nr ++ tail), s, calls⟩)) ∧
    (∀ nr tail : CStr, is_field nr → nr ≠ [] → nr.length ≤ 19 → (strtol nr).2 ≠ [] →
      ends_field tail →
      process_atoms h ⟨some (pairs_then ps (name ++ ',' :: (nr ++ tail))), s, calls⟩ =
        .ok (-71, ⟨(after_field tail).2, s, calls⟩)) ∧
    (∀ nr tail : CStr, is_field nr → nr ≠ [] → nr.length ≤ 19 → (strtol nr).2 = [] →
      to_int32 (strtol nr).1 < 0 → ends_field tail →
      process_atoms h ⟨some (pairs_then ps (name ++ ',' :: (nr ++ tail))), s, calls⟩ =
        .ok (-72, ⟨(after_field tail).2, s, calls⟩)) ∧
    (∀ (qs : List (CStr × CStr)) (rest : CStr), (∀ p ∈ qs, pair_ok p) →
      qs.length = MAX_ATOMS →
      process_atoms h ⟨some (pairs_then qs rest), s, calls⟩ =
        .ok (-73, ⟨some rest, s, calls⟩)) ∧
    (∀ (c c1 : Cfg σ) (status : Int), process_atoms h c = .ok (status, c1) →
      status ≠ 0 → status ≠ -74 → status ≠ -75 →
      c1.calls = c.calls ∧ c1.hstate = c.hstate) := by
  have one : (1 : Int) > 0 := by decide
  refine ⟨?_, ?_, ?_, ?_, ?_, ?_, ?_, ?_⟩
  · intro tail ht
    exact process_atoms_after_pairs h handler hh ps _ s calls _ _ hok hlen
      (fun room atoms => atoms_loop_bad_name room 1 one tail atoms ht)
  · intro long tail hl hll
    exact process_atoms_after_pairs h handler hh ps _ s calls _ _ hok hlen
      (fun room atoms => atoms_loop_long_name room 1 one long tail atoms hl hll)
  · intro tail ht
    exact process_atoms_after_pairs h handler hh ps _ s calls _ _ hok hlen
      (fun room atoms => atoms_loop_bad_id room 1 one name tail atoms hname hne hnl ht)
  · intro nr tail hnr hl
    exact process_atoms_after_pairs h handler hh ps _ s calls _ _ hok hlen
      (fun room atoms => atoms_loop_long_id room 1 one name nr tail atoms hname hne hnl hnr hl)
  · intro nr tail hnr hnrne hl hbad ht
    exact process_atoms_after_pairs h handler hh ps _ s calls _ _ hok hlen
      (fun room atoms => atoms_loop_not_a_number room 1 one name nr tail atoms hname hne hnl
        hnr hnrne hl hbad ht)
  · intro nr tail hnr hnrne hl hnum hneg ht
    exact process_atoms_after_pairs h handler hh ps _ s calls _ _ hok hlen
      (fun room atoms => atoms_loop_negative room 1 one name nr tail atoms hname hne hnl
        hnr hnrne hl hnum hneg ht)
  · intro qs rest hq hql
    exact process_atoms_cap h handler hh qs rest s calls hq hql
  · intro c c1 status hres h0 h74 h75
    exact process_atoms_quiet h c c1 status hres h0 h74 h75

/-- C20, at a concrete input: the rest `A,1,B,-2` of the record `atoms,A,1,B,-2`, in which
the second id is negative. -/
theorem C20_atoms_all_or_nothing_witness :
    process_atoms accept_all ⟨some "A,1,B,-2".toList, (), []⟩ =
      .ok (-72, ⟨none, (), []⟩) :=
  (C20_atoms_all_or_nothing accept_all (fun _ _ _ s => (0, s))
    [("A".toList, "1".toList)] "B".toList () [] rfl (by decide) (by decide) (by decide)
    (by decide) (by decide)).2.2.2.2.2.1 "-2".toList [] (by decide) (by decide) (by decide)
    (by decide) (by decide) (by decide)

/-! ### Statuses of `parse_next_element` and of the record functions -/

theorem after_record_ite {σ : Type} (r a b : Int) (x : Cfg σ) (p : Prop) [Decidable p] :
    after_record r (if p then .ok (a, x) else .ok (b, x)) = .ok (r, x) := by
  split <;> rfl

/-- C21, counterexample: a first field of 26 characters read into a buffer of 20 gives the
status -91 and leaves the cursor at the start of the field; its first 19 characters are
in the buffer. -/
theorem C21_long_field_is_an_error :
    parse_next_element (some "abcdefghijklmnopqrstuvwxyz,1".toList) 20 =
      .ok (-91, some "abcdefghijklmnopqrstuvwxyz,1".toList, "abcdefghijklmnopqrs".toList) :=
  rfl

/-- C21, amended: for every field `f` longer than `buf_size - 1` characters (`buf_size`
positive), whatever follows it, `parse_next_element` stores the first `buf_size - 1`
characters of `f`, returns the error status -91 and leaves the cursor where it was, at the
start of the field. -/
theorem C21_long_field_status (f tail : CStr) (buf_size : Int) (hf : is_field f)
    (hpos : 0 < buf_size) (hlen : buf_size - 1 < (f.length : Int)) :
    parse_next_element (some (f ++ tail)) buf_size =
      .ok (-91, some (f ++ tail), f.take (buf_size - 1).toNat) :=
  parse_next_element_long f tail buf_size hf hpos hlen

/-- C21, amended, at a concrete input: the field `abcdefghijklmnopqrstuvwxyz` and a buffer
of 20. -/
theorem C21_long_field_status_witness :
    parse_next_element (some ("abcdefghijklmnopqrstuvwxyz".toList ++ ",1".toList)) 20 =
      .ok (-91, some ("abcdefghijklmnopqrstuvwxyz".toList ++ ",1".toList),
        "abcdefghijklmnopqrstuvwxyz".toList.take 19) :=
  C21_long_field_status "abcdefghijklmnopqrstuvwxyz".toList ",1".toList 20 (by decide)
    (by decide) (by decide)

/-- C22 (code defect): `process_csv_line` drops the status of the record function.  On the
record `in-port,p1,,5000`, whatever the in-port handler returns, `process_in_port` calls it
and returns -42 when it returned a negative value, yet `process_csv_line` returns 1, the
parse status of the kind field; the same for `out-port,p1,,5000` (-52 dropped) and for
`atoms,A,1` (-74 or -75 dropped).  With handlers that reject every call the record loop
goes on after the rejected record `in-port,p1,,5000` to its next turn. -/
theorem C22_handler_rejection_is_dropped {σ : Type} (f : CStr → Int → σ → Int × σ)
    (g : CStr → CStr → Int → σ → Int × σ) (hs : Handlers σ) (s : σ) :
    process_in_port { hs with in_port_handler := some f } ⟨some "p1,,5000".toList, s, []⟩ =
      .ok (if (f "p1".toList 5000 s).1 < 0 then -42 else 0,
           ⟨none, (f "p1".toList 5000 s).2, [.in_port "p1".toList 5000]⟩) ∧
    process_csv_line { hs with in_port_handler := some f }
        ⟨some "in-port,p1,,5000".toList, s, []⟩ =
      .ok (1, ⟨none, (f "p1".toList 5000 s).2, [.in_port "p1".toList 5000]⟩) ∧
    process_csv_line { hs with out_port_handler := some g }
        ⟨some "out-port,p1,,5000".toList, s, []⟩ =
      .ok (1, ⟨none, (g "p1".toList "localhost".toList 5000 s).2,
               [.out_port "p1".toList "localhost".toList 5000]⟩) ∧
    process_atoms reject_all ⟨some "A,1".toList, (), []⟩ =
      .ok (-74, ⟨none, (), [.atom 1 (some "A".toList) 1]⟩) ∧
    process_csv_line reject_all ⟨some "atoms,A,1".toList, (), []⟩ =
      .ok (1, ⟨none, (), [.atom 1 (some "A".toList) 1]⟩) ∧
    dfl_cfg_read_and_process reject_all 2 "in-port,p1,,5000\nin-port,p2,,5001\n".toList () =
      .ok ⟨[("in-port,p1,,5000".toList, 1), ([], -32)], [.in_port "p1".toList 5000], (), 16⟩ := by
  refine ⟨?_, ?_, ?_, rfl, rfl, rfl⟩
  · show (if (f "p1".toList 5000 s).1 < 0 then _ else _) = _
    split <;> rfl
  · show after_record 1 (if (f "p1".toList 5000 s).1 < 0 then _ else _) = _
    exact after_record_ite _ _ _ _ _
  · show after_record 1 (if (g "p1".toList "localhost".toList 5000 s).1 < 0 then _ else _) = _
    exact after_record_ite _ _ _ _ _

/-- C23 (code defect): with a handler installed, a record whose name or number field is
empty makes the record function return the parse status of that field, which is 0 or 1,
not a negative status: `process_in_port` and `process_out_port` return 1 on `,,5000` and 0
on `p1,,`, `process_atoms` returns 0 on `A,` and 1 on `,1`; no handler is called.  When
the field is absent, the record ending before it (`p1`, `p1,`, `A`), `parse_next_element`
is entered with a null cursor, which it dereferences. -/
theorem C23_missing_field_status_not_negative {σ : Type} (f : CStr → Int → σ → Int × σ)
    (g : CStr → CStr → Int → σ → Int × σ) (a : Nat → Option CStr → Int → σ → Int × σ)
    (hs : Handlers σ) (s : σ) :
    process_in_port { hs with in_port_handler := some f } ⟨some ",,5000".toList, s, []⟩ =
      .ok (1, ⟨some ",5000".toList, s, []⟩) ∧
    process_in_port { hs with in_port_handler := some f } ⟨some "p1,,".toList, s, []⟩ =
      .ok (0, ⟨none, s, []⟩) ∧
    process_out_port { hs with out_port_handler := some g } ⟨some ",,5000".toList, s, []⟩ =
      .ok (1, ⟨some ",5000".toList, s, []⟩) ∧
    process_out_port { hs with out_port_handler := some g } ⟨some "p1,,".toList, s, []⟩ =
      .ok (0, ⟨none, s, []⟩) ∧
    process_atoms { hs with atom_handler := some a } ⟨some "A,".toList, s, []⟩ =
      .ok (0, ⟨none, s, []⟩) ∧
    process_atoms { hs with atom_handler := some a } ⟨some ",1".toList, s, []⟩ =
      .ok (1, ⟨some "1".toList, s, []⟩) ∧
    process_in_port { hs with in_port_handler := some f } ⟨some "p1".toList, s, []⟩ =
      .crash ∧
    process_in_port { hs with in_port_handler := some f } ⟨some "p1,".toList, s, []⟩ =
      .crash ∧
    process_out_port { hs with out_port_handler := some g } ⟨some "p1".toList, s, []⟩ =
      .crash ∧
    process_atoms { hs with atom_handler := some a } ⟨some "A".toList, s, []⟩ = .crash :=
  ⟨rfl, rfl, rfl, rfl, rfl, rfl, rfl, rfl, rfl, rfl⟩

/-! ### The record loop ends -/

theorem parse_next_element_fuel (pp : Option CStr) (n : Int) :
    parse_next_element pp n ≠ .nofuel := by
  cases pp with
  | none => intro h; cases h
  | some line =>
    unfold parse_next_element
    repeat' first | split | dsimp only
    all_goals (intro h; cases h)

theorem process_in_port_fuel {σ : Type} (h : Handlers σ) (c : Cfg σ) :
    process_in_port h c ≠ .nofuel := by
  unfold process_in_port
  repeat' first | split | dsimp only
  all_goals first
    | (intro h; cases h; done)
    | exact fun _ => absurd ‹parse_next_element _ _ = Run.nofuel› (parse_next_element_fuel _ _)

theorem process_out_port_fuel {σ : Type} (h : Handlers σ) (c : Cfg σ) :
    process_out_port h c ≠ .nofuel := by
  unfold process_out_port
  repeat' first | split | dsimp only
  all_goals first
    | (intro h; cases h; done)
    | exact fun _ => absurd ‹parse_next_element _ _ = Run.nofuel› (parse_next_element_fuel _ _)

theorem process_atoms_loop_fuel : ∀ (room : Nat) (pr : Int) (pp : Option CStr)
    (atoms : List atom_entry_t), process_atoms_loop room pr pp atoms ≠ .nofuel := by
  intro room
  induction room with
  | zero => intro pr pp atoms hn; cases hn
  | succ room ih =>
    intro pr pp atoms
    unfold process_atoms_loop
    repeat' first | split | dsimp only
    all_goals first
      | (intro h; cases h; done)
      | exact fun _ => absurd ‹parse_next_element _ _ = Run.nofuel› (parse_next_element_fuel _ _)
      | exact ih _ _ _

theorem process_atoms_fuel {σ : Type} (h : Handlers σ) (c : Cfg σ) :
    process_atoms h c ≠ .nofuel := by
  unfold process_atoms
  repeat' first | split | dsimp only
  all_goals first
    | (intro h; cases h; done)
    | exact fun _ => absurd ‹process_atoms_loop _ _ _ _ = Run.nofuel›
        (process_atoms_loop_fuel _ _ _ _)

theorem after_record_fuel {σ : Type} (r : Int) (x : Run (Int × Cfg σ)) (hx : x ≠ .nofuel) :
    after_record r x ≠ .nofuel := by
  cases x with
  | ok v => intro h; cases h
  | crash => intro h; cases h
  | nofuel => exact absurd rfl hx

theorem process_csv_line_fuel {σ : Type} (h : Handlers σ) (c : Cfg σ) :
    process_csv_line h c ≠ .nofuel := by
  unfold process_csv_line
  split
  · intro hn; cases hn
  · rename_i e; exact absurd e (parse_next_element_fuel _ _)
  · dsimp only
    split
    · intro hn; cases hn
    · split
      · exact after_record_fuel _ _ (process_in_port_fuel _ _)
      · split
        · exact after_record_fuel _ _ (process_out_port_fuel _ _)
        · split
          · exact after_record_fuel _ _ (by intro hn; cases hn)
          · split
            · exact after_record_fuel _ _ (process_atoms_fuel _ _)
            · intro hn; cases hn

theorem process_csv_line_empty {σ : Type} (h : Handlers σ) (s : σ) (calls : List CfgCall) :
    process_csv_line h ⟨some [], s, calls⟩ = .ok (-32, ⟨none, s, calls⟩) := rfl

theorem takeWhile_after_takeWhile (p : Char → Bool) : ∀ (l : List Char),
    (l.drop (l.takeWhile p).length).takeWhile p = [] := by
  intro l
  induction l with
  | nil => rfl
  | cons a l ih =>
    by_cases ha : p a = true
    · simp only [List.takeWhile_cons, ha, if_true, List.length_cons, List.drop_succ_cons]
      exact ih
    · simp only [List.takeWhile_cons, ha, if_false, List.length_nil, List.drop_zero,
        Bool.false_eq_true]

theorem read_loop_unfold {σ : Type} (h : Handlers σ) (buf : List Char) (fuel buf_idx : Nat)
    (s : σ) (calls : List CfgCall) (recs : List (CStr × Int)) :
    read_loop h buf (fuel + 1) buf_idx s calls recs =
      if buf_idx < buf.length then
        match process_csv_line h ⟨some (line_at buf buf_idx), s, calls⟩ with
        | .crash => .crash
        | .nofuel => .nofuel
        | .ok (process_res, c) =>
          if process_res < 0 then
            .ok ⟨recs ++ [(line_at buf buf_idx, process_res)], c.calls, c.hstate,
                 buf_idx + (copied_at buf buf_idx).length⟩
          else read_loop h buf fuel (buf_idx + (copied_at buf buf_idx).length) c.hstate c.calls
            (recs ++ [(line_at buf buf_idx, process_res)])
      else .ok ⟨recs, calls, s, buf_idx⟩ := by
  conv_lhs => unfold read_loop
  rfl

theorem read_loop_second_turn {σ : Type} (h : Handlers σ) (buf : List Char) (fuel : Nat)
    (s : σ) (calls : List CfgCall) (recs : List (CStr × Int)) :
    read_loop h buf (fuel + 1) (0 + (copied_at buf 0).length) s calls recs =
      if 0 + (copied_at buf 0).length < buf.length then
        .ok ⟨recs ++ [([], -32)], calls, s, 0 + (copied_at buf 0).length⟩
      else .ok ⟨recs, calls, s, 0 + (copied_at buf 0).length⟩ := by
  have hc : copied_at buf (0 + (copied_at buf 0).length) = [] := by
    unfold copied_at
    rw [List.drop_zero, Nat.zero_add]
    exact takeWhile_after_takeWhile _ buf
  have hl : line_at buf (0 + (copied_at buf 0).length) = [] := by
    unfold line_at; rw [hc]; rfl
  rw [read_loop_unfold, hl, hc, process_csv_line_empty]
  rfl

theorem read_loop_two_turns {σ : Type} (h : Handlers σ) (buf : List Char) (s : σ)
    (fuel : Nat) :
    read_loop h buf (fuel + 2) 0 s [] [] =
      if 0 < buf.length then
        match process_csv_line h ⟨some (line_at buf 0), s, []⟩ with
        | .crash => .crash
        | .nofuel => .nofuel
        | .ok (r, c) =>
          if r < 0 then .ok ⟨[(line_at buf 0, r)], c.calls, c.hstate, 0 + (copied_at buf 0).length⟩
          else if 0 + (copied_at buf 0).length < buf.length then
            .ok ⟨[(line_at buf 0, r), ([], -32)], c.calls, c.hstate,
              0 + (copied_at buf 0).length⟩
          else .ok ⟨[(line_at buf 0, r)], c.calls, c.hstate, 0 + (copied_at buf 0).length⟩
      else .ok ⟨[], [], s, 0⟩ := by
  rw [show fuel + 2 = (fuel + 1) + 1 from rfl, read_loop_unfold]
  by_cases hlt : 0 < buf.length
  · rw [if_pos hlt, if_pos hlt]
    cases hp : process_csv_line h ⟨some (line_at buf 0), s, []⟩ with
    | crash => rfl
    | nofuel => rfl
    | ok v =>
      obtain ⟨r, c⟩ := v
      dsimp only
      by_cases hr : r < 0
      · rw [if_pos hr, if_pos hr]; rfl
      · rw [if_neg hr, if_neg hr, read_loop_second_turn]
        rfl
  · rw [if_neg hlt, if_neg hlt]

/-- C26 (code defect): 22 calls `dfl_evt_add_port` with the UDP ports 1..22, every socket
call succeeding, leave `high_mark` at 21, above the `PORTS_MAX = 20` entries of the
tables: call 20 is refused and raises it to 20, call 21 takes slot 19, call 22 is refused
and raises it to 21.  From then on `find_free_slot` reads `ports[20]` and `ppoll` is handed
21 entries of `active_polls`, both past the tables. -/
theorem C26_high_mark_passes_the_tables :
    ∃ st, add_port_seq evt_init (udp_calls 22) =
        .ok (List.replicate 19 0 ++ [-1, 0, -1], st) ∧
      st.high_mark = 21 ∧ st.ports.length = PORTS_MAX ∧
      st.active_polls.length = PORTS_MAX ∧
      find_free_slot st = .crash ∧
      (∀ (cb : Callbacks) (fuel : Nat) (env : WaitEnv) (envs : List WaitEnv),
        dfl_evt_wait_n_eval cb fuel st (env :: envs) = .crash) ∧
      add_port_seq evt_init (udp_calls 23) = .crash :=
  ⟨_, rfl, rfl, rfl, rfl, rfl, fun _ _ _ _ => rfl, rfl⟩

/-- C27: the record loop of `dfl_cfg_read_and_process` ends within two turns, for every
buffer, every set of handlers and every state behind them: two units of fuel are never used
up, and more fuel changes nothing.  When `process_csv_line` returns on the first line the
function returns, having handed at most two lines to `process_csv_line`; the other way
for the loop to end is `process_csv_line` reaching a null cursor on the first line. -/
theorem C27_record_loop_terminates {σ : Type} (h : Handlers σ) (buf : List Char) (s : σ)
    (fuel : Nat) :
    dfl_cfg_read_and_process h (fuel + 2) buf s = dfl_cfg_read_and_process h 2 buf s ∧
    dfl_cfg_read_and_process h 2 buf s ≠ .nofuel ∧
    (∀ (r : Int) (c : Cfg σ),
      process_csv_line h ⟨some (line_at buf 0), s, []⟩ = .ok (r, c) →
      ∃ d, dfl_cfg_read_and_process h 2 buf s = .ok d ∧ d.records.length ≤ 2 ∧
        d.calls = c.calls ∧ d.hstate = c.hstate) ∧
    (buf = [] → dfl_cfg_read_and_process h 2 buf s = .ok ⟨[], [], s, 0⟩) := by
  have h2 := read_loop_two_turns h buf s 0
  have hf := read_loop_two_turns h buf s fuel
  rw [Nat.zero_add] at h2
  refine ⟨?_, ?_, ?_, ?_⟩
  · unfold dfl_cfg_read_and_process
    rw [hf, h2]
  · unfold dfl_cfg_read_and_process
    rw [h2]
    split
    · cases hp : process_csv_line h ⟨some (line_at buf 0), s, []⟩ with
      | crash => intro hn; cases hn
      | nofuel => exact absurd hp (process_csv_line_fuel _ _)
      | ok v =>
        obtain ⟨r, c⟩ := v
        dsimp only
        split
        · intro hn; cases hn
        · split <;> (intro hn; cases hn)
    · intro hn; cases hn
  · intro r c hp
    unfold dfl_cfg_read_and_process
    rw [h2, hp]
    dsimp only
    split
    · split
      · exact ⟨_, rfl, by simp, rfl, rfl⟩
      · split
        · exact ⟨_, rfl, by simp, rfl, rfl⟩
        · exact ⟨_, rfl, by simp, rfl, rfl⟩
    · rename_i hlen
      exact ⟨_, rfl, by simp, by
        have : line_at buf 0 = [] := by
          have : buf = [] := List.length_eq_zero.mp (by omega)
          subst this; rfl
        rw [this, process_csv_line_empty] at hp
        cases hp; rfl, by
        have : line_at buf 0 = [] := by
          have : buf = [] := List.length_eq_zero.mp (by omega)
          subst this; rfl
        rw [this, process_csv_line_empty] at hp
        cases hp; rfl⟩
  · intro hb
    subst hb
    rfl

/-- C27, at a concrete input: a buffer of three lines with consecutive newlines and no
final newline, read with accepting handlers. -/
theorem C27_record_loop_terminates_witness :
    ∃ d, dfl_cfg_read_and_process accept_all 2 "in-port,p1,,5000\n\n\nxx".toList () = .ok d ∧
      d.records.length ≤ 2 ∧ d.calls = [.in_port "p1".toList 5000] ∧ d.hstate = () :=
  (C27_record_loop_terminates accept_all "in-port,p1,,5000\n\n\nxx".toList () 0).2.2.1
    1 ⟨none, (), [.in_port "p1".toList 5000]⟩ rfl

/-! ### The readiness scan ends -/

theorem flagged_within_cycle (st : EvtState) (j : Nat)
    (hcur : st.last_poll_idx < st.high_mark) (hj : j < st.high_mark)
    (hflag : slot_flagged st j = true) :
    ∃ d, d < st.high_mark ∧
      slot_flagged st ((st.last_poll_idx + 1 + d) % st.high_mark) = true := by
  by_cases hjl : st.last_poll_idx + 1 ≤ j
  · refine ⟨j - (st.last_poll_idx + 1), by omega, ?_⟩
    rw [show st.last_poll_idx + 1 + (j - (st.last_poll_idx + 1)) = j by omega,
      Nat.mod_eq_of_lt hj]
    exact hflag
  · refine ⟨j + st.high_mark - (st.last_poll_idx + 1), by omega, ?_⟩
    rw [show st.last_poll_idx + 1 + (j + st.high_mark - (st.last_poll_idx + 1)) =
        j + st.high_mark by omega, Nat.add_mod_right, Nat.mod_eq_of_lt hj]
    exact hflag

/-- C28: in a registry whose `high_mark` is within the table `active_polls`, with the cursor
below `high_mark` and some slot below `high_mark` that has `POLLIN`, `POLLERR`, `POLLHUP` or
`POLLNVAL` set, the readiness scan ends after inspecting `d + 1 ≤ high_mark` slots, `d`
being the number of clean slots in front of the first flagged one in the cyclic order
after the cursor: with fuel for `high_mark` turns or more it gives what `d + 1` turns
give, which is the return of -10 at an error flag or the servicing of the slot (return 0),
and the cursor is then that slot, below `high_mark`. -/
theorem C28_scan_terminates (st : EvtState) (fuel j : Nat)
    (hcur : st.last_poll_idx < st.high_mark)
    (hlen : st.high_mark ≤ st.active_polls.length) (hj : j < st.high_mark)
    (hflag : slot_flagged st j = true) (hfuel : st.high_mark ≤ fuel) :
    ∃ d, d < st.high_mark ∧
      (∀ e, e < d →
        slot_flagged st ((st.last_poll_idx + 1 + e) % st.high_mark) = false) ∧
      slot_flagged st ((st.last_poll_idx + 1 + d) % st.high_mark) = true ∧
      readiness_scan fuel st = readiness_scan (d + 1) st ∧
      (st.last_poll_idx + 1 + d) % st.high_mark < st.high_mark ∧
      (readiness_scan fuel st =
          .ok (.fatal { st with
            last_poll_idx := (st.last_poll_idx + 1 + d) % st.high_mark }) ∨
        readiness_scan fuel st =
          .ok (.serve { st with
            last_poll_idx := (st.last_poll_idx + 1 + d) % st.high_mark }
            ((st.last_poll_idx + 1 + d) % st.high_mark))) := by
  have hex : ∃ d, slot_flagged st ((st.last_poll_idx + 1 + d) % st.high_mark) = true := by
    obtain ⟨d, -, hd⟩ := flagged_within_cycle st j hcur hj hflag
    exact ⟨d, hd⟩
  obtain ⟨d0, hd0, hf0⟩ := flagged_within_cycle st j hcur hj hflag
  have hdlt : Nat.find hex < st.high_mark :=
    lt_of_le_of_lt (Nat.find_min' hex hf0) hd0
  have hspec := Nat.find_spec hex
  have hmin : ∀ e, e < Nat.find hex →
      slot_flagged st ((st.last_poll_idx + 1 + e) % st.high_mark) = false := by
    intro e he
    have := Nat.find_min hex he
    simpa using this
  have hclean : ∀ e, e < Nat.find hex →
      slot_ready st ((st.last_poll_idx + 1 + e) % st.high_mark) = false ∧
      slot_error st ((st.last_poll_idx + 1 + e) % st.high_mark) = false := by
    intro e he
    have := hmin e he
    unfold slot_flagged at this
    simpa using this
  have hpos : 0 < st.high_mark := by omega
  have hmod := Nat.mod_lt (st.last_poll_idx + 1 + Nat.find hex) hpos
  have hA := readiness_scan_first (Nat.find hex) (fuel - 1 - Nat.find hex) st.last_poll_idx
    st.high_mark st rfl rfl hcur hlen hclean
  have hB := readiness_scan_first (Nat.find hex) 0 st.last_poll_idx
    st.high_mark st rfl rfl hcur hlen hclean
  rw [show fuel - 1 - Nat.find hex + 1 + Nat.find hex = fuel by omega] at hA
  rw [show 0 + 1 + Nat.find hex = Nat.find hex + 1 by omega] at hB
  refine ⟨Nat.find hex, hdlt, hmin, hspec, ?_, hmod, ?_⟩
  · rw [hA, hB]
    unfold slot_flagged at hspec
    by_cases he : slot_error st ((st.last_poll_idx + 1 + Nat.find hex) % st.high_mark) = true
    · rw [if_pos he, if_pos he]
    · have hr : slot_ready st ((st.last_poll_idx + 1 + Nat.find hex) % st.high_mark) = true := by
        rw [Bool.or_eq_true] at hspec
        rcases hspec with h | h
        · exact h
        · exact absurd h he
      rw [if_neg he, if_neg he, if_pos hr, if_pos hr]
  · rw [hA]
    unfold slot_flagged at hspec
    by_cases he : slot_error st ((st.last_poll_idx + 1 + Nat.find hex) % st.high_mark) = true
    · left; rw [if_pos he]
    · have hr : slot_ready st ((st.last_poll_idx + 1 + Nat.find hex) % st.high_mark) = true := by
        rw [Bool.or_eq_true] at hspec
        rcases hspec with h | h
        · exact h
        · exact absurd h he
      right; rw [if_neg he, if_pos hr]

/-- C28, at a concrete input: two registered ports, the cursor on slot 0 and slot 1
readable; one slot is inspected. -/
theorem C28_scan_terminates_witness :
    ∃ d, d < 2 ∧
      readiness_scan 2 (after_ppoll two_ports env_slot1_readable) =
        readiness_scan (d + 1) (after_ppoll two_ports env_slot1_readable) := by
  obtain ⟨d, h1, -, -, h2, -⟩ :=
    C28_scan_terminates (after_ppoll two_ports env_slot1_readable) 2 1
      (by decide) (by decide) (by decide) (by decide) (by decide)
  exact ⟨d, h1, h2⟩

/-! ## Theorems about template `CFG_atom.C` -/

theorem atom_valid_of_lt (n : Nat) (h : n < 2 ^ 31) : DFL_atom_is_valid n = true := by
  unfold DFL_atom_is_valid DFL_ATOM_INVALID_BIT
  have e : (0x80000000 : Nat) = 2 ^ 31 := by norm_num
  rw [e, Nat.and_two_pow, Nat.testBit_lt_two_pow h]
  rfl

theorem atoms_all_valid_iff : ∀ (t : List DFL_atom_entry_t),
    atoms_all_valid t = true ↔ ∀ e ∈ t, DFL_atom_is_valid e.id_nr = true := by
  intro t
  induction t with
  | nil => simp [atoms_all_valid]
  | cons a t ih =>
    unfold atoms_all_valid
    by_cases ha : DFL_atom_is_valid a.id_nr = true
    · simp only [ha, Bool.not_true, Bool.false_eq_true, if_false, ih, List.mem_cons,
        forall_eq_or_imp, true_and]
    · have hf : DFL_atom_is_valid a.id_nr = false := by
        cases hb : DFL_atom_is_valid a.id_nr with
        | true => exact absurd hb ha
        | false => rfl
      simp only [hf, Bool.not_false, if_true, Bool.false_eq_true, false_iff, not_forall]
      exact ⟨a, List.mem_cons_self _ _, by simp [hf]⟩

theorem atom_assign_valid (nm : CStr) (id_nr : Nat) (hid : DFL_atom_is_valid id_nr = true) :
    ∀ (t t1 : List DFL_atom_entry_t), atom_assign nm id_nr t = some t1 →
    (∀ e ∈ t, DFL_atom_is_valid e.id_nr = true) →
    ∀ e ∈ t1, DFL_atom_is_valid e.id_nr = true := by
  intro t
  induction t with
  | nil => intro t1 h; cases h
  | cons a t ih =>
    intro t1 h hall
    unfold atom_assign at h
    split at h
    · cases h
      intro e he
      rcases List.mem_cons.mp he with rfl | he
      · exact hid
      · exact hall e (List.mem_cons_of_mem _ he)
    · split at h
      · rename_i es1 hes
        cases h
        intro e he
        rcases List.mem_cons.mp he with rfl | he
        · exact hall _ (List.mem_cons_self _ _)
        · exact ih es1 hes (fun x hx => hall x (List.mem_cons_of_mem _ hx)) e he
      · cases h

theorem static_sentinel (len id_nr : Nat) (v : AtomVars) :
    CFG_atom_static len none id_nr v =
      if ∀ e ∈ v.atom_table, DFL_atom_is_valid e.id_nr = true then
        (0, { v with atom_table_inited := true })
      else (-31, v) := by
  unfold CFG_atom_static
  by_cases h : atoms_all_valid v.atom_table = true
  · rw [if_pos h, if_pos ((atoms_all_valid_iff _).mp h)]
  · rw [if_neg h, if_neg (fun hh => h ((atoms_all_valid_iff _).mpr hh))]

theorem static_keeps_complete (len : Nat) (name : Option CStr) (id_nr : Nat) (v : AtomVars)
    (hv : table_complete v) (hid : name ≠ none → DFL_atom_is_valid id_nr = true) :
    table_complete (CFG_atom_static len name id_nr v).2 := by
  cases name with
  | none =>
    rw [static_sentinel]
    split
    · rename_i hall
      intro _
      exact hall
    · exact hv
  | some nm =>
    have hid1 := hid (by simp)
    unfold CFG_atom_static
    dsimp only
    cases ha : atom_assign nm id_nr v.atom_table with
    | some t1 =>
      dsimp only
      intro hi
      exact atom_assign_valid nm id_nr hid1 _ _ ha (hv hi)
    | none =>
      dsimp only
      split
      · exact hv
      · exact hv

theorem atom_calls_run_static : ∀ (calls : List AtomCall) (v : AtomVars),
    table_complete v → (∀ c ∈ calls, c.name ≠ none → c.id_nr < 2 ^ 31) →
    ∃ rs v1, atom_calls_run false v calls = .ok (rs, v1) ∧ table_complete v1 ∧
      rs.length = calls.length := by
  intro calls
  induction calls with
  | nil => intro v hv _; exact ⟨[], v, rfl, hv, rfl⟩
  | cons c cs ih =>
    intro v hv hids
    have hstep := static_keeps_complete c.len c.name c.id_nr v hv
      (fun hn => atom_valid_of_lt _ (hids c (List.mem_cons_self _ _) hn))
    obtain ⟨rs, v1, h1, h2, h3⟩ := ih _ hstep (fun x hx => hids x (List.mem_cons_of_mem _ hx))
    refine ⟨(CFG_atom_static c.len c.name c.id_nr v).1 :: rs, v1, ?_, h2, by simp [h3]⟩
    simp only [atom_calls_run, CFG_atom, Bool.false_eq_true, if_false, h1]

theorem to_int32_lt (x : Int) : to_int32 x < 2 ^ 31 := by
  unfold to_int32; omega

theorem atoms_loop_ids : ∀ (room : Nat) (pr : Int) (pp : Option CStr)
    (atoms atoms1 : List atom_entry_t) (pr1 : Int) (pp1 : Option CStr),
    process_atoms_loop room pr pp atoms = .ok (.inr (pr1, atoms1), pp1) →
    (∀ a ∈ atoms, 0 ≤ a.id_nr ∧ a.id_nr < 2 ^ 31) →
    ∀ a ∈ atoms1, 0 ≤ a.id_nr ∧ a.id_nr < 2 ^ 31 := by
  intro room
  induction room with
  | zero =>
    intro pr pp atoms atoms1 pr1 pp1 h hall
    cases h
    exact hall
  | succ room ih =>
    intro pr pp atoms atoms1 pr1 pp1 h hall
    unfold process_atoms_loop at h
    split at h
    · split at h
      · cases h
      · cases h
      · split at h
        · cases h
        · split at h
          · cases h
          · cases h
          · split at h
            · cases h
            · dsimp only at h
              split at h
              · cases h
              · split at h
                · cases h
                · rename_i hneg
                  refine ih _ _ _ _ _ _ h ?_
                  intro a ha
                  rcases List.mem_append.mp ha with ha | ha
                  · exact hall a ha
                  · rw [List.mem_singleton] at ha
                    subst ha
                    exact ⟨not_lt.mp hneg, to_int32_lt _⟩
    · cases h
      exact hall

theorem atoms_call_loop_complete (n : Nat) : ∀ (atoms : List atom_entry_t) (v : AtomVars)
    (calls : List CfgCall), (∀ a ∈ atoms, 0 ≤ a.id_nr ∧ a.id_nr < 2 ^ 31) →
    table_complete v →
    table_complete (atoms_call_loop cfg_atom_handler n atoms v calls).2.1 := by
  intro atoms
  induction atoms with
  | nil => intro v calls _ hv; exact hv
  | cons a as ih =>
    intro v calls hids hv
    obtain ⟨h0, h1⟩ := hids a (List.mem_cons_self _ _)
    have hid : DFL_atom_is_valid (a.id_nr % 2 ^ 32).toNat = true :=
      atom_valid_of_lt _ (by omega)
    have hstep : table_complete (cfg_atom_handler n (some a.name) a.id_nr v).2 :=
      static_keeps_complete n (some a.name) _ v hv (fun _ => hid)
    unfold atoms_call_loop
    dsimp only
    split
    · exact hstep
    · exact ih _ _ (fun x hx => hids x (List.mem_cons_of_mem _ hx)) hstep

theorem process_atoms_complete (c c1 : Cfg AtomVars) (r : Int)
    (hv : table_complete c.hstate)
    (h : process_atoms static_atom_handlers c = .ok (r, c1)) :
    table_complete c1.hstate := by
  unfold process_atoms at h
  simp only [static_atom_handlers] at h
  split at h
  · cases h
  · cases h
  · cases h; exact hv
  · rename_i pr atoms pp hloop
    have hids := atoms_loop_ids _ _ _ _ _ _ _ hloop (by intro a ha; cases ha)
    have hcall := atoms_call_loop_complete atoms.length atoms c.hstate c.calls hids hv
    split at h
    · cases h; exact hv
    · split at h
      · cases h; exact hcall
      · have hsent := static_keeps_complete atoms.length none (0 % 2 ^ 32 : Int).toNat _ hcall
          (fun hn => absurd rfl hn)
        split at h
        · cases h; exact hsent
        · cases h; exact hsent

theorem CFG_atom_alloc_fields (len : Nat) (malloc_ok : Bool) (v : AtomVars) :
    (CFG_atom_alloc len malloc_ok v).atom_table = v.atom_table ∧
    (CFG_atom_alloc len malloc_ok v).atom_table_inited = v.atom_table_inited ∧
    (CFG_atom_alloc len malloc_ok v).dyn_table_inited = v.dyn_table_inited ∧
    (CFG_atom_alloc len malloc_ok v).atom_table_len = v.atom_table_len := by
  unfold CFG_atom_alloc
  split <;> exact ⟨rfl, rfl, rfl, rfl⟩

/-- C24: in static mode (`param.init_table` false) the sentinel call of the handler
generated from `CFG_atom.C` returns 0 and sets `atom_table_inited` exactly when every entry
of the static table holds a valid id, and otherwise returns -31 and changes nothing.  A run
of handler calls whose pairs carry ids below `2^31`, from variables with the flag unset,
returns from every call and ends with the flag implying a complete table; and so does
every return of `process_atoms` with this handler installed, whose calls carry the
non-negative `int32_t` ids of the record. -/
theorem C24_ready_flag_implies_complete_table :
    (∀ (v : AtomVars) (len id_nr : Nat) (malloc_ok : Bool),
      CFG_atom false len none id_nr malloc_ok v =
        .ok (if ∀ e ∈ v.atom_table, DFL_atom_is_valid e.id_nr = true then
               (0, { v with atom_table_inited := true })
             else (-31, v))) ∧
    (∀ (v : AtomVars) (calls : List AtomCall), v.atom_table_inited = false →
      (∀ c ∈ calls, c.name ≠ none → c.id_nr < 2 ^ 31) →
      ∃ rs v1, atom_calls_run false v calls = .ok (rs, v1) ∧ rs.length = calls.length ∧
        (v1.atom_table_inited = true → ∀ e ∈ v1.atom_table, DFL_atom_is_valid e.id_nr = true)) ∧
    (∀ (c c1 : Cfg AtomVars) (r : Int),
      (c.hstate.atom_table_inited = true →
        ∀ e ∈ c.hstate.atom_table, DFL_atom_is_valid e.id_nr = true) →
      process_atoms static_atom_handlers c = .ok (r, c1) →
      (c1.hstate.atom_table_inited = true →
        ∀ e ∈ c1.hstate.atom_table, DFL_atom_is_valid e.id_nr = true)) := by
  refine ⟨?_, ?_, ?_⟩
  · intro v len id_nr malloc_ok
    simp only [CFG_atom, Bool.false_eq_true, if_false, static_sentinel]
  · intro v calls hv hids
    obtain ⟨rs, v1, h1, h2, h3⟩ := atom_calls_run_static calls v
      (fun hi => by rw [hv] at hi; cases hi) hids
    exact ⟨rs, v1, h1, h3, h2⟩
  · intro c c1 r hv h
    exact process_atoms_complete c c1 r hv h

/-- C24, at a concrete input: a static table with the atoms `A` and `B`, neither
configured; after the calls `(2, A, 1)`, `(2, B, 2)` and the sentinel the flag is set and
both ids are valid, and after `(2, A, 1)` and the sentinel alone the sentinel returns -31
and the flag is unset. -/
theorem C24_ready_flag_implies_complete_table_witness :
    (∃ rs v1, atom_calls_run false atom_vars_two
        [⟨2, some "A".toList, 1⟩, ⟨2, some "B".toList, 2⟩, ⟨2, none, 0⟩] = .ok (rs, v1) ∧
      rs.length = 3 ∧
      (v1.atom_table_inited = true → ∀ e ∈ v1.atom_table, DFL_atom_is_valid e.id_nr = true)) ∧
    atom_calls_run false atom_vars_two
        [⟨2, some "A".toList, 1⟩, ⟨2, some "B".toList, 2⟩, ⟨2, none, 0⟩] =
      .ok ([0, 0, 0], { atom_vars_two with
        atom_table := [⟨"A".toList, 1⟩, ⟨"B".toList, 2⟩], atom_table_inited := true }) ∧
    atom_calls_run false atom_vars_two [⟨2, some "A".toList, 1⟩, ⟨2, none, 0⟩] =
      .ok ([0, -31], { atom_vars_two with
        atom_table := [⟨"A".toList, 1⟩, ⟨"B".toList, DFL_ATOM_INVALID_BIT⟩] }) :=
  ⟨C24_ready_flag_implies_complete_table.2.1 atom_vars_two
    [⟨2, some "A".toList, 1⟩, ⟨2, some "B".toList, 2⟩, ⟨2, none, 0⟩] rfl (by decide),
   by decide, by decide⟩

/-- C25: in dynamic mode (`param.init_table` true) a sentinel call whose `len` differs from
`atom_table_len`, the number of pairs appended so far, returns -33 and leaves
`dyn_table_inited`, `atom_table_inited`, `atom_table_len` and the static table as they
were; when the two are equal the sentinel sets `dyn_table_inited` before it goes on to the
check of the static table.  Three calls that declare 3 atoms, two with a pair and then
the sentinel, end with -33 and both flags unset; declaring 2 they end with 0 and
`dyn_table_inited` set. -/
theorem C25_dynamic_count_mismatch :
    (∀ (v : AtomVars) (len id_nr : Nat) (malloc_ok : Bool), v.atom_table_len ≠ len →
      ∃ v1, CFG_atom true len none id_nr malloc_ok v = .ok (-33, v1) ∧
        v1.dyn_table_inited = v.dyn_table_inited ∧
        v1.atom_table_inited = v.atom_table_inited ∧
        v1.atom_table_len = v.atom_table_len ∧ v1.atom_table = v.atom_table) ∧
    (∀ (v : AtomVars) (len id_nr : Nat) (malloc_ok : Bool), v.atom_table_len = len →
      ∃ r v1, CFG_atom true len none id_nr malloc_ok v = .ok (r, v1) ∧
        v1.dyn_table_inited = true ∧ (r = 0 ∨ r = -31) ∧
        v1.atom_table_len = v.atom_table_len) ∧
    (∃ v1, atom_calls_run true atom_vars_dyn
        [⟨3, some "A".toList, 1⟩, ⟨3, some "B".toList, 2⟩, ⟨3, none, 0⟩] =
        .ok ([0, 0, -33], v1) ∧
      v1.dyn_table_inited = false ∧ v1.atom_table_inited = false ∧ v1.atom_table_len = 2) ∧
    (∃ v1, atom_calls_run true atom_vars_dyn
        [⟨2, some "A".toList, 1⟩, ⟨2, some "B".toList, 2⟩, ⟨2, none, 0⟩] =
        .ok ([0, 0, 0], v1) ∧
      v1.dyn_table_inited = true) := by
  refine ⟨?_, ?_, ⟨_, rfl, rfl, rfl, rfl⟩, ⟨_, rfl, rfl⟩⟩
  · intro v len id_nr malloc_ok hne
    obtain ⟨a1, a2, a3, a4⟩ := CFG_atom_alloc_fields len malloc_ok v
    refine ⟨CFG_atom_alloc len malloc_ok v, ?_, a3, a2, a4, a1⟩
    have hne1 : (CFG_atom_alloc len malloc_ok v).atom_table_len ≠ len := by rw [a4]; exact hne
    simp only [CFG_atom, if_true, CFG_atom_dynamic, hne1, ne_eq, not_false_eq_true]
  · intro v len id_nr malloc_ok heq
    obtain ⟨a1, a2, a3, a4⟩ := CFG_atom_alloc_fields len malloc_ok v
    have heq1 : (CFG_atom_alloc len malloc_ok v).atom_table_len = len := by rw [a4]; exact heq
    refine ⟨(CFG_atom_static len none id_nr
        { CFG_atom_alloc len malloc_ok v with dyn_table_inited := true }).1,
      (CFG_atom_static len none id_nr
        { CFG_atom_alloc len malloc_ok v with dyn_table_inited := true }).2, ?_, ?_⟩
    · simp only [CFG_atom, if_true, CFG_atom_dynamic, heq1, ne_eq, not_true_eq_false,
        if_false]
    · rw [static_sentinel]
      split
      · exact ⟨rfl, Or.inl rfl, a4⟩
      · exact ⟨rfl, Or.inr rfl, a4⟩

/-- C25, at a concrete input: a sentinel that declares 3 atoms when none has been appended. -/
theorem C25_dynamic_count_mismatch_witness :
    ∃ v1, CFG_atom true 3 none 0 true atom_vars_dyn = .ok (-33, v1) ∧
      v1.dyn_table_inited = atom_vars_dyn.dyn_table_inited ∧
      v1.atom_table_inited = atom_vars_dyn.atom_table_inited ∧
      v1.atom_table_len = atom_vars_dyn.atom_table_len ∧
      v1.atom_table = atom_vars_dyn.atom_table :=
  C25_dynamic_count_mismatch.1 atom_vars_dyn 3 0 true (by decide)

/-! ## Theorems about `StreamQ.h` -/

theorem set_same : ∀ (l : List Int) (i : Nat) (v : Int), l[i]? = some v → l.set i v = l := by
  intro l
  induction l with
  | nil => intro i v h; rfl
  | cons a l ih =>
    intro i v h
    cases i with
    | zero =>
      simp only [List.getElem?_cons_zero, Option.some.injEq] at h
      subst h; rfl
    | succ i =>
      simp only [List.getElem?_cons_succ] at h
      simp only [List.set_cons_succ, ih i v h]

theorem alloc_at (q : StreamQ_tables) (id : Nat) (s n : Int)
    (hs : q.StreamQ_block_start[id]? = some s) (hn : q.StreamQ_block_next[id]? = some n) :
    StreamQ_alloc_block q id =
      .ok ((alloc_cell s n).1,
        { StreamQ_block_start := q.StreamQ_block_start.set id (alloc_cell s n).2.1,
          StreamQ_block_next := q.StreamQ_block_next.set id (alloc_cell s n).2.2 }) := by
  unfold StreamQ_alloc_block alloc_cell
  rw [hn, hs]
  dsimp only
  by_cases h1 : n = s
  · rw [if_pos h1, if_pos h1]
    dsimp only
    rw [set_same _ _ _ hs, set_same _ _ _ hn]
  · rw [if_neg h1, if_neg h1]
    dsimp only
    by_cases h2 : n + 1 ≥ STREAMQ_BLOCKS_MAX
    · rw [if_pos h2, if_pos h2]
      by_cases h3 : s < 0
      · rw [if_pos h3, if_pos h3]
      · rw [if_neg h3, if_neg h3, set_same _ _ _ hs]
    · rw [if_neg h2, if_neg h2]
      by_cases h3 : s < 0
      · rw [if_pos h3, if_pos h3]
      · rw [if_neg h3, if_neg h3, set_same _ _ _ hs]

theorem pop_at (q : StreamQ_tables) (id : Nat) (s n : Int)
    (hs : q.StreamQ_block_start[id]? = some s) (hn : q.StreamQ_block_next[id]? = some n) :
    StreamQ_pop_block q id =
      .ok ((pop_cell s n).1,
        { StreamQ_block_start := q.StreamQ_block_start.set id (pop_cell s n).2.1,
          StreamQ_block_next := q.StreamQ_block_next.set id (pop_cell s n).2.2 }) := by
  unfold StreamQ_pop_block pop_cell
  rw [hs]
  dsimp only
  by_cases h1 : s ≥ 0
  · rw [if_pos h1, if_pos h1, hn]
    dsimp only
    by_cases h2 : (if to_int16 (s + 1) ≥ STREAMQ_BLOCKS_MAX then 0 else to_int16 (s + 1)) = n
    · rw [if_pos h2, if_pos h2]
    · rw [if_neg h2, if_neg h2]
      dsimp only
      rw [set_same _ _ _ hn]
  · rw [if_neg h1, if_neg h1]
    dsimp only
    rw [set_same _ _ _ hs, set_same _ _ _ hn]

theorem alloc_cell_spec (s n : Int) (out : List Int) (h : cell_inv s n out) :
    fifo_alloc_ok out (alloc_cell s n).1 ∧
    cell_inv (alloc_cell s n).2.1 (alloc_cell s n).2.2
      (if 0 ≤ (alloc_cell s n).1 then out ++ [(alloc_cell s n).1] else out) := by
  rcases h with ⟨hs, hn, hout⟩ | ⟨hs0, hs1, cnt, hc1, hc2, hn, hout⟩
  · subst hn hout
    have hne : ¬ ((0 : Int) = s) := by omega
    unfold alloc_cell fifo_alloc_ok
    rw [if_neg hne]
    dsimp only
    refine ⟨⟨by simp [STREAMQ_BLOCKS_MAX], fun _ => ⟨le_refl _, by decide, by simp⟩⟩, ?_⟩
    rw [if_pos (le_refl _), if_pos hs]
    right
    refine ⟨le_refl _, by decide, 1, le_refl _, by decide, by decide, by decide⟩
  · by_cases hfull : n = s
    · have hcnt : cnt = 10000 := by omega
      unfold alloc_cell fifo_alloc_ok
      rw [if_pos hfull]
      dsimp only
      refine ⟨⟨by simp [hout, hcnt, STREAMQ_BLOCKS_MAX], fun hh => absurd rfl hh⟩, ?_⟩
      rw [if_neg (by decide)]
      right
      exact ⟨hs0, hs1, cnt, hc1, hc2, hn, hout⟩
    · have hcnt : cnt < 10000 := by omega
      have hn0 : 0 ≤ n := by omega
      have hn1 : n < 10000 := by omega
      unfold alloc_cell fifo_alloc_ok
      rw [if_neg hfull]
      dsimp only
      refine ⟨⟨?_, fun _ => ⟨hn0, hn1, ?_⟩⟩, ?_⟩
      · constructor
        · intro hh; omega
        · intro hh
          rw [hout, List.length_map, List.length_range] at hh
          simp only [STREAMQ_BLOCKS_MAX] at hh
          omega
      · rw [hout]
        intro hmem
        obtain ⟨i, hi, he⟩ := List.mem_map.mp hmem
        rw [List.mem_range] at hi
        omega
      · rw [if_pos hn0, if_neg (by omega)]
        right
        refine ⟨hs0, hs1, cnt + 1, by omega, by omega, ?_, ?_⟩
        · unfold STREAMQ_BLOCKS_MAX to_int16
          split
          · push_cast; omega
          · push_cast; omega
        · rw [List.range_succ, List.map_append, hout, List.map_singleton, hn]

theorem pop_cell_spec (s n : Int) (out : List Int) (h : cell_inv s n out) :
    fifo_pop_ok out (pop_cell s n).1 ∧
    cell_inv (pop_cell s n).2.1 (pop_cell s n).2.2
      (if 0 ≤ (pop_cell s n).1 then out.erase (pop_cell s n).1 else out) := by
  rcases h with ⟨hs, hn, hout⟩ | ⟨hs0, hs1, cnt, hc1, hc2, hn, hout⟩
  · subst hn hout
    unfold pop_cell fifo_pop_ok
    rw [if_neg (by omega)]
    dsimp only
    refine ⟨⟨by simp [hs], fun hh => by omega⟩, ?_⟩
    rw [if_neg (by omega)]
    left
    exact ⟨hs, rfl, rfl⟩
  · obtain ⟨k, rfl⟩ : ∃ k, cnt = k + 1 := ⟨cnt - 1, by omega⟩
    have hwrap : (if to_int16 (s + 1) ≥ STREAMQ_BLOCKS_MAX then 0 else to_int16 (s + 1)) =
        (s + 1) % 10000 := by
      unfold to_int16 STREAMQ_BLOCKS_MAX
      split <;> omega
    have hlist : out = s :: (List.range k).map (fun (i : Nat) => ((s + 1) % 10000 + (i : Int)) % 10000) := by
      rw [hout, List.range_succ_eq_map, List.map_cons, List.map_map]
      congr 1
      · push_cast; omega
      · apply List.map_congr_left
        intro i _
        simp only [Function.comp, Nat.succ_eq_add_one]
        push_cast
        omega
    unfold pop_cell fifo_pop_ok
    rw [if_pos (by omega), hwrap]
    have hret : ∀ (a b : Int × Int × Int) (p : Prop) [Decidable p], a.1 = s → b.1 = s →
        (if p then a else b).1 = s := by
      intro a b p _ ha hb; split <;> assumption
    by_cases hk : k = 0
    · subst hk
      have he : (s + 1) % 10000 = n := by rw [hn]; push_cast; omega
      rw [if_pos he]
      dsimp only
      refine ⟨⟨by rw [hlist]; simp; omega, fun _ => by rw [hlist]; rfl⟩, ?_⟩
      rw [if_pos hs0, hlist]
      left
      refine ⟨by decide, rfl, ?_⟩
      simp
    · have he : ¬ ((s + 1) % 10000 = n) := by rw [hn]; push_cast; omega
      rw [if_neg he]
      dsimp only
      refine ⟨⟨by rw [hlist]; simp; omega, fun _ => by rw [hlist]; rfl⟩, ?_⟩
      rw [if_pos hs0]
      right
      refine ⟨by omega, by omega, k, by omega, by omega, ?_, ?_⟩
      · rw [hn]; push_cast; omega
      · rw [hlist, List.erase_cons_head]

theorem cell_exists (l : List Int) (i : Nat) (h : i < l.length) : ∃ v, l[i]? = some v :=
  ⟨l.get ⟨i, h⟩, List.getElem?_eq_getElem h⟩

theorem stream_call_inv (id : Nat) (q : StreamQ_tables) (out : List Int) (c : StreamCall)
    (hsz : tables_sized q) (hinv : stream_inv id q out) (hid : c.id < STREAMQ_BEARERS_MAX) :
    ∃ r q1, stream_call q c = .ok (r, q1) ∧ tables_sized q1 ∧
      stream_inv id q1 (outstanding_after id out c r) ∧
      (c = .alloc id → fifo_alloc_ok out r) ∧ (c = .pop id → fifo_pop_ok out r) := by
  obtain ⟨hl1, hl2⟩ := hsz
  obtain ⟨s, n, hs, hn, hcell⟩ := hinv
  have hidlt : id < q.StreamQ_block_start.length := by
    rcases Nat.lt_or_ge id q.StreamQ_block_start.length with h | h
    · exact h
    · rw [List.getElem?_eq_none h] at hs; cases hs
  cases c with
  | alloc i =>
    have hi : i < STREAMQ_BEARERS_MAX := hid
    by_cases hii : i = id
    · subst hii
      obtain ⟨h1, h2⟩ := alloc_cell_spec s n out hcell
      refine ⟨_, _, alloc_at q i s n hs hn, ?_, ?_, fun _ => h1, fun hc => by cases hc⟩
      · exact ⟨by simp only [List.length_set]; exact hl1,
          by simp only [List.length_set]; exact hl2⟩
      · refine ⟨(alloc_cell s n).2.1, (alloc_cell s n).2.2, ?_, ?_, ?_⟩
        · exact List.getElem?_set_self (by omega)
        · exact List.getElem?_set_self (by rw [hl2]; rw [hl1] at hidlt; exact hidlt)
        · dsimp only [outstanding_after]
          by_cases hr : 0 ≤ (alloc_cell s n).1
          · rw [if_pos ⟨rfl, hr⟩]; rw [if_pos hr] at h2; exact h2
          · rw [if_neg (fun hh => hr hh.2)]; rw [if_neg hr] at h2; exact h2
    · obtain ⟨si, hsi⟩ := cell_exists q.StreamQ_block_start i (by omega)
      obtain ⟨ni, hni⟩ := cell_exists q.StreamQ_block_next i (by omega)
      refine ⟨_, _, alloc_at q i si ni hsi hni, ?_, ?_, fun hc => ?_, fun hc => by cases hc⟩
      · exact ⟨by simp only [List.length_set]; exact hl1,
          by simp only [List.length_set]; exact hl2⟩
      · refine ⟨s, n, ?_, ?_, ?_⟩
        · show (q.StreamQ_block_start.set i _)[id]? = some s
          rw [List.getElem?_set_ne hii]; exact hs
        · show (q.StreamQ_block_next.set i _)[id]? = some n
          rw [List.getElem?_set_ne hii]; exact hn
        · dsimp only [outstanding_after]
          rw [if_neg (fun hh => hii hh.1)]; exact hcell
      · cases hc; exact absurd rfl hii
  | pop i =>
    have hi : i < STREAMQ_BEARERS_MAX := hid
    by_cases hii : i = id
    · subst hii
      obtain ⟨h1, h2⟩ := pop_cell_spec s n out hcell
      refine ⟨_, _, pop_at q i s n hs hn, ?_, ?_, fun hc => (by cases hc), fun _ => h1⟩
      · exact ⟨by simp only [List.length_set]; exact hl1,
          by simp only [List.length_set]; exact hl2⟩
      · refine ⟨(pop_cell s n).2.1, (pop_cell s n).2.2, ?_, ?_, ?_⟩
        · exact List.getElem?_set_self (by omega)
        · exact List.getElem?_set_self (by rw [hl2]; rw [hl1] at hidlt; exact hidlt)
        · dsimp only [outstanding_after]
          by_cases hr : 0 ≤ (pop_cell s n).1
          · rw [if_pos ⟨rfl, hr⟩]; rw [if_pos hr] at h2; exact h2
          · rw [if_neg (fun hh => hr hh.2)]; rw [if_neg hr] at h2; exact h2
    · obtain ⟨si, hsi⟩ := cell_exists q.StreamQ_block_start i (by omega)
      obtain ⟨ni, hni⟩ := cell_exists q.StreamQ_block_next i (by omega)
      refine ⟨_, _, pop_at q i si ni hsi hni, ?_, ?_, fun hc => (by cases hc), fun hc => ?_⟩
      · exact ⟨by simp only [List.length_set]; exact hl1,
          by simp only [List.length_set]; exact hl2⟩
      · refine ⟨s, n, ?_, ?_, ?_⟩
        · show (q.StreamQ_block_start.set i _)[id]? = some s
          rw [List.getElem?_set_ne hii]; exact hs
        · show (q.StreamQ_block_next.set i _)[id]? = some n
          rw [List.getElem?_set_ne hii]; exact hn
        · dsimp only [outstanding_after]
          rw [if_neg (fun hh => hii hh.1)]; exact hcell
      · cases hc; exact absurd rfl hii

theorem stream_calls_inv (id : Nat) : ∀ (calls : List StreamCall) (q : StreamQ_tables)
    (out : List Int), tables_sized q → stream_inv id q out →
    (∀ c ∈ calls, c.id < STREAMQ_BEARERS_MAX) →
    ∃ rs q1 out1, stream_calls_run id q out calls = .ok (rs, q1, out1) ∧
      rs.length = calls.length ∧ tables_sized q1 ∧ stream_inv id q1 out1 := by
  intro calls
  induction calls with
  | nil => intro q out hsz hinv _; exact ⟨[], q, out, rfl, rfl, hsz, hinv⟩
  | cons c cs ih =>
    intro q out hsz hinv hids
    obtain ⟨r, q1, h1, h2, h3, -, -⟩ := stream_call_inv id q out c hsz hinv
      (hids c (List.mem_cons_self _ _))
    obtain ⟨rs, q2, out2, k1, k2, k3, k4⟩ := ih q1 _ h2 h3
      (fun x hx => hids x (List.mem_cons_of_mem _ hx))
    refine ⟨r :: rs, q2, out2, ?_, by simp [k2], k3, k4⟩
    simp only [stream_calls_run, h1, k1]

theorem stream_inv_init : tables_sized StreamQ_init ∧ stream_inv 0 StreamQ_init [] :=
  ⟨⟨rfl, rfl⟩, ⟨-2, 0, by decide, by decide, Or.inl ⟨by decide, rfl, rfl⟩⟩⟩

theorem cell_inv_length (s n : Int) (out : List Int) (h : cell_inv s n out) :
    out.length ≤ 10000 := by
  rcases h with ⟨-, -, hout⟩ | ⟨-, -, cnt, -, hc2, -, hout⟩
  · subst hout; simp
  · subst hout; simp only [List.length_map, List.length_range]; exact hc2

/-- C29: for stream 0, after any sequence of calls of `StreamQ_alloc_block` and
`StreamQ_pop_block` from the initial tables (calls for other streams in range may come in
between), every call returns, at most `STREAMQ_BLOCKS_MAX = 10000` blocks are outstanding,
and the next call behaves as a bounded FIFO queue of that capacity does: an allocation
returns -1 exactly when 10000 blocks are outstanding and otherwise a block number in
`[0, 10000)` that is not outstanding; a pop returns a negative value exactly when no block
is outstanding and otherwise the oldest outstanding block, which is then no longer
outstanding. -/
theorem C29_stream_zero_is_a_bounded_fifo (calls : List StreamCall)
    (hids : ∀ c ∈ calls, c.id < STREAMQ_BEARERS_MAX) :
    ∃ rs q out, stream_calls_run 0 StreamQ_init [] calls = .ok (rs, q, out) ∧
      rs.length = calls.length ∧ out.length ≤ 10000 ∧
      (∃ r q1, StreamQ_alloc_block q 0 = .ok (r, q1) ∧ fifo_alloc_ok out r) ∧
      (∃ r q1, StreamQ_pop_block q 0 = .ok (r, q1) ∧ fifo_pop_ok out r ∧
        (0 ≤ r → out = r :: outstanding_after 0 out (.pop 0) r)) := by
  obtain ⟨rs, q, out, h1, h2, h3, h4⟩ := stream_calls_inv 0 calls StreamQ_init []
    stream_inv_init.1 stream_inv_init.2 hids
  have hlen : out.length ≤ 10000 := by
    obtain ⟨s, n, -, -, hc⟩ := h4
    exact cell_inv_length s n out hc
  obtain ⟨r, q1, a1, -, -, a4, -⟩ := stream_call_inv 0 q out (.alloc 0) h3 h4 (by decide)
  obtain ⟨r2, q2, b1, -, -, -, b5⟩ := stream_call_inv 0 q out (.pop 0) h3 h4 (by decide)
  refine ⟨rs, q, out, h1, h2, hlen, ⟨r, q1, a1, a4 rfl⟩, ⟨r2, q2, b1, b5 rfl, ?_⟩⟩
  intro hr
  have hhead := (b5 rfl).2 hr
  dsimp only [outstanding_after]
  rw [if_pos ⟨rfl, hr⟩]
  cases out with
  | nil => cases hhead
  | cons a t =>
    simp only [List.head?_cons, Option.some.injEq] at hhead
    subst hhead
    rw [List.erase_cons_head]

/-- C29, at a concrete input: a pop on the empty queue, two allocations, three pops and an
allocation, with calls for stream 7 in between. -/
theorem C29_stream_zero_is_a_bounded_fifo_witness :
    ∃ rs q out, stream_calls_run 0 StreamQ_init []
        [.pop 0, .alloc 0, .alloc 7, .alloc 0, .pop 0, .pop 7, .pop 0, .pop 0, .alloc 0] =
        .ok (rs, q, out) ∧
      rs.length = 9 ∧ out.length ≤ 10000 ∧
      (∃ r q1, StreamQ_alloc_block q 0 = .ok (r, q1) ∧ fifo_alloc_ok out r) ∧
      (∃ r q1, StreamQ_pop_block q 0 = .ok (r, q1) ∧ fifo_pop_ok out r ∧
        (0 ≤ r → out = r :: outstanding_after 0 out (.pop 0) r)) :=
  C29_stream_zero_is_a_bounded_fifo
    [.pop 0, .alloc 0, .alloc 7, .alloc 0, .pop 0, .pop 7, .pop 0, .pop 0, .alloc 0]
    (by decide)

/-- C30 (code defect): the initialiser `{-2}` of `StreamQ_block_start` reaches element 0
only.  For stream 0 the first pop returns -2 and the first allocation block 0; for every
other stream id below `STREAMQ_BEARERS_MAX` the entry starts at 0, equal to the entry of
`StreamQ_block_next`, so in the initial tables `StreamQ_pop_block(id)` returns 0, a block
that was never allocated, and `StreamQ_alloc_block(id)` returns -1. -/
theorem C30_streams_above_zero_start_full (id : Nat) (h1 : 1 ≤ id)
    (h2 : id < STREAMQ_BEARERS_MAX) :
    (∃ q1, StreamQ_pop_block StreamQ_init id = .ok (0, q1)) ∧
    StreamQ_alloc_block StreamQ_init id = .ok (-1, StreamQ_init) ∧
    (∃ q1, StreamQ_pop_block StreamQ_init 0 = .ok (-2, q1)) ∧
    (∃ q1, StreamQ_alloc_block StreamQ_init 0 = .ok (0, q1)) := by
  have hs : StreamQ_init.StreamQ_block_start[id]? = some 0 := by
    obtain ⟨k, rfl⟩ : ∃ k, id = k + 1 := ⟨id - 1, by omega⟩
    show ((-2 : Int) :: List.replicate (STREAMQ_BEARERS_MAX - 1) 0)[k + 1]? = some 0
    rw [List.getElem?_cons_succ, List.getElem?_replicate]
    simp only [STREAMQ_BEARERS_MAX] at h2 ⊢
    rw [if_pos (by omega)]
  have hn : StreamQ_init.StreamQ_block_next[id]? = some 0 := by
    show (List.replicate STREAMQ_BEARERS_MAX (0 : Int))[id]? = some 0
    rw [List.getElem?_replicate, if_pos h2]
  refine ⟨⟨_, pop_at StreamQ_init id 0 0 hs hn⟩, ?_, ⟨_, rfl⟩, ⟨_, rfl⟩⟩
  rw [alloc_at StreamQ_init id 0 0 hs hn]
  show Run.ok ((-1 : Int), _) = _
  congr 2
  show (⟨StreamQ_init.StreamQ_block_start.set id 0, StreamQ_init.StreamQ_block_next.set id 0⟩ :
    StreamQ_tables) = StreamQ_init
  rw [set_same _ _ _ hs, set_same _ _ _ hn]

/-- C30, at a concrete input: stream 1. -/
theorem C30_streams_above_zero_start_full_witness :
    StreamQ_pop_block StreamQ_init 1 =
      .ok (0, { StreamQ_init with
        StreamQ_block_start := (-2) :: 1 :: List.replicate 48 0 }) ∧
    StreamQ_alloc_block StreamQ_init 1 = .ok (-1, StreamQ_init) :=
  ⟨rfl, (C30_streams_above_zero_start_full 1 (by decide) (by decide)).2.1⟩

/-! ## The timeout handed to `ppoll` -/

/-- A turn of `dfl_evt_wait_n_eval` depends on `ppoll` only through its answer to the
arguments the turn hands it. -/
theorem wait_depends_on_answer (cb : Callbacks) (fuel : Nat) (st : EvtState)
    (env env2 : WaitEnv) (envs : List WaitEnv)
    (h1 : env2.clock_pre = env.clock_pre) (h2 : env2.clock_post = env.clock_post)
    (h3 : env2.accept = env.accept) (hp : poll_answer st env2 = poll_answer st env) :
    dfl_evt_wait_n_eval cb fuel st (env2 :: envs) =
      dfl_evt_wait_n_eval cb fuel st (env :: envs) := by
  have ha : after_ppoll st env2 = after_ppoll st env := by
    unfold after_ppoll
    rw [hp, h1]
  conv_lhs => unfold dfl_evt_wait_n_eval
  conv_rhs => unfold dfl_evt_wait_n_eval
  rw [hp, ha, h1, h2, h3]

/-- C8: in a turn of `dfl_evt_wait_n_eval` with a timer pending (`next_time_trig > 0`, an
`int64_t`) and a successful clock reading `now ≥ 0`, write `T = max 0 (next_time_trig - now)`.
`T` is not negative, and the call `ppoll(active_polls, high_mark, timeout_p, 0)` of the turn
is made with `high_mark` and a `timespec` with `tv_sec = T / 10^9` and `tv_nsec = T % 10^9`,
where `0 ≤ tv_nsec < 10^9` and `tv_sec * 10^9 + tv_nsec = T`: the answer the turn works with
is the answer of `ppoll` to exactly these arguments, and what `dfl_evt_wait_n_eval` does
depends on `ppoll` through that answer only.  With no timer pending `ppoll` is handed
`high_mark` and the null pointer (no timeout) in the same sense. -/
theorem C8_timeout_handed_to_ppoll (cb : Callbacks) (fuel : Nat) (st : EvtState)
    (env : WaitEnv) (envs : List WaitEnv)
    (hpend : st.next_time_trig > 0) (hrep : st.next_time_trig < 2 ^ 63)
    (hok : env.clock_pre.ret = 0) (hnow : ts_nsec env.clock_pre.ts ≥ 0) :
    0 ≤ max 0 (st.next_time_trig - ts_nsec env.clock_pre.ts) ∧
    poll_answer st env =
      env.ppoll st.high_mark
        (some ⟨max 0 (st.next_time_trig - ts_nsec env.clock_pre.ts) / 1000000000,
               max 0 (st.next_time_trig - ts_nsec env.clock_pre.ts) % 1000000000⟩) ∧
    0 ≤ max 0 (st.next_time_trig - ts_nsec env.clock_pre.ts) % 1000000000 ∧
    max 0 (st.next_time_trig - ts_nsec env.clock_pre.ts) % 1000000000 < 1000000000 ∧
    max 0 (st.next_time_trig - ts_nsec env.clock_pre.ts) / 1000000000 * 1000000000 +
      max 0 (st.next_time_trig - ts_nsec env.clock_pre.ts) % 1000000000 =
      max 0 (st.next_time_trig - ts_nsec env.clock_pre.ts) ∧
    (∀ env2 : WaitEnv, env2.clock_pre = env.clock_pre → env2.clock_post = env.clock_post →
      env2.accept = env.accept →
      env2.ppoll st.high_mark
          (some ⟨max 0 (st.next_time_trig - ts_nsec env.clock_pre.ts) / 1000000000,
                 max 0 (st.next_time_trig - ts_nsec env.clock_pre.ts) % 1000000000⟩) =
        env.ppoll st.high_mark
          (some ⟨max 0 (st.next_time_trig - ts_nsec env.clock_pre.ts) / 1000000000,
                 max 0 (st.next_time_trig - ts_nsec env.clock_pre.ts) % 1000000000⟩) →
      dfl_evt_wait_n_eval cb fuel st (env2 :: envs) =
        dfl_evt_wait_n_eval cb fuel st (env :: envs)) ∧
    (∀ (st0 : EvtState) (env0 : WaitEnv), ¬ st0.next_time_trig > 0 →
      poll_answer st0 env0 = env0.ppoll st0.high_mark none ∧
      ∀ env2 : WaitEnv, env2.clock_pre = env0.clock_pre →
        env2.clock_post = env0.clock_post → env2.accept = env0.accept →
        env2.ppoll st0.high_mark none = env0.ppoll st0.high_mark none →
        dfl_evt_wait_n_eval cb fuel st0 (env2 :: envs) =
          dfl_evt_wait_n_eval cb fuel st0 (env0 :: envs)) := by
  have hr := ts_nsec_range env.clock_pre.ts
  have hw : wrap64 (st.next_time_trig - ts_nsec env.clock_pre.ts) =
      st.next_time_trig - ts_nsec env.clock_pre.ts := by
    apply wrap64_eq_self <;> omega
  have hct : ∀ c : ClockRead, c = env.clock_pre →
      compute_timeout st c = (st, max 0 (st.next_time_trig - ts_nsec env.clock_pre.ts)) := by
    intro c hc
    subst hc
    simp only [compute_timeout, if_pos hpend, hok, ne_eq, not_true_eq_false, if_false, hw]
    congr 1
    split <;> omega
  have hnn : 0 ≤ max 0 (st.next_time_trig - ts_nsec env.clock_pre.ts) := by omega
  have hts : timeout_ts (max 0 (st.next_time_trig - ts_nsec env.clock_pre.ts)) =
      some ⟨max 0 (st.next_time_trig - ts_nsec env.clock_pre.ts) / 1000000000,
            max 0 (st.next_time_trig - ts_nsec env.clock_pre.ts) % 1000000000⟩ := by
    simp only [timeout_ts, if_neg (not_lt.mpr hnn), NSECS_IN_SEC,
      Int.tdiv_eq_ediv hnn (by decide : (0 : Int) ≤ 1000000000),
      Int.tmod_eq_emod hnn (by decide : (0 : Int) ≤ 1000000000)]
  have hpa : ∀ e : WaitEnv, e.clock_pre = env.clock_pre →
      poll_answer st e = e.ppoll st.high_mark
        (some ⟨max 0 (st.next_time_trig - ts_nsec env.clock_pre.ts) / 1000000000,
               max 0 (st.next_time_trig - ts_nsec env.clock_pre.ts) % 1000000000⟩) := by
    intro e he
    unfold poll_answer
    rw [hct e.clock_pre he, hts]
  refine ⟨hnn, hpa env rfl, Int.emod_nonneg _ (by decide), Int.emod_lt_of_pos _ (by decide),
    ?_, ?_, ?_⟩
  · have := Int.ediv_add_emod (max 0 (st.next_time_trig - ts_nsec env.clock_pre.ts)) 1000000000
    omega
  · intro env2 h1 h2 h3 hp
    apply wait_depends_on_answer cb fuel st env env2 envs h1 h2 h3
    rw [hpa env2 h1, hpa env rfl, hp]
  · intro st0 env0 h0
    have hct0 : ∀ c : ClockRead, compute_timeout st0 c = (st0, -1) := by
      intro c
      simp only [compute_timeout, if_neg h0]
    have hpa0 : ∀ e : WaitEnv, poll_answer st0 e = e.ppoll st0.high_mark none := by
      intro e
      unfold poll_answer
      rw [hct0]
      rfl
    refine ⟨hpa0 env0, ?_⟩
    intro env2 h1 h2 h3 hp
    apply wait_depends_on_answer cb fuel st0 env0 env2 envs h1 h2 h3
    rw [hpa0 env2, hpa0 env0, hp]

/-- C8, at a concrete input: deadline 5 500 000 000 ns, clock reading 2 s + 250 ns, and a
`ppoll` that reports readiness only for the timeout 3 s + 499 999 750 ns. -/
theorem C8_timeout_handed_to_ppoll_witness :
    poll_answer { evt_init with next_time_trig := 5500000000 } env_probe_timeout =
      env_probe_timeout.ppoll 0 (some ⟨3, 499999750⟩) ∧
    (poll_answer { evt_init with next_time_trig := 5500000000 } env_probe_timeout).res = 1 :=
  ⟨(C8_timeout_handed_to_ppoll cb_idle 0 { evt_init with next_time_trig := 5500000000 }
      env_probe_timeout [] (by decide) (by decide) rfl (by decide)).2.1, by decide⟩

/-! ## In-port records with a malformed `ip_port` field -/

/-- Every return of `process_in_port` with a status other than 0 and -42 has made no
handler call and has left the state behind the handlers as it was. -/
theorem process_in_port_quiet {σ : Type} (h : Handlers σ) (c c1 : Cfg σ) (status : Int)
    (hres : process_in_port h c = .ok (status, c1))
    (h0 : status ≠ 0) (h42 : status ≠ -42) :
    c1.calls = c.calls ∧ c1.hstate = c.hstate := by
  unfold process_in_port at hres
  repeat' first | split at hres | dsimp only at hres
  all_goals first
    | (cases hres; exact ⟨rfl, rfl⟩)
    | (cases hres; exact absurd rfl h0)
    | (cases hres; exact absurd rfl h42)
    | cases hres

/-- C14, counterexample: with an in-port handler installed, an `ip_port` field that is
not a numeric literal but has 26 characters makes `process_in_port` return -91, not -41. -/
theorem C14_long_field_is_not_minus_41 :
    (strtol "abcdefghijklmnopqrstuvwxyz".toList).2 ≠ [] ∧
    process_in_port accept_all ⟨some "p1,,abcdefghijklmnopqrstuvwxyz".toList, (), []⟩ =
      .ok (-91, ⟨some "abcdefghijklmnopqrstuvwxyz".toList, (), []⟩) :=
  ⟨by decide, rfl⟩

/-- C14, amended: on the rest `<name>,<host>,<ip_port>` of an in-port record, whatever the
lengths of its fields, whose `ip_port` field is non-empty and is not consumed entirely by
`strtol`, with an in-port handler installed, `process_in_port` returns without a handler
call, the state behind the handlers as it was.  When the name is not empty the status is
-41 if every field fits its buffer (name and host of at most 99 characters, `ip_port` of at
most 19) and -91 if one of them is longer.  In general, every return of `process_in_port`
with a status other than 0 and -42 has made no handler call. -/
theorem C14_not_a_number {σ : Type} (h : Handlers σ) (handler : CStr → Int → σ → Int × σ)
    (name host nr tail : CStr) (s : σ) (calls : List CfgCall)
    (hh : h.in_port_handler = some handler)
    (hname : is_field name) (hhost : is_field host)
    (hnr : is_field nr) (hnrne : nr ≠ []) (hbad : (strtol nr).2 ≠ [])
    (htail : ends_field tail) :
    (∃ status pp,
      process_in_port h ⟨some (name ++ ',' :: (host ++ ',' :: (nr ++ tail))), s, calls⟩ =
        .ok (status, ⟨pp, s, calls⟩) ∧
      (name ≠ [] →
        status = if name.length ≤ 99 ∧ host.length ≤ 99 ∧ nr.length ≤ 19 then -41 else -91)) ∧
    (∀ (c c1 : Cfg σ) (status : Int), process_in_port h c = .ok (status, c1) →
      status ≠ 0 → status ≠ -42 → c1.calls = c.calls ∧ c1.hstate = c.hstate) := by
  refine ⟨?_, fun c c1 status hres h0 h42 => process_in_port_quiet h c c1 status hres h0 h42⟩
  have e1 : ¬ ((1 : Int) < 0) := by decide
  have e91 : ((-91 : Int) < 0) := by decide
  by_cases hnl : name.length ≤ 99
  · have p1 := parse_next_element_field name (',' :: (host ++ ',' :: (nr ++ tail))) 100 hname
      (by omega) (ends_field_comma _)
    simp only [after_field_comma] at p1
    by_cases hne : name = []
    · subst hne
      refine ⟨1, some (host ++ ',' :: (nr ++ tail)), ?_, fun hn => absurd rfl hn⟩
      unfold process_in_port
      rw [hh]
      simp only [p1, or_true, if_true]
    · by_cases hhl : host.length ≤ 99
      · have p2 := parse_next_element_field host (',' :: (nr ++ tail)) 100 hhost
          (by omega) (ends_field_comma _)
        simp only [after_field_comma] at p2
        by_cases hnrl : nr.length ≤ 19
        · have p3 := parse_next_element_field nr tail 20 hnr (by omega) htail
          refine ⟨-41, (after_field tail).2, ?_, fun _ => by rw [if_pos ⟨hnl, hhl, hnrl⟩]⟩
          unfold process_in_port
          rw [hh]
          simp only [p1, p2, p3, hne, hnrne, hbad, after_field_nonneg tail, e1, or_self,
            if_false, ne_eq, not_false_eq_true, or_true, if_true]
        · have p3 := parse_next_element_long nr tail 20 hnr (by decide) (by omega)
          refine ⟨-91, some (nr ++ tail), ?_, fun _ => by rw [if_neg (fun hh => hnrl hh.2.2)]⟩
          unfold process_in_port
          rw [hh]
          simp only [p1, p2, p3, hne, e1, e91, or_self, if_false, true_or, if_true]
      · have p2 := parse_next_element_long host (',' :: (nr ++ tail)) 100 hhost (by decide)
          (by omega)
        refine ⟨-91, some (host ++ ',' :: (nr ++ tail)), ?_,
          fun _ => by rw [if_neg (fun hh => hhl hh.2.1)]⟩
        unfold process_in_port
        rw [hh]
        simp only [p1, p2, hne, e1, e91, or_self, if_false, if_true]
  · have p1 := parse_next_element_long name (',' :: (host ++ ',' :: (nr ++ tail))) 100 hname
      (by decide) (by omega)
    refine ⟨-91, some (name ++ ',' :: (host ++ ',' :: (nr ++ tail))), ?_,
      fun _ => by rw [if_neg (fun hh => hnl hh.1)]⟩
    unfold process_in_port
    rw [hh]
    simp only [p1, e91, true_or, if_true]

/-- C14, amended, at a concrete input: the rest `p1,,abc` of the record
`in-port,p1,,abc`. -/
theorem C14_not_a_number_witness :
    ∃ status pp,
      process_in_port accept_all ⟨some "p1,,abc".toList, (), []⟩ =
        .ok (status, ⟨pp, (), []⟩) ∧ status = -41 := by
  obtain ⟨⟨status, pp, h1, h2⟩, -⟩ :=
    C14_not_a_number accept_all (fun _ _ s => (0, s)) "p1".toList [] "abc".toList [] () []
      rfl (by decide) (by decide) (by decide) (by decide) (by decide) (by decide)
  exact ⟨status, pp, h1, (h2 (by decide)).trans (by decide)⟩

/-! ## Consecutive calls of `dfl_evt_wait_n_eval` -/

end Zoti
